import Mathlib

/-!
# FileHash: a verification development

A shallow embedding of the file-custody service (Go) and theorems about it.

Conventions of the embedding
* Go `[]byte` is `List Byte` with `Byte := Fin 256`. A Go `string` is a byte sequence,
  `GoString := List Byte`; the storage and token services, which read strings byte by byte or
  through UTF-8 decoding, take `GoString`. Where a string is a text (valid UTF-8: path names
  built by the code, decoded JSON fields, messages) it is `Str := List Char`, and `utf8Encode`
  gives its bytes.
* A Go function returning `(T, error)` returns `Except Err T`; `fmt.Errorf("m: %w", e)` is
  `Err.wrap "m" e`, `errors.New("m")` is `Err.new "m"`, a sentinel error of a library is
  `Err.lib "m"`, an error that wraps two errors is `Err.join`, a Go panic is `Err.panic "m"`.
* Randomness, the clock and the state of the request context are explicit inputs.
* Library primitives whose internals no property depends on (the AES block function, HMAC-SHA256)
  are parameters; the library algorithms built on them (GCM, the JWT parser, `path/filepath`)
  are modelled after their documented behaviour on Linux.
-/

namespace FileHash

/-! ## Basic types -/

/-- One octet of a Go byte slice. -/
abbrev Byte := Fin 256

/-- Go strings that hold a text (valid UTF-8), as lists of characters. -/
abbrev Str := List Char

/-- Go error values (and panics) that the modelled code can produce. -/
inductive Err where
  | new (m : String)
  | wrap (m : String) (inner : Err)
  | lib (m : String)
  | join (a b : Err)
  | panic (m : String)
  deriving DecidableEq, Repr

/-- Model of `errors.Is(e, target)`: `target` occurs in the tree of errors that `e` wraps. -/
def Err.is : Err → Err → Bool
  | Err.wrap m inner, target => (Err.wrap m inner == target) || Err.is inner target
  | Err.join a b, target => (Err.join a b == target) || Err.is a target || Err.is b target
  | e, target => e == target

/-- The decimal digit of `d % 10`. -/
def digitChar (d : Nat) : Char := Char.ofNat (48 + d % 10)

/-- Decimal digits of a number, least significant first. -/
def digitsRev : Nat → Nat → List Char
  | 0, _ => []
  | fuel + 1, n => digitChar n :: (if n / 10 = 0 then [] else digitsRev fuel (n / 10))

/-- A number in decimal, zero-padded to a width. -/
def decimalPad (width n : Nat) : Str :=
  let ds := (digitsRev (n + 1) n).reverse
  List.replicate (width - ds.length) '0' ++ ds

/-- A byte from a number, reduced modulo 256 (conversion to `byte`). -/
def toByte (n : Nat) : Byte := ⟨n % 256, Nat.mod_lt _ (by decide)⟩

/-! ## Go strings: byte sequences and their UTF-8 reading -/

/-- A Go `string`: any sequence of bytes, valid UTF-8 or not. -/
abbrev GoString := List Byte

/-- Constant `utf8.RuneError`, the replacement character U+FFFD. -/
def RuneError : Char := Char.ofNat 0xFFFD

/-- Model of `utf8.AppendRune` for a valid code point: its UTF-8 encoding. -/
def utf8EncodeChar (c : Char) : GoString :=
  if c.toNat < 0x80 then [toByte c.toNat]
  else if c.toNat < 0x800 then [toByte (0xC0 + c.toNat / 64), toByte (0x80 + c.toNat % 64)]
  else if c.toNat < 0x10000 then
    [toByte (0xE0 + c.toNat / 4096), toByte (0x80 + c.toNat / 64 % 64),
     toByte (0x80 + c.toNat % 64)]
  else
    [toByte (0xF0 + c.toNat / 262144), toByte (0x80 + c.toNat / 4096 % 64),
     toByte (0x80 + c.toNat / 64 % 64), toByte (0x80 + c.toNat % 64)]

/-- The Go string that holds a text: the concatenated UTF-8 encodings of its characters. -/
def utf8Encode (s : Str) : GoString := s.flatMap utf8EncodeChar

/-- A continuation byte within given bounds. -/
def inRange (lo hi : Nat) (b : Byte) : Bool := decide (lo ≤ b.val ∧ b.val ≤ hi)

/-- Model of `utf8.DecodeRune`: the first code point of a byte sequence and its width, or
`(RuneError, 1)` when the sequence does not start with a well-formed encoding (overlong forms,
surrogates and values above U+10FFFF are not well formed). -/
def decodeRune : GoString → Char × Nat
  | [] => (RuneError, 0)
  | b0 :: rest =>
    if b0.val < 0x80 then (Char.ofNat b0.val, 1)
    else if 0xC2 ≤ b0.val ∧ b0.val ≤ 0xDF then
      match rest with
      | b1 :: _ =>
        if inRange 0x80 0xBF b1 then
          (Char.ofNat ((b0.val - 0xC0) * 64 + (b1.val - 0x80)), 2)
        else (RuneError, 1)
      | _ => (RuneError, 1)
    else if 0xE0 ≤ b0.val ∧ b0.val ≤ 0xEF then
      match rest with
      | b1 :: b2 :: _ =>
        if inRange (if b0.val = 0xE0 then 0xA0 else 0x80) (if b0.val = 0xED then 0x9F else 0xBF) b1
            && inRange 0x80 0xBF b2 then
          (Char.ofNat ((b0.val - 0xE0) * 4096 + (b1.val - 0x80) * 64 + (b2.val - 0x80)), 3)
        else (RuneError, 1)
      | _ => (RuneError, 1)
    else if 0xF0 ≤ b0.val ∧ b0.val ≤ 0xF4 then
      match rest with
      | b1 :: b2 :: b3 :: _ =>
        if inRange (if b0.val = 0xF0 then 0x90 else 0x80) (if b0.val = 0xF4 then 0x8F else 0xBF) b1
            && inRange 0x80 0xBF b2 && inRange 0x80 0xBF b3 then
          (Char.ofNat ((b0.val - 0xF0) * 262144 + (b1.val - 0x80) * 4096 + (b2.val - 0x80) * 64
            + (b3.val - 0x80)), 4)
        else (RuneError, 1)
      | _ => (RuneError, 1)
    else (RuneError, 1)

/-- The code points a `for range` loop over a Go string yields: each well-formed encoding gives
its code point and each other byte gives `RuneError`; `skip` counts the bytes of the current
encoding that are still to be passed over. -/
def runesFrom : Nat → GoString → Str
  | _, [] => []
  | skip + 1, _ :: bs => runesFrom skip bs
  | 0, b :: bs => (decodeRune (b :: bs)).1 :: runesFrom ((decodeRune (b :: bs)).2 - 1) bs

/-- The text a Go string holds, read as `for range`, `strings.Map` and `encoding/json` read it:
bytes that are not part of a well-formed encoding become U+FFFD. -/
def runes (s : GoString) : Str := runesFrom 0 s

/-- The simple lower-case mapping of the Unicode Character Database (version 15.0) by ranges
`(lo, hi, step, target of lo)`: the code points `lo, lo + step, ...` up to `hi` map to
`target, target + step, ...`; all other code points map to themselves. -/
def lowerRanges : List (Nat × Nat × Nat × Nat) :=
  [(65, 90, 1, 97), (192, 214, 1, 224), (216, 222, 1, 248), (256, 302, 2, 257),
   (304, 304, 1, 105), (306, 310, 2, 307), (313, 327, 2, 314), (330, 374, 2, 331),
   (376, 376, 1, 255), (377, 381, 2, 378), (385, 385, 1, 595), (386, 388, 2, 387),
   (390, 390, 1, 596), (391, 391, 1, 392), (393, 394, 1, 598), (395, 395, 1, 396),
   (398, 398, 1, 477), (399, 399, 1, 601), (400, 400, 1, 603), (401, 401, 1, 402),
   (403, 403, 1, 608), (404, 404, 1, 611), (406, 406, 1, 617), (407, 407, 1, 616),
   (408, 408, 1, 409), (412, 412, 1, 623), (413, 413, 1, 626), (415, 415, 1, 629),
   (416, 420, 2, 417), (422, 422, 1, 640), (423, 423, 1, 424), (425, 425, 1, 643),
   (428, 428, 1, 429), (430, 430, 1, 648), (431, 431, 1, 432), (433, 434, 1, 650),
   (435, 437, 2, 436), (439, 439, 1, 658), (440, 440, 1, 441), (444, 444, 1, 445),
   (452, 452, 1, 454), (453, 453, 1, 454), (455, 455, 1, 457), (456, 456, 1, 457),
   (458, 458, 1, 460), (459, 475, 2, 460), (478, 494, 2, 479), (497, 497, 1, 499),
   (498, 500, 2, 499), (502, 502, 1, 405), (503, 503, 1, 447), (504, 542, 2, 505),
   (544, 544, 1, 414), (546, 562, 2, 547), (570, 570, 1, 11365), (571, 571, 1, 572),
   (573, 573, 1, 410), (574, 574, 1, 11366), (577, 577, 1, 578), (579, 579, 1, 384),
   (580, 580, 1, 649), (581, 581, 1, 652), (582, 590, 2, 583), (880, 882, 2, 881),
   (886, 886, 1, 887), (895, 895, 1, 1011), (902, 902, 1, 940), (904, 906, 1, 941),
   (908, 908, 1, 972), (910, 911, 1, 973), (913, 929, 1, 945), (931, 939, 1, 963),
   (975, 975, 1, 983), (984, 1006, 2, 985), (1012, 1012, 1, 952), (1015, 1015, 1, 1016),
   (1017, 1017, 1, 1010), (1018, 1018, 1, 1019), (1021, 1023, 1, 891), (1024, 1039, 1, 1104),
   (1040, 1071, 1, 1072), (1120, 1152, 2, 1121), (1162, 1214, 2, 1163), (1216, 1216, 1, 1231),
   (1217, 1229, 2, 1218), (1232, 1326, 2, 1233), (1329, 1366, 1, 1377), (4256, 4293, 1, 11520),
   (4295, 4295, 1, 11559), (4301, 4301, 1, 11565), (5024, 5103, 1, 43888), (5104, 5109, 1, 5112),
   (7312, 7354, 1, 4304), (7357, 7359, 1, 4349), (7680, 7828, 2, 7681), (7838, 7838, 1, 223),
   (7840, 7934, 2, 7841), (7944, 7951, 1, 7936), (7960, 7965, 1, 7952), (7976, 7983, 1, 7968),
   (7992, 7999, 1, 7984), (8008, 8013, 1, 8000), (8025, 8031, 2, 8017), (8040, 8047, 1, 8032),
   (8072, 8079, 1, 8064), (8088, 8095, 1, 8080), (8104, 8111, 1, 8096), (8120, 8121, 1, 8112),
   (8122, 8123, 1, 8048), (8124, 8124, 1, 8115), (8136, 8139, 1, 8050), (8140, 8140, 1, 8131),
   (8152, 8153, 1, 8144), (8154, 8155, 1, 8054), (8168, 8169, 1, 8160), (8170, 8171, 1, 8058),
   (8172, 8172, 1, 8165), (8184, 8185, 1, 8056), (8186, 8187, 1, 8060), (8188, 8188, 1, 8179),
   (8486, 8486, 1, 969), (8490, 8490, 1, 107), (8491, 8491, 1, 229), (8498, 8498, 1, 8526),
   (8544, 8559, 1, 8560), (8579, 8579, 1, 8580), (9398, 9423, 1, 9424), (11264, 11311, 1, 11312),
   (11360, 11360, 1, 11361), (11362, 11362, 1, 619), (11363, 11363, 1, 7549),
   (11364, 11364, 1, 637), (11367, 11371, 2, 11368), (11373, 11373, 1, 593),
   (11374, 11374, 1, 625), (11375, 11375, 1, 592), (11376, 11376, 1, 594),
   (11378, 11378, 1, 11379), (11381, 11381, 1, 11382), (11390, 11391, 1, 575),
   (11392, 11490, 2, 11393), (11499, 11501, 2, 11500), (11506, 11506, 1, 11507),
   (42560, 42604, 2, 42561), (42624, 42650, 2, 42625), (42786, 42798, 2, 42787),
   (42802, 42862, 2, 42803), (42873, 42875, 2, 42874), (42877, 42877, 1, 7545),
   (42878, 42886, 2, 42879), (42891, 42891, 1, 42892), (42893, 42893, 1, 613),
   (42896, 42898, 2, 42897), (42902, 42920, 2, 42903), (42922, 42922, 1, 614),
   (42923, 42923, 1, 604), (42924, 42924, 1, 609), (42925, 42925, 1, 620),
   (42926, 42926, 1, 618), (42928, 42928, 1, 670), (42929, 42929, 1, 647),
   (42930, 42930, 1, 669), (42931, 42931, 1, 43859), (42932, 42946, 2, 42933),
   (42948, 42948, 1, 42900), (42949, 42949, 1, 642), (42950, 42950, 1, 7566),
   (42951, 42953, 2, 42952), (42960, 42960, 1, 42961), (42966, 42968, 2, 42967),
   (42997, 42997, 1, 42998), (65313, 65338, 1, 65345), (66560, 66599, 1, 66600),
   (66736, 66771, 1, 66776), (66928, 66938, 1, 66967), (66940, 66954, 1, 66979),
   (66956, 66962, 1, 66995), (66964, 66965, 1, 67003), (68736, 68786, 1, 68800),
   (71840, 71871, 1, 71872), (93760, 93791, 1, 93792), (125184, 125217, 1, 125218)]

/-- Model of `unicode.ToLower`. -/
def unicodeToLower (c : Char) : Char :=
  match lowerRanges.find?
      (fun r => decide (r.1 ≤ c.toNat ∧ c.toNat ≤ r.2.1 ∧ (c.toNat - r.1) % r.2.2.1 = 0)) with
  | some r => Char.ofNat (r.2.2.2 + (c.toNat - r.1))
  | none => c

/-! ## Constants of `pkg/crypto/constants.go` -/

/-- Constant `AESKeySize` of `pkg/crypto/constants.go`. -/
def AESKeySize : Nat := 32

/-- Constant `GCMNonceSize` of `pkg/crypto/constants.go`. -/
def GCMNonceSize : Nat := 12

/-! ## AES-GCM (Go `crypto/cipher`, NIST SP 800-38D) over a block function -/

/-- The AES block function of `crypto/aes`, a parameter: key, 128-bit block ↦ 128-bit block.
Blocks are numbers below `2^128` (big-endian reading of the 16 bytes). -/
abbrev BlockFn := List Byte → Nat → Nat

/-- Big-endian value of a byte string. -/
def bytesToNat (l : List Byte) : Nat :=
  l.foldl (fun acc b => acc * 256 + b.val) 0

/-- Byte `j` (0 is the most significant) of a 16-byte block. -/
def blockByte (x : Nat) (j : Nat) : Byte :=
  ⟨(x / 256 ^ (15 - j)) % 256, Nat.mod_lt _ (by decide)⟩

/-- The 16 bytes of a block. -/
def blockBytes (x : Nat) : List Byte :=
  (List.range 16).map (blockByte x)

/-- Counter block of 12-byte-nonce GCM: the nonce followed by a 32-bit big-endian counter
(`gcmInc32` wraps the counter modulo `2^32`). -/
def counterBlock (nonce : List Byte) (ctr : Nat) : Nat :=
  bytesToNat nonce * 2 ^ 32 + ctr % 2 ^ 32

/-- Byte `i` of the CTR keystream: data block `i / 16` uses counter value `2 + i / 16`. -/
def keystreamByte (E : BlockFn) (key nonce : List Byte) (i : Nat) : Byte :=
  blockByte (E key (counterBlock nonce (2 + i / 16)) % 2 ^ 128) (i % 16)

/-- The first `n` bytes of the CTR keystream. -/
def keystream (E : BlockFn) (key nonce : List Byte) (n : Nat) : List Byte :=
  (List.range n).map (keystreamByte E key nonce)

/-- Model of `gcm.counterCrypt`: XOR of the data with the keystream. -/
def counterCrypt (E : BlockFn) (key nonce data : List Byte) : List Byte :=
  List.zipWith (fun d k => d ^^^ k) data (keystream E key nonce data.length)

/-- One step of the multiplication in GF(2^128) (SP 800-38D, algorithm 1); bit 0 is the most
significant bit of the block. -/
def gfMulStep (x : Nat) (zv : Nat × Nat) (i : Nat) : Nat × Nat :=
  let z := if x.testBit (127 - i) then zv.1 ^^^ zv.2 else zv.1
  let v := if zv.2.testBit 0 then (zv.2 / 2) ^^^ (0xE1 * 2 ^ 120) else zv.2 / 2
  (z, v)

/-- Multiplication in GF(2^128) as used by GHASH. -/
def gfMul (x y : Nat) : Nat :=
  ((List.range 128).foldl (gfMulStep x) (0, y)).1

/-- The 16-byte blocks of a byte string, the last one zero-padded on the right. -/
def ghashBlocks : Nat → List Byte → List Nat
  | 0, _ => []
  | _ + 1, [] => []
  | fuel + 1, b :: bs =>
    let blk := (b :: bs).take 16
    bytesToNat (blk ++ List.replicate (16 - blk.length) 0) :: ghashBlocks fuel ((b :: bs).drop 16)

/-- GHASH of additional data `aad` and ciphertext `ct` under hash key `h`. -/
def ghash (h : Nat) (aad ct : List Byte) : Nat :=
  let lens := (aad.length * 8 % 2 ^ 64) * 2 ^ 64 + ct.length * 8 % 2 ^ 64
  (ghashBlocks aad.length aad ++ ghashBlocks ct.length ct ++ [lens]).foldl
    (fun y x => gfMul (y ^^^ x) h) 0

/-- Model of `gcm.auth`: the 16-byte tag of a ciphertext (no additional data is ever used). -/
def gcmTag (E : BlockFn) (key nonce ct : List Byte) : List Byte :=
  let h := E key 0 % 2 ^ 128
  let tagMask := E key (counterBlock nonce 1) % 2 ^ 128
  blockBytes (ghash h [] ct ^^^ tagMask)

/-- Largest plaintext GCM accepts: `((1<<32)-2) * BlockSize` bytes. -/
def gcmMaxPlaintext : Nat := (2 ^ 32 - 2) * 16

/-- Size of the GCM tag. -/
def gcmTagSize : Nat := 16

/-- Model of `gcm.Seal(nil, nonce, plaintext, nil)` for the standard nonce size. -/
def gcmSeal (E : BlockFn) (key nonce plaintext : List Byte) : Except Err (List Byte) :=
  if nonce.length ≠ GCMNonceSize then
    Except.error (Err.panic "crypto/cipher: incorrect nonce length given to GCM")
  else if plaintext.length > gcmMaxPlaintext then
    Except.error (Err.panic "crypto/cipher: message too large for GCM")
  else
    let out := counterCrypt E key nonce plaintext
    Except.ok (out ++ gcmTag E key nonce out)

/-- Model of `gcm.Open(nil, nonce, ciphertext, nil)` for the standard nonce size. -/
def gcmOpen (E : BlockFn) (key nonce ciphertext : List Byte) : Except Err (List Byte) :=
  if nonce.length ≠ GCMNonceSize then
    Except.error (Err.panic "crypto/cipher: incorrect nonce length given to GCM")
  else if ciphertext.length < gcmTagSize then
    Except.error (Err.lib "cipher: message authentication failed")
  else if ciphertext.length > gcmMaxPlaintext + gcmTagSize then
    Except.error (Err.lib "cipher: message authentication failed")
  else
    let tag := ciphertext.drop (ciphertext.length - gcmTagSize)
    let body := ciphertext.take (ciphertext.length - gcmTagSize)
    if gcmTag E key nonce body ≠ tag then
      Except.error (Err.lib "cipher: message authentication failed")
    else
      Except.ok (counterCrypt E key nonce body)

/-- Model of `aes.NewCipher(key)`: the key sizes AES accepts. -/
def aesNewCipher (key : List Byte) : Except Err Unit :=
  if key.length = 16 ∨ key.length = 24 ∨ key.length = 32 then Except.ok ()
  else Except.error (Err.lib "crypto/aes: invalid key size")

/-! ## `internal/infrastructure/service/crypto_service.go` -/

/-- Outcome of filling a buffer of `n` bytes from `crypto/rand`: an error, or exactly `n` bytes. -/
abbrev Draw (n : Nat) := Except Err { l : List Byte // l.length = n }

/-- Model of `cryptoService.GenerateAESKey`; `draw` is the outcome of `rand.Read(key)`. -/
def GenerateAESKey (draw : Draw AESKeySize) : Except Err (List Byte) :=
  match draw with
  | Except.error e => Except.error (Err.wrap "generate key" e)
  | Except.ok key => Except.ok key.val

/-- Model of `cryptoService.EncryptAESGCM`; `draw` is the outcome of
`io.ReadFull(rand.Reader, nonce)`. Returns `(ciphertext, nonce)`. -/
def EncryptAESGCM (E : BlockFn) (draw : Draw GCMNonceSize) (key plaintext : List Byte) :
    Except Err (List Byte × List Byte) :=
  if key.length ≠ AESKeySize then Except.error (Err.new "key must be 32 bytes")
  else
    match aesNewCipher key with
    | Except.error e => Except.error (Err.wrap "new cipher" e)
    | Except.ok _ =>
      match draw with
      | Except.error e => Except.error (Err.wrap "nonce" e)
      | Except.ok nonce =>
        match gcmSeal E key nonce.val plaintext with
        | Except.error e => Except.error e
        | Except.ok ciphertext => Except.ok (ciphertext, nonce.val)

/-- Model of `cryptoService.DecryptAESGCM`. -/
def DecryptAESGCM (E : BlockFn) (key nonce ciphertext : List Byte) : Except Err (List Byte) :=
  if key.length ≠ AESKeySize then Except.error (Err.new "key must be 32 bytes")
  else
    match aesNewCipher key with
    | Except.error e => Except.error (Err.wrap "new cipher" e)
    | Except.ok _ =>
      if nonce.length ≠ GCMNonceSize then
        Except.error (Err.new (String.mk ("invalid nonce size: ".toList ++
          decimalPad 0 nonce.length)))
      else
        match gcmOpen E key nonce ciphertext with
        | Except.error e => Except.error (Err.wrap "decrypt" e)
        | Except.ok plaintext => Except.ok plaintext

/-- The two values `cryptoService.DecryptAESGCM` returns, the plaintext slice and the error, as
the `return` statements of the source give them; the nil slice is the empty list. -/
def DecryptAESGCMValues (E : BlockFn) (key nonce ciphertext : List Byte) :
    List Byte × Option Err :=
  if key.length ≠ AESKeySize then ([], some (Err.new "key must be 32 bytes"))
  else
    match aesNewCipher key with
    | Except.error e => ([], some (Err.wrap "new cipher" e))
    | Except.ok _ =>
      if nonce.length ≠ GCMNonceSize then
        ([], some (Err.new (String.mk ("invalid nonce size: ".toList ++
          decimalPad 0 nonce.length))))
      else
        match gcmOpen E key nonce ciphertext with
        | Except.error e => ([], some (Err.wrap "decrypt" e))
        | Except.ok plaintext => (plaintext, none)

/-! ## `encoding/base64`, standard alphabet with padding -/

/-- The standard alphabet (`encodeStd` of `encoding/base64`). -/
def encodeStd : List Char :=
  "ABCDEFGHIJKLMNOPQRSTUVWXYZabcdefghijklmnopqrstuvwxyz0123456789+/".toList

/-- The character of a 6-bit value. -/
def b64Char (i : Nat) : Char := encodeStd.getD i 'A'

/-- The 6-bit value of a character of the alphabet (the decode map). -/
def b64Val (c : Char) : Option Nat :=
  if encodeStd.indexOf c < 64 then some (encodeStd.indexOf c) else none

/-- Model of `base64.StdEncoding.EncodeToString`. -/
def b64Encode : List Byte → List Char
  | [] => []
  | [a] => [b64Char (a.val / 4), b64Char (a.val % 4 * 16), '=', '=']
  | [a, b] =>
    [b64Char (a.val / 4), b64Char (a.val % 4 * 16 + b.val / 16), b64Char (b.val % 16 * 4), '=']
  | a :: b :: c :: rest =>
    b64Char (a.val / 4) :: b64Char (a.val % 4 * 16 + b.val / 16) ::
      b64Char (b.val % 16 * 4 + c.val / 64) :: b64Char (c.val % 64) :: b64Encode rest

/-- Decoding of the 4-character quanta, after line breaks were dropped: padding only closes the
last quantum, and left-over bits are ignored (the encoding is not in strict mode). -/
def b64DecodeQuanta : List Char → Option (List Byte)
  | a :: b :: c :: d :: rest =>
    match b64Val a, b64Val b with
    | some x, some y =>
      if c = '=' then
        if d = '=' ∧ rest = [] then some [toByte (x * 4 + y / 16)] else none
      else
        match b64Val c with
        | none => none
        | some z =>
          if d = '=' then
            if rest = [] then some [toByte (x * 4 + y / 16), toByte (y % 16 * 16 + z / 4)]
            else none
          else
            match b64Val d with
            | none => none
            | some w =>
              match b64DecodeQuanta rest with
              | none => none
              | some t =>
                some (toByte (x * 4 + y / 16) :: toByte (y % 16 * 16 + z / 4) ::
                  toByte (z % 4 * 64 + w) :: t)
    | _, _ => none
  | [] => some []
  | _ => none

/-- Model of `base64.StdEncoding.DecodeString`: carriage returns and line feeds are skipped,
`none` stands for a `CorruptInputError`. -/
def b64Decode (s : List Char) : Option (List Byte) :=
  b64DecodeQuanta (s.filter (fun c => c ≠ '\r' ∧ c ≠ '\n'))

/-! ## `github.com/golang-jwt/jwt/v5`, at the level of decoded segments -/

/-- JSON values as far as the claims of this service need them. A number is kept as its whole
seconds (`NumericDate` truncates to seconds); arrays and objects are `other`. -/
inductive JVal where
  | null
  | bool (b : Bool)
  | num (n : Int)
  | str (s : Str)
  | other
  deriving DecidableEq, Repr

/-- A JSON object: its members in order of appearance. -/
abbrev JObj := List (String × JVal)

/-- Member lookup of `encoding/json`: the last member with the name wins. -/
def JObj.get (o : JObj) (k : String) : Option JVal :=
  o.reverse.lookup k

/-- A compact token string, by what its three dot-separated segments decode to. The text of the
segments (base64url and JSON syntax) is not modelled. -/
inductive TokenStr where
  | badSegments
  | badHeader
  | badClaims (header : JObj)
  | jwt (header claims : JObj) (signature : Option (List Byte))
  deriving DecidableEq, Repr

/-- HMAC-SHA256 of the signing input (the first two segments) under a secret, a parameter. -/
abbrev Mac := List Byte → JObj × JObj → List Byte

/-- The struct `service.FileTokenClaims` of `domain/service/token_service.go`. -/
structure FileTokenClaims where
  FileID : Str
  Key : Str
  UserID : Option Str
  deriving DecidableEq, Repr

/-- The fields of `jwt.RegisteredClaims` this service writes or the validator reads, in whole
seconds since the Unix epoch. -/
structure RegisteredClaims where
  ExpiresAt : Option Int
  NotBefore : Option Int
  IssuedAt : Option Int
  deriving DecidableEq, Repr

/-- The struct `jwtClaims` of `token_service.go`. -/
structure jwtClaims where
  FileTokenClaims : FileTokenClaims
  RegisteredClaims : RegisteredClaims
  deriving DecidableEq, Repr

/-- The struct `authClaims` of `auth_service.go`. -/
structure authClaims where
  UserID : Str
  RegisteredClaims : RegisteredClaims
  deriving DecidableEq, Repr

/-- The sentinel errors of the library. -/
def ErrTokenMalformed : Err := Err.lib "token is malformed"
def ErrTokenUnverifiable : Err := Err.lib "token is unverifiable"
def ErrTokenSignatureInvalid : Err := Err.lib "token signature is invalid"
def ErrTokenInvalidClaims : Err := Err.lib "token has invalid claims"
def ErrTokenExpired : Err := Err.lib "token is expired"
def ErrTokenNotValidYet : Err := Err.lib "token is not valid yet"

/-- Decoding of a JSON member into a Go `string` field: absent or `null` leaves the zero value. -/
def decodeString (o : JObj) (k : String) : Option Str :=
  match o.get k with
  | none => some []
  | some JVal.null => some []
  | some (JVal.str s) => some s
  | some _ => none

/-- Decoding of a JSON member into a `*string` field. -/
def decodeStringPtr (o : JObj) (k : String) : Option (Option Str) :=
  match o.get k with
  | none => some none
  | some JVal.null => some none
  | some (JVal.str s) => some (some s)
  | some _ => none

/-- Decoding of a JSON member into a `*jwt.NumericDate` field. -/
def decodeNumericDate (o : JObj) (k : String) : Option (Option Int) :=
  match o.get k with
  | none => some none
  | some JVal.null => some none
  | some (JVal.num n) => some (some n)
  | some _ => none

/-- Decoding of the registered claims. -/
def decodeRegistered (o : JObj) : Option RegisteredClaims :=
  match decodeNumericDate o "exp", decodeNumericDate o "nbf", decodeNumericDate o "iat" with
  | some e, some n, some i => some { ExpiresAt := e, NotBefore := n, IssuedAt := i }
  | _, _, _ => none

/-- Model of `json.Unmarshal(claimBytes, &jwtClaims{})`. -/
def decodeJwtClaims (o : JObj) : Option jwtClaims :=
  match decodeString o "file_id", decodeString o "key", decodeStringPtr o "user_id",
    decodeRegistered o with
  | some f, some k, some u, some r =>
    some { FileTokenClaims := { FileID := f, Key := k, UserID := u }, RegisteredClaims := r }
  | _, _, _, _ => none

/-- Model of `json.Marshal` of the registered claims (all members are `omitempty`). -/
def encodeRegistered (r : RegisteredClaims) : JObj :=
  (match r.ExpiresAt with | some e => [("exp", JVal.num e)] | none => []) ++
  (match r.NotBefore with | some n => [("nbf", JVal.num n)] | none => []) ++
  (match r.IssuedAt with | some i => [("iat", JVal.num i)] | none => [])

/-- Model of `json.Marshal` of a `jwtClaims` value. -/
def encodeJwtClaims (c : jwtClaims) : JObj :=
  [("file_id", JVal.str c.FileTokenClaims.FileID), ("key", JVal.str c.FileTokenClaims.Key)] ++
  (match c.FileTokenClaims.UserID with | some u => [("user_id", JVal.str u)] | none => []) ++
  encodeRegistered c.RegisteredClaims

/-- Model of `json.Marshal` of an `authClaims` value. -/
def encodeAuthClaims (c : authClaims) : JObj :=
  [("user_id", JVal.str c.UserID)] ++ encodeRegistered c.RegisteredClaims

/-- The signing methods registered by the library. -/
def registeredSigningMethods : List Str :=
  ["HS256", "HS384", "HS512", "RS256", "RS384", "RS512", "ES256", "ES384", "ES512",
   "PS256", "PS384", "PS512", "EdDSA", "none"].map String.toList

/-- The algorithm a token names: the string member `alg` of its header. -/
def TokenStr.alg : TokenStr → Option Str
  | TokenStr.badClaims h => match h.get "alg" with | some (JVal.str a) => some a | _ => none
  | TokenStr.jwt h _ _ => match h.get "alg" with | some (JVal.str a) => some a | _ => none
  | _ => none

/-- What `Parser.ParseUnverified` hands on: header, claims, method and signature segment. -/
structure Unverified where
  header : JObj
  rawClaims : JObj
  claims : jwtClaims
  method : Str
  signature : Option (List Byte)

/-- Model of `Parser.ParseUnverified(tokenString, &jwtClaims{})`. -/
def parseUnverified (t : TokenStr) : Except Err Unverified :=
  match t with
  | TokenStr.badSegments => Except.error ErrTokenMalformed
  | TokenStr.badHeader => Except.error ErrTokenMalformed
  | TokenStr.badClaims _ => Except.error ErrTokenMalformed
  | TokenStr.jwt h c sig =>
    match decodeJwtClaims c with
    | none => Except.error ErrTokenMalformed
    | some claims =>
      match h.get "alg" with
      | some (JVal.str a) =>
        if a ∈ registeredSigningMethods then
          Except.ok { header := h, rawClaims := c, claims := claims, method := a,
                      signature := sig }
        else Except.error ErrTokenUnverifiable
      | _ => Except.error ErrTokenUnverifiable

/-- Nanoseconds per second. -/
def nsPerSec : Nat := 1000000000

/-- Model of `Validator.Validate` with the default options: `exp` and `nbf` are checked when
present, `iat` is not; `now` is the clock in nanoseconds since the Unix epoch. -/
def validateRegistered (now : Nat) (r : RegisteredClaims) : Option Err :=
  let expErr : Option Err :=
    match r.ExpiresAt with
    | some e => if (now : Int) < e * nsPerSec then none else some ErrTokenExpired
    | none => none
  let nbfErr : Option Err :=
    match r.NotBefore with
    | some n => if (now : Int) < n * nsPerSec then some ErrTokenNotValidYet else none
    | none => none
  match expErr, nbfErr with
  | none, none => none
  | some e, none => some e
  | none, some n => some n
  | some e, some n => some (Err.join e n)

/-- The parsed token `Parser.ParseWithClaims` returns without error. -/
structure ParsedToken where
  Claims : jwtClaims
  Valid : Bool

/-- Model of `Parser.ParseWithClaims` with `WithValidMethods(validMethods)` and a key function
that returns `secret`: method allow-list, signature, then the registered claims. -/
def ParseWithClaims (validMethods : List Str) (mac : Mac) (secret : List Byte) (now : Nat)
    (t : TokenStr) : Except Err ParsedToken :=
  match parseUnverified t with
  | Except.error e => Except.error e
  | Except.ok u =>
    if u.method ∉ validMethods then Except.error ErrTokenSignatureInvalid
    else
      match u.signature with
      | none => Except.error ErrTokenMalformed
      | some sig =>
        if sig ≠ mac secret (u.header, u.rawClaims) then
          Except.error (Err.join ErrTokenSignatureInvalid (Err.lib "signature is invalid"))
        else
          match validateRegistered now u.claims.RegisteredClaims with
          | none => Except.ok { Claims := u.claims, Valid := true }
          | some e => Except.error (Err.join ErrTokenInvalidClaims e)

/-- Model of `jwt.NewWithClaims(jwt.SigningMethodHS256, claims)` followed by `SignedString`. -/
def signHS256 (mac : Mac) (secret : List Byte) (claims : JObj) : TokenStr :=
  let header : JObj := [("alg", JVal.str "HS256".toList), ("typ", JVal.str "JWT".toList)]
  TokenStr.jwt header claims (some (mac secret (header, claims)))

/-- Model of `jwt.NewNumericDate(t)`: the time truncated to whole seconds. -/
def NewNumericDate (t : Nat) : Int := ((t / nsPerSec : Nat) : Int)

/-! ## `internal/infrastructure/service/token_service.go` -/

/-- The struct `tokenService`: signing secret and time-to-live in nanoseconds. -/
structure tokenService where
  secret : List Byte
  ttl : Nat

/-- Model of `tokenService.Generate`; `now` is the reading of `time.Now()`. The id and the owner
are Go strings; `SignedString` writes the claims with `json.Marshal`, which reads them as `runes`
does, so the claims of the token hold `runes fileID` and `runes` of the owner. -/
def tokenService.Generate (t : tokenService) (mac : Mac) (now : Nat) (fileID : GoString)
    (aesKey : List Byte) (userID : Option GoString) : Except Err TokenStr :=
  if fileID = [] then Except.error (Err.new "fileID is required")
  else if aesKey.length ≠ AESKeySize then Except.error (Err.new "aes key must be 32 bytes")
  else
    let claims : jwtClaims :=
      { FileTokenClaims :=
          { FileID := runes fileID, Key := b64Encode aesKey, UserID := userID.map runes },
        RegisteredClaims :=
          { IssuedAt := some (NewNumericDate now),
            ExpiresAt := some (NewNumericDate (now + t.ttl)),
            NotBefore := none } }
    Except.ok (signHS256 mac t.secret (encodeJwtClaims claims))

/-- Model of `tokenService.Validate`; `now` is the clock the library reads. -/
def tokenService.Validate (t : tokenService) (mac : Mac) (now : Nat) (tokenStr : TokenStr) :
    Except Err FileTokenClaims :=
  match ParseWithClaims ["HS256".toList] mac t.secret now tokenStr with
  | Except.error e => Except.error (Err.wrap "parse token" e)
  | Except.ok token =>
    if !token.Valid then Except.error (Err.new "invalid token claims")
    else Except.ok token.Claims.FileTokenClaims

/-! ## `internal/infrastructure/service/auth_service.go` -/

/-- The struct `authService`. -/
structure authService where
  secret : List Byte
  ttl : Nat

/-- Model of `authService.GenerateAuthToken`. -/
def authService.GenerateAuthToken (a : authService) (mac : Mac) (now : Nat) (userID : Str) :
    Except Err TokenStr :=
  if userID = [] then Except.error (Err.new "userID is required")
  else
    let claims : authClaims :=
      { UserID := userID,
        RegisteredClaims :=
          { IssuedAt := some (NewNumericDate now),
            ExpiresAt := some (NewNumericDate (now + a.ttl)),
            NotBefore := none } }
    Except.ok (signHS256 mac a.secret (encodeAuthClaims claims))

/-- Model of `decodeKey` of `usecase/file_usecase.go`. -/
def decodeKey (keyStr : Str) : Except Err (List Byte) :=
  match b64Decode keyStr with
  | none => Except.error (Err.wrap "decode key" (Err.lib "illegal base64 data"))
  | some key =>
    if key.length ≠ 32 then Except.error (Err.new "invalid key size")
    else Except.ok key

/-! ## `internal/domain`: entity and service interfaces -/

/-- The struct `entity.FileAsset`; times are nanoseconds since the Unix epoch, `0` the zero time,
`DeletedAt = none` a record that is not soft-deleted. -/
structure FileAsset where
  ID : Str
  OriginalName : Str
  StoredPath : Str
  UserID : Option Str
  ContentType : Str
  SizeBytes : Int
  EncryptionAlg : Str
  AuthenticationAlg : Str
  CreatedAt : Nat
  UpdatedAt : Nat
  DeletedAt : Option Nat
  deriving DecidableEq, Repr

/-- A request context, by what its holders observe: `ctx k` tells whether the context is done
when the `k`-th collaborator call of the request inspects it. -/
abbrev Ctx := Nat → Bool

/-- The interface `repository.FileRepository` over a state `σ`. `Create` also returns the asset
as the call leaves it (it receives a pointer). The first argument of each method is whether the
context is done at the call. -/
structure FileRepository (σ : Type) where
  Create : Bool → FileAsset → σ → (Option Err × FileAsset) × σ
  FindByID : Bool → Str → σ → Except Err FileAsset × σ
  FindByUserID : Bool → Str → σ → Except Err (List FileAsset) × σ
  Delete : Bool → Str → σ → Option Err × σ

/-- The interface `service.StorageService` over a state `σ` (without `SaveExcel`, which the file
use case does not call). -/
structure StorageService (σ : Type) where
  SaveEncrypted : Bool → Str → List Byte → List Byte → σ → Except Err Str × σ
  LoadEncrypted : Bool → Str → σ → Except Err (List Byte × List Byte) × σ
  Delete : Bool → Str → σ → Option Err × σ

/-- The interface `service.CryptoService` over a state `σ`. -/
structure CryptoService (σ : Type) where
  GenerateAESKey : σ → Except Err (List Byte) × σ
  EncryptAESGCM : List Byte → List Byte → σ → Except Err (List Byte × List Byte) × σ
  DecryptAESGCM : List Byte → List Byte → List Byte → σ → Except Err (List Byte) × σ

/-- The interface `service.TokenService` over a state `σ`. -/
structure TokenService (σ : Type) where
  Generate : Str → List Byte → Option Str → σ → Except Err TokenStr × σ
  Validate : TokenStr → σ → Except Err FileTokenClaims × σ

/-- Modelled from the spec: `utils.ErrRecordNotFound` (package `pkg/utils` is not among the
sources), the error of a lookup that finds no record (NotFound if absent or soft-deleted). -/
def ErrRecordNotFound : Err := Err.lib "record not found"

/-! ## `internal/usecase/file_usecase.go` -/

/-- A call of a collaborator, with its arguments and its outcome. -/
inductive Call where
  | GenerateAESKey (r : Except Err (List Byte))
  | EncryptAESGCM (key plaintext : List Byte) (r : Except Err (List Byte × List Byte))
  | DecryptAESGCM (key nonce ciphertext : List Byte) (r : Except Err (List Byte))
  | SaveEncrypted (originalName : Str) (nonce data : List Byte) (r : Except Err Str)
  | LoadEncrypted (relativePath : Str) (r : Except Err (List Byte × List Byte))
  | StorageDelete (relativePath : Str) (r : Option Err)
  | Create (asset : FileAsset) (r : Option Err) (after : FileAsset)
  | FindByID (id : Str) (r : Except Err FileAsset)
  | RepoDelete (id : Str) (r : Option Err)
  | Generate (fileID : Str) (aesKey : List Byte) (userID : Option Str) (r : Except Err TokenStr)
  | Validate (tokenStr : TokenStr) (r : Except Err FileTokenClaims)
  | LogWarn (msg : String)

/-- A call to the metadata repository. -/
def Call.isRepository : Call → Bool
  | Call.Create _ _ _ => true
  | Call.FindByID _ _ => true
  | Call.RepoDelete _ _ => true
  | _ => false

/-- A call to the encrypted store. -/
def Call.isStore : Call → Bool
  | Call.SaveEncrypted _ _ _ _ => true
  | Call.LoadEncrypted _ _ => true
  | Call.StorageDelete _ _ => true
  | _ => false

/-- A call to the cipher. -/
def Call.isCipher : Call → Bool
  | Call.GenerateAESKey _ => true
  | Call.EncryptAESGCM _ _ _ => true
  | Call.DecryptAESGCM _ _ _ _ => true
  | _ => false

/-- A call of `tokenSvc.Generate`. -/
def Call.isGenerate : Call → Bool
  | Call.Generate _ _ _ _ => true
  | _ => false

/-- A call of `fileRepo.Create` that returned no error. -/
def Call.isCreateOk : Call → Bool
  | Call.Create _ none _ => true
  | _ => false

/-- A call of `fileRepo.Create` that returned an error. -/
def Call.isCreateFailed : Call → Bool
  | Call.Create _ (some _) _ => true
  | _ => false

/-- What a use-case call leaves: its return value, the state, and the collaborator calls it made,
in order. -/
structure Run (σ : Type) (α : Type) where
  result : α
  state : σ
  trace : List Call

/-- The struct `FileUseCase` (the logger only receives warnings, recorded in the trace). -/
structure FileUseCase (σ : Type) where
  fileRepo : FileRepository σ
  storageSvc : StorageService σ
  cryptoSvc : CryptoService σ
  tokenSvc : TokenService σ

/-- The struct `UploadFileRequest`. -/
structure UploadFileRequest where
  Filename : Str
  Content : List Byte
  ContentType : Str
  UserID : Option Str

/-- The struct `UploadFileResponse`; the token is the credential. -/
structure UploadFileResponse where
  FileID : Str
  Token : TokenStr
  ExpiresIn : Int
  deriving DecidableEq, Repr

/-- The struct `GetFileRequest`. -/
structure GetFileRequest where
  FileID : Str
  Token : TokenStr

/-- The struct `GetFileResponse`. -/
structure GetFileResponse where
  Content : List Byte
  ContentType : Str
  Filename : Str
  deriving DecidableEq, Repr

/-- The struct `GetFileMetadataRequest`. -/
structure GetFileMetadataRequest where
  FileID : Str
  Token : TokenStr

/-- The struct `DeleteFileRequest`. -/
structure DeleteFileRequest where
  FileID : Str
  Token : TokenStr

/-- Model of `FileUseCase.UploadFile`. The context is handed to `SaveEncrypted` (`ctx 0`), to
`Create` (`ctx 1`) and, when `Create` fails, to the store's `Delete` (`ctx 2`). -/
def FileUseCase.UploadFile {σ : Type} (uc : FileUseCase σ) (ctx : Ctx) (req : UploadFileRequest)
    (s : σ) : Run σ (Except Err UploadFileResponse) :=
  let k := uc.cryptoSvc.GenerateAESKey s
  let t1 := [Call.GenerateAESKey k.1]
  match k.1 with
  | Except.error err => ⟨Except.error (Err.wrap "generate key" err), k.2, t1⟩
  | Except.ok aesKey =>
    let e := uc.cryptoSvc.EncryptAESGCM aesKey req.Content k.2
    let t2 := t1 ++ [Call.EncryptAESGCM aesKey req.Content e.1]
    match e.1 with
    | Except.error err => ⟨Except.error (Err.wrap "encrypt" err), e.2, t2⟩
    | Except.ok (ciphertext, nonce) =>
      let sv := uc.storageSvc.SaveEncrypted (ctx 0) req.Filename nonce ciphertext e.2
      let t3 := t2 ++ [Call.SaveEncrypted req.Filename nonce ciphertext sv.1]
      match sv.1 with
      | Except.error err => ⟨Except.error (Err.wrap "save encrypted" err), sv.2, t3⟩
      | Except.ok storagePath =>
        let asset : FileAsset :=
          { ID := [],
            OriginalName := req.Filename,
            StoredPath := storagePath,
            UserID := req.UserID,
            ContentType := req.ContentType,
            SizeBytes := (req.Content.length : Int),
            EncryptionAlg := "AES-256".toList,
            AuthenticationAlg := "GCM".toList,
            CreatedAt := 0,
            UpdatedAt := 0,
            DeletedAt := none }
        let c := uc.fileRepo.Create (ctx 1) asset sv.2
        let t4 := t3 ++ [Call.Create asset c.1.1 c.1.2]
        match c.1.1 with
        | some err =>
          let d := uc.storageSvc.Delete (ctx 2) storagePath c.2
          ⟨Except.error (Err.wrap "create record" err), d.2,
            t4 ++ [Call.StorageDelete storagePath d.1]⟩
        | none =>
          let g := uc.tokenSvc.Generate c.1.2.ID aesKey req.UserID c.2
          let t5 := t4 ++ [Call.Generate c.1.2.ID aesKey req.UserID g.1]
          match g.1 with
          | Except.error err => ⟨Except.error (Err.wrap "generate token" err), g.2, t5⟩
          | Except.ok token =>
            ⟨Except.ok { FileID := c.1.2.ID, Token := token, ExpiresIn := 900 }, g.2, t5⟩

/-- Model of `FileUseCase.GetFile`. The context is handed to `FindByID` (`ctx 0`) and to
`LoadEncrypted` (`ctx 1`). -/
def FileUseCase.GetFile {σ : Type} (uc : FileUseCase σ) (ctx : Ctx) (req : GetFileRequest)
    (s : σ) : Run σ (Except Err GetFileResponse) :=
  let v := uc.tokenSvc.Validate req.Token s
  let t1 := [Call.Validate req.Token v.1]
  match v.1 with
  | Except.error err => ⟨Except.error (Err.wrap "validate token" err), v.2, t1⟩
  | Except.ok claims =>
    if claims.FileID ≠ req.FileID then ⟨Except.error (Err.new "token file_id mismatch"), v.2, t1⟩
    else
      let f := uc.fileRepo.FindByID (ctx 0) req.FileID v.2
      let t2 := t1 ++ [Call.FindByID req.FileID f.1]
      match f.1 with
      | Except.error err =>
        if err = ErrRecordNotFound then ⟨Except.error (Err.new "file not found"), f.2, t2⟩
        else ⟨Except.error (Err.wrap "find file" err), f.2, t2⟩
      | Except.ok asset =>
        match decodeKey claims.Key with
        | Except.error err => ⟨Except.error (Err.wrap "decode key" err), f.2, t2⟩
        | Except.ok key =>
          let l := uc.storageSvc.LoadEncrypted (ctx 1) asset.StoredPath f.2
          let t3 := t2 ++ [Call.LoadEncrypted asset.StoredPath l.1]
          match l.1 with
          | Except.error err => ⟨Except.error (Err.wrap "load encrypted" err), l.2, t3⟩
          | Except.ok (nonce, ciphertext) =>
            let d := uc.cryptoSvc.DecryptAESGCM key nonce ciphertext l.2
            let t4 := t3 ++ [Call.DecryptAESGCM key nonce ciphertext d.1]
            match d.1 with
            | Except.error err => ⟨Except.error (Err.wrap "decrypt" err), d.2, t4⟩
            | Except.ok plaintext =>
              ⟨Except.ok { Content := plaintext, ContentType := asset.ContentType,
                           Filename := asset.OriginalName }, d.2, t4⟩

/-- Model of `FileUseCase.GetFileMetadata`. The context is handed to `FindByID` (`ctx 0`). -/
def FileUseCase.GetFileMetadata {σ : Type} (uc : FileUseCase σ) (ctx : Ctx)
    (req : GetFileMetadataRequest) (s : σ) : Run σ (Except Err FileAsset) :=
  let v := uc.tokenSvc.Validate req.Token s
  let t1 := [Call.Validate req.Token v.1]
  match v.1 with
  | Except.error err => ⟨Except.error (Err.wrap "validate token" err), v.2, t1⟩
  | Except.ok claims =>
    if claims.FileID ≠ req.FileID then ⟨Except.error (Err.new "token file_id mismatch"), v.2, t1⟩
    else
      let f := uc.fileRepo.FindByID (ctx 0) req.FileID v.2
      let t2 := t1 ++ [Call.FindByID req.FileID f.1]
      match f.1 with
      | Except.error err =>
        if err = ErrRecordNotFound then ⟨Except.error (Err.new "file not found"), f.2, t2⟩
        else ⟨Except.error (Err.wrap "find file" err), f.2, t2⟩
      | Except.ok asset => ⟨Except.ok asset, f.2, t2⟩

/-- Model of `FileUseCase.DeleteFile`. The context is handed to `FindByID` (`ctx 0`), to the
store's `Delete` (`ctx 1`) and to the repository's `Delete` (`ctx 2`). -/
def FileUseCase.DeleteFile {σ : Type} (uc : FileUseCase σ) (ctx : Ctx) (req : DeleteFileRequest)
    (s : σ) : Run σ (Option Err) :=
  let v := uc.tokenSvc.Validate req.Token s
  let t1 := [Call.Validate req.Token v.1]
  match v.1 with
  | Except.error err => ⟨some (Err.wrap "validate token" err), v.2, t1⟩
  | Except.ok claims =>
    if claims.FileID ≠ req.FileID then ⟨some (Err.new "token file_id mismatch"), v.2, t1⟩
    else
      let f := uc.fileRepo.FindByID (ctx 0) req.FileID v.2
      let t2 := t1 ++ [Call.FindByID req.FileID f.1]
      match f.1 with
      | Except.error err =>
        if err = ErrRecordNotFound then ⟨some (Err.new "file not found"), f.2, t2⟩
        else ⟨some (Err.wrap "find file" err), f.2, t2⟩
      | Except.ok asset =>
        let d := uc.storageSvc.Delete (ctx 1) asset.StoredPath f.2
        let t3 := t2 ++ [Call.StorageDelete asset.StoredPath d.1] ++
          (match d.1 with | some _ => [Call.LogWarn "storage delete failed"] | none => [])
        let r := uc.fileRepo.Delete (ctx 2) req.FileID d.2
        let t4 := t3 ++ [Call.RepoDelete req.FileID r.1]
        match r.1 with
        | some err => ⟨some (Err.wrap "delete record" err), r.2, t4⟩
        | none => ⟨none, r.2, t4⟩

/-! ## `path/filepath` and `strings` on Linux -/

/-- Model of `strings.Split(p, "/")`. -/
def splitSlash : Str → List Str
  | [] => [[]]
  | c :: cs =>
    if c = '/' then [] :: splitSlash cs
    else
      match splitSlash cs with
      | [] => [[c]]
      | e :: es => (c :: e) :: es

/-- Model of `strings.Join(elems, "/")`. -/
def joinSlash : List Str → Str
  | [] => []
  | [e] => e
  | e :: es => e ++ '/' :: joinSlash es

/-- One element of the path in the loop of `filepath.Clean`. `out` holds the elements written so
far, the latest first; an element can be removed (`out.w > dotdot`) when there is one and it is
not a leading `..`. -/
def cleanStep (rooted : Bool) (out : List Str) (elem : Str) : List Str :=
  if elem = [] then out
  else if elem = ['.'] then out
  else if elem = ['.', '.'] then
    match out with
    | top :: rest =>
      if top ≠ ['.', '.'] then rest
      else if !rooted then elem :: out
      else out
    | [] => if !rooted then [elem] else out
  else elem :: out

/-- Model of `filepath.Clean`: separators collapse, `.` elements go, an inner `..` goes with the
element before it, `..` at the start of a rooted path goes, and the empty result is `.`. -/
def Clean (path : Str) : Str :=
  if path = [] then ['.']
  else
    let rooted := path.head? = some '/'
    let out := (splitSlash path).foldl (cleanStep rooted) []
    if rooted then '/' :: joinSlash out.reverse
    else if out = [] then ['.']
    else joinSlash out.reverse

/-- Model of `filepath.Join`: empty leading elements are skipped, the rest is joined and cleaned. -/
def Join (elem : List Str) : Str :=
  match elem.dropWhile (fun e => e = []) with
  | [] => []
  | es => Clean (joinSlash es)

/-- Model of `filepath.Ext`: the suffix of the last element that starts at its final dot
(byte 46), the separator being byte 47. -/
def Ext (path : GoString) : GoString :=
  let last := path.reverse.takeWhile (fun c => c ≠ 47)
  if (46 : Byte) ∈ last then 46 :: (last.takeWhile (fun c => c ≠ 46)).reverse
  else []

/-- Model of `strings.ToLower`: every code point of the string, read as `runes` reads it, is
mapped by `unicode.ToLower`. The result is valid UTF-8 and is given as text. -/
def ToLower (s : GoString) : Str :=
  (runes s).map unicodeToLower

/-- The non-empty elements of a cleaned path. -/
def pathElems (p : Str) : List Str :=
  (splitSlash p).filter (fun e => e ≠ [])

/-- The elements of two paths after their common leading elements. -/
def stripCommon : List Str → List Str → List Str × List Str
  | b :: bs, t :: ts => if b = t then stripCommon bs ts else (b :: bs, t :: ts)
  | bs, ts => (bs, ts)

/-- Model of `filepath.Rel`, element by element on the cleaned paths. -/
def Rel (basepath targpath : Str) : Except Err Str :=
  let base := Clean basepath
  let targ := Clean targpath
  if targ = base then Except.ok ['.']
  else
    let base := if base = ['.'] then [] else base
    if (base.head? = some '/') ≠ (targ.head? = some '/') then
      Except.error (Err.lib "Rel: can't make path relative")
    else
      let bt := stripCommon (pathElems base) (pathElems targ)
      if bt.1.head? = some ['.', '.'] then Except.error (Err.lib "Rel: can't make path relative")
      else if bt.1 ≠ [] then Except.ok (joinSlash (bt.1.map (fun _ => ['.', '.']) ++ bt.2))
      else Except.ok (joinSlash bt.2)

/-! ## Clock, calendar and random identifiers -/

/-- The civil date (year, month, day) of a day number, day 0 being 1970-01-01. -/
def civilFromDays (days : Nat) : Nat × Nat × Nat :=
  let z := days + 719468
  let era := z / 146097
  let doe := z % 146097
  let yoe := (doe - doe / 1460 + doe / 36524 - doe / 146096) / 365
  let doy := doe - (365 * yoe + yoe / 4 - yoe / 100)
  let mp := (5 * doy + 2) / 153
  let d := doy - (153 * mp + 2) / 5 + 1
  let m := if mp < 10 then mp + 3 else mp - 9
  let y := yoe + era * 400 + (if m ≤ 2 then 1 else 0)
  (y, m, d)

/-- Nanoseconds per day. -/
def nsPerDay : Nat := 86400 * 1000000000

/-- Model of `t.UTC().Format("2006")`. -/
def formatYear (t : Nat) : Str := decimalPad 4 (civilFromDays (t / nsPerDay)).1

/-- Model of `t.UTC().Format("01")`. -/
def formatMonth (t : Nat) : Str := decimalPad 2 (civilFromDays (t / nsPerDay)).2.1

/-- Model of `t.UTC().Format("02")`. -/
def formatDay (t : Nat) : Str := decimalPad 2 (civilFromDays (t / nsPerDay)).2.2

/-- The lower-case hexadecimal digit of `d % 16`. -/
def hexChar (d : Nat) : Char := "0123456789abcdef".toList.getD (d % 16) '0'

/-- The two hexadecimal digits of a byte. -/
def hexByte (b : Nat) : Str := [hexChar (b / 16), hexChar b]

/-- Model of `uuid.NewString()` on its 16 random bytes: version 4, variant 10, in the form
8-4-4-4-12. -/
def uuidString (r : List Byte) : Str :=
  let b := fun i => (r.getD i 0).val
  hexByte (b 0) ++ hexByte (b 1) ++ hexByte (b 2) ++ hexByte (b 3) ++ ['-'] ++
  hexByte (b 4) ++ hexByte (b 5) ++ ['-'] ++
  hexByte (b 6 % 16 + 64) ++ hexByte (b 7) ++ ['-'] ++
  hexByte (b 8 % 64 + 128) ++ hexByte (b 9) ++ ['-'] ++
  hexByte (b 10) ++ hexByte (b 11) ++ hexByte (b 12) ++ hexByte (b 13) ++ hexByte (b 14) ++
  hexByte (b 15)

/-! ## The world the services act on -/

/-- The state outside the process and its sources of non-determinism: the files below the
storage root (a map from path to content; directories are implicit, so `MkdirAll` and creating a
file always succeed), the rows of table `file_assets`, the stream of bytes `crypto/rand` will
deliver, and the readings the clock will give. -/
structure World where
  files : Str → Option (List Byte)
  rows : List FileAsset
  entropy : Nat → Byte
  entropyPos : Nat
  clock : Nat → Nat
  clockPos : Nat

/-- The next `n` bytes of `crypto/rand`. -/
def World.readRand (w : World) (n : Nat) : { l : List Byte // l.length = n } × World :=
  (⟨(List.range n).map (fun i => w.entropy (w.entropyPos + i)), by simp⟩,
   { w with entropyPos := w.entropyPos + n })

/-- The next reading of `time.Now()`. -/
def World.now (w : World) : Nat × World :=
  (w.clock w.clockPos, { w with clockPos := w.clockPos + 1 })

/-- Model of `uuid.NewString()`. -/
def World.newUUID (w : World) : Str × World :=
  ((uuidString (w.readRand 16).1.val), (w.readRand 16).2)

/-- The error of a context that is done (`ctx.Err()`). -/
def ErrContextCanceled : Err := Err.lib "context canceled"

/-! ## `internal/infrastructure/service/storage_service.go` -/

/-- The struct `storageService`. -/
structure storageService where
  baseDir : Str

/-- Constant `encryptedDir` of `storage_service.go`. -/
def encryptedDir : Str := "encrypted".toList

/-- Model of `NewStorageService`. -/
def NewStorageService (baseDir : Str) : Except Err storageService :=
  if baseDir = [] then Except.error (Err.new "baseDir is required")
  else Except.ok { baseDir := baseDir }

/-- Model of `storageService.safeJoin`. -/
def storageService.safeJoin (s : storageService) (relativePath : Str) : Except Err Str :=
  if relativePath = [] then Except.error (Err.new "path cannot be empty")
  else
    let clean := Clean relativePath
    let full := Join [s.baseDir, clean]
    if ¬ (Clean s.baseDir ++ ['/']) <+: full then
      Except.error (Err.new "invalid path traversal attempt")
    else Except.ok full

/-- Model of `storageService.SaveEncrypted`; `done` tells whether the context is done. -/
def storageService.SaveEncrypted (s : storageService) (done : Bool) (originalName : GoString)
    (nonce data : List Byte) (w : World) : Except Err Str × World :=
  if done then (Except.error ErrContextCanceled, w)
  else if nonce.length = 0 then (Except.error (Err.new "nonce cannot be empty"), w)
  else if data.length = 0 then (Except.error (Err.new "ciphertext cannot be empty"), w)
  else
    let now := w.now
    let ext := ToLower (Ext originalName)
    let ext := if ext = [] then ".bin".toList else ext
    let dir := Join [s.baseDir, encryptedDir, formatYear now.1, formatMonth now.1,
      formatDay now.1]
    let u := now.2.newUUID
    let filename := u.1 ++ ext ++ ".enc".toList
    let fullPath := Join [dir, filename]
    let w' := { u.2 with files := fun p => if p = fullPath then some (nonce ++ data)
                                           else u.2.files p }
    match Rel s.baseDir fullPath with
    | Except.error e => (Except.error (Err.wrap "relative path" e), w')
    | Except.ok relPath => (Except.ok relPath, w')

/-- Model of `storageService.LoadEncrypted`; returns `(nonce, data)`. -/
def storageService.LoadEncrypted (s : storageService) (done : Bool) (relativePath : Str)
    (w : World) : Except Err (List Byte × List Byte) × World :=
  if done then (Except.error ErrContextCanceled, w)
  else
    match s.safeJoin relativePath with
    | Except.error e => (Except.error e, w)
    | Except.ok fullPath =>
      match w.files fullPath with
      | none => (Except.error (Err.wrap "open" (Err.lib "no such file or directory")), w)
      | some content =>
        if content.length < GCMNonceSize then
          (Except.error (Err.wrap "read nonce"
            (Err.lib (if content = [] then "EOF" else "unexpected EOF"))), w)
        else (Except.ok (content.take GCMNonceSize, content.drop GCMNonceSize), w)

/-- Model of `storageService.Delete`. -/
def storageService.Delete (s : storageService) (done : Bool) (relativePath : Str) (w : World) :
    Option Err × World :=
  if done then (some ErrContextCanceled, w)
  else
    match s.safeJoin relativePath with
    | Except.error e => (some e, w)
    | Except.ok fullPath =>
      match w.files fullPath with
      | none => (some (Err.lib "no such file or directory"), w)
      | some _ => (none, { w with files := fun p => if p = fullPath then none else w.files p })

/-- Constant `excelDir` of `storage_service.go`. -/
def excelDir : Str := "excel".toList

/-- Model of `storageService.SaveExcel`. The reader is given by the bytes it delivers and the
error, if any, with which it ends; `io.Copy` writes what it has read before it reports the
error. -/
def storageService.SaveExcel (s : storageService) (done : Bool)
    (reader : List Byte × Option Err) (w : World) : Except Err Str × World :=
  if done then (Except.error ErrContextCanceled, w)
  else
    let now := w.now
    let dir := Join [s.baseDir, excelDir, formatYear now.1, formatMonth now.1, formatDay now.1]
    let filename := "excel_".toList ++ decimalPad 0 now.1 ++ ".xlsx".toList
    let fullPath := Join [dir, filename]
    let w' := { now.2 with files := fun p => if p = fullPath then some reader.1
                                             else now.2.files p }
    match reader.2 with
    | some e => (Except.error (Err.wrap "write excel" e), w')
    | none =>
      match Rel s.baseDir fullPath with
      | Except.error e => (Except.error (Err.wrap "relative path" e), w')
      | Except.ok relPath => (Except.ok relPath, w')

/-! ## `internal/infrastructure/repository/file_repository.go` on a table of rows -/

/-- Model of `fileRepository.Create`: the `BeforeCreate` hook gives an empty ID a fresh UUID, the
time stamps are set, and the insert fails on a duplicate primary key or stored path. -/
def fileRepository.Create (done : Bool) (asset : FileAsset) (w : World) :
    (Option Err × FileAsset) × World :=
  if done then ((some ErrContextCanceled, asset), w)
  else
    let u := w.newUUID
    let w1 := if asset.ID = [] then u.2 else w
    let asset1 := if asset.ID = [] then { asset with ID := u.1 } else asset
    let now := w1.now
    let asset2 := { asset1 with
      CreatedAt := if asset1.CreatedAt = 0 then now.1 else asset1.CreatedAt,
      UpdatedAt := if asset1.UpdatedAt = 0 then now.1 else asset1.UpdatedAt }
    if now.2.rows.any (fun r => r.ID = asset2.ID ∨ r.StoredPath = asset2.StoredPath) then
      ((some (Err.lib "UNIQUE constraint failed"), asset2), now.2)
    else ((none, asset2), { now.2 with rows := now.2.rows ++ [asset2] })

/-- Model of `fileRepository.FindByID`: the row with the id that is not soft-deleted. -/
def fileRepository.FindByID (done : Bool) (id : Str) (w : World) :
    Except Err FileAsset × World :=
  if done then (Except.error ErrContextCanceled, w)
  else
    match w.rows.find? (fun r => r.ID = id ∧ r.DeletedAt = none) with
    | none => (Except.error ErrRecordNotFound, w)
    | some r => (Except.ok r, w)

/-- Model of `fileRepository.FindByUserID`. -/
def fileRepository.FindByUserID (done : Bool) (userID : Str) (w : World) :
    Except Err (List FileAsset) × World :=
  if done then (Except.error ErrContextCanceled, w)
  else (Except.ok (w.rows.filter (fun r => r.UserID = some userID ∧ r.DeletedAt = none)), w)

/-- Model of `fileRepository.Delete`: a soft delete of the rows with the id. -/
def fileRepository.Delete (done : Bool) (id : Str) (w : World) : Option Err × World :=
  if done then (some ErrContextCanceled, w)
  else
    let now := w.now
    (none, { now.2 with rows := now.2.rows.map (fun r =>
      if r.ID = id ∧ r.DeletedAt = none then { r with DeletedAt := some now.1 } else r) })

/-! ## `internal/app/app.go`: the wiring -/

/-- The configuration the core consumes, with the two primitive parameters. -/
structure Config where
  E : BlockFn
  mac : Mac
  UploadsDir : Str
  JWTSecret : List Byte
  TokenTTL : Nat

/-- The file use case as `app.New` builds it: the repository, the storage service on
`UploadsDir`, the crypto service, and the token service on `JWTSecret` and `TokenTTL`. The use
case holds names and ids as text; the services receive them as the Go strings that hold that
text. -/
def Config.fileUseCase (cfg : Config) : FileUseCase World :=
  { fileRepo :=
      { Create := fileRepository.Create,
        FindByID := fileRepository.FindByID,
        FindByUserID := fileRepository.FindByUserID,
        Delete := fileRepository.Delete },
    storageSvc :=
      { SaveEncrypted := fun done originalName nonce data w =>
          storageService.SaveEncrypted { baseDir := cfg.UploadsDir } done
            (utf8Encode originalName) nonce data w,
        LoadEncrypted := storageService.LoadEncrypted { baseDir := cfg.UploadsDir },
        Delete := storageService.Delete { baseDir := cfg.UploadsDir } },
    cryptoSvc :=
      { GenerateAESKey := fun w =>
          (GenerateAESKey (Except.ok (w.readRand AESKeySize).1), (w.readRand AESKeySize).2),
        EncryptAESGCM := fun key plaintext w =>
          (EncryptAESGCM cfg.E (Except.ok (w.readRand GCMNonceSize).1) key plaintext,
            (w.readRand GCMNonceSize).2),
        DecryptAESGCM := fun key nonce ciphertext w =>
          (DecryptAESGCM cfg.E key nonce ciphertext, w) },
    tokenSvc :=
      { Generate := fun fileID aesKey userID w =>
          (tokenService.Generate { secret := cfg.JWTSecret, ttl := cfg.TokenTTL } cfg.mac
            w.now.1 (utf8Encode fileID) aesKey (userID.map utf8Encode), w.now.2),
        Validate := fun tokenStr w =>
          (tokenService.Validate { secret := cfg.JWTSecret, ttl := cfg.TokenTTL } cfg.mac
            w.now.1 tokenStr, w.now.2) } }

/-! ## `pkg/validator/validator.go`, with `strings`, `unicode` and `regexp` as it uses them -/

/-- Model of `unicode.IsSpace`: the Latin-1 spaces and the code points with the property
White_Space. -/
def isSpace (c : Char) : Bool :=
  decide ((9 ≤ c.toNat ∧ c.toNat ≤ 13) ∨ c.toNat = 32 ∨ c.toNat = 0x85 ∨ c.toNat = 0xA0 ∨
    c.toNat = 0x1680 ∨ (0x2000 ≤ c.toNat ∧ c.toNat ≤ 0x200A) ∨ c.toNat = 0x2028 ∨
    c.toNat = 0x2029 ∨ c.toNat = 0x202F ∨ c.toNat = 0x205F ∨ c.toNat = 0x3000)

/-- Model of `strings.TrimSpace`. -/
def TrimSpace (s : Str) : Str :=
  ((s.dropWhile isSpace).reverse.dropWhile isSpace).reverse

/-- Model of `len(s)` for a string: the number of bytes of its UTF-8 encoding. -/
def byteLen (s : Str) : Nat :=
  (s.map (fun c =>
    if c.toNat < 0x80 then 1 else if c.toNat < 0x800 then 2 else if c.toNat < 0x10000 then 3
    else 4)).sum

/-- A character of the class `[a-zA-Z0-9_-]`. -/
def userIDChar (c : Char) : Bool :=
  decide ((97 ≤ c.toNat ∧ c.toNat ≤ 122) ∨ (65 ≤ c.toNat ∧ c.toNat ≤ 90) ∨
    (48 ≤ c.toNat ∧ c.toNat ≤ 57) ∨ c.toNat = 95 ∨ c.toNat = 45)

/-- Model of `UserIDPattern.MatchString`, the pattern being `^[a-zA-Z0-9_-]+$`. -/
def UserIDPatternMatchString (s : Str) : Bool :=
  decide (s ≠ []) && s.all userIDChar

/-- Variable `MaxUserIDLength`. -/
def MaxUserIDLength : Nat := 64

def ErrUserIDTooLong : Err := Err.new "user_id exceeds maximum length"
def ErrInvalidUserIDFormat : Err := Err.new "user_id contains invalid characters"

/-- Model of `ValidateUserID`. -/
def ValidateUserID (userID : Str) : Option Err :=
  if userID = [] then none
  else
    let userID := TrimSpace userID
    if byteLen userID > MaxUserIDLength then some ErrUserIDTooLong
    else if !UserIDPatternMatchString userID then some ErrInvalidUserIDFormat
    else none

/-- Model of the start of `Handlers.ListFiles` in `handlers.go`: the user id it puts in the
request to the use case, or the status and message with which it answers. -/
def ListFilesUserID (userID : Str) : Except (Nat × String) Str :=
  if userID = [] then Except.error (400, "user_id query parameter required")
  else
    match ValidateUserID userID with
    | some (Err.new m) => Except.error (400, m)
    | some _ => Except.error (400, "")
    | none => Except.ok userID

/-- Model of the user-id part of `Handlers.UploadFile` in `handlers.go`: the owner it puts in the
request to the use case, or the status and message with which it answers. -/
def UploadFileUserID (userID : Str) : Except (Nat × String) (Option Str) :=
  if TrimSpace userID ≠ [] then
    let uid := TrimSpace userID
    match ValidateUserID uid with
    | some (Err.new m) => Except.error (400, m)
    | some _ => Except.error (400, "")
    | none => Except.ok (some uid)
  else Except.ok none

/-- The replacement loop of `strings.Replace` for a non-empty `old`: instances of `old` are
replaced left to right without overlap; `skip` counts the characters of a matched instance that
are still to be passed over. -/
def replaceFrom (old new : Str) : Nat → Str → Str
  | _, [] => []
  | skip + 1, _ :: cs => replaceFrom old new skip cs
  | 0, c :: cs =>
    if old <+: c :: cs then new ++ replaceFrom old new (old.length - 1) cs
    else c :: replaceFrom old new 0 cs

/-- Model of `strings.ReplaceAll`; for an empty `old` the replacement goes before the first
character and after each character. -/
def ReplaceAll (s old new : Str) : Str :=
  if old = [] then new ++ s.flatMap (fun c => c :: new)
  else replaceFrom old new 0 s

/-- The double quote. -/
def quoteChar : Char := Char.ofNat 34

/-- The backslash. -/
def backslashChar : Char := Char.ofNat 92

/-- Model of `SanitizeFilename`. -/
def SanitizeFilename (name : Str) : Str :=
  let name := ReplaceAll name [quoteChar] []
  let name := ReplaceAll name [backslashChar] []
  let name := ReplaceAll name ['/'] []
  let name := ReplaceAll name ['.', '.'] []
  if name = [] then "file".toList else name

/-! ## Notions used in the statements and proofs about paths -/

/-- A plain path element: not empty, without a separator, and neither `.` nor `..`. -/
def isName (e : Str) : Prop := e ≠ [] ∧ '/' ∉ e ∧ e ≠ ['.'] ∧ e ≠ ['.', '.']

/-- In the elements written by `Clean` (latest first), `..` elements lie below all others. -/
def dotsBelow : List Str → Prop
  | [] => True
  | top :: rest => (top = ['.', '.'] → ∀ e ∈ rest, e = ['.', '.']) ∧ dotsBelow rest

/-- The invariant of the elements `Clean` has written. -/
def cleanInv (rooted : Bool) (out : List Str) : Prop :=
  (∀ e ∈ out, e ≠ [] ∧ '/' ∉ e ∧ e ≠ ['.']) ∧ dotsBelow out ∧
    (rooted = true → ∀ e ∈ out, e ≠ ['.', '.'])

/-- The elements `Clean` writes for a path. -/
def cleanOut (path : Str) : List Str :=
  (splitSlash path).foldl (cleanStep (path.head? = some '/')) []

/-- The path `Clean` returns for the elements it has written. -/
def cleanRender (rooted : Bool) (out : List Str) : Str :=
  if rooted then '/' :: joinSlash out.reverse
  else if out = [] then ['.']
  else joinSlash out.reverse

/-- The expires-at of a token, in whole seconds: the number member `exp` of its claims. -/
def TokenStr.expiresAt : TokenStr → Option Int
  | TokenStr.jwt _ c _ => match c.get "exp" with | some (JVal.num e) => some e | _ => none
  | _ => none

/-- The issued-at of a token, in whole seconds: the number member `iat` of its claims. -/
def TokenStr.issuedAt : TokenStr → Option Int
  | TokenStr.jwt _ c _ => match c.get "iat" with | some (JVal.num e) => some e | _ => none
  | _ => none

/-- One step of walking a path: an empty element and `.` stay, `..` goes to the parent (the top
has no parent and stays), a name goes down. The position is given by its elements, last first. -/
def walkStep (acc : List Str) (e : Str) : List Str :=
  if e = [] ∨ e = ['.'] then acc
  else if e = ['.', '.'] then acc.tail
  else e :: acc

/-- The directory or file a path denotes from the working directory `cwd` (its elements from the
file-system root), resolved element by element. -/
def resolveFrom (cwd : List Str) (p : Str) : List Str :=
  ((splitSlash p).foldl walkStep (if p.head? = some '/' then [] else cwd.reverse)).reverse

/-- A path that denotes a strict descendant of the directory `root`, seen from `cwd`. -/
def strictDescendant (cwd : List Str) (root p : Str) : Prop :=
  resolveFrom cwd root <+: resolveFrom cwd p ∧ resolveFrom cwd root ≠ resolveFrom cwd p

/-- The locator a call of `SaveEncrypted` returned, when it succeeded. -/
def Call.savedAt : Call → Option Str
  | Call.SaveEncrypted _ _ _ (Except.ok p) => some p
  | _ => none

/-- The locator that `SaveEncrypted` returned in a trace. -/
def savedLocator (t : List Call) : Option Str := t.findSome? Call.savedAt

/-- The locator on which the store's `Delete` was called, for a call of it. -/
def Call.deletedAt : Call → Option Str
  | Call.StorageDelete p _ => some p
  | _ => none

/-- A call of the store's `Delete` or of the repository's `Delete`. -/
def Call.isDelete : Call → Bool
  | Call.StorageDelete _ _ => true
  | Call.RepoDelete _ _ => true
  | _ => false

/-! ## A concrete configuration and world, for evaluation -/

/-- A configuration with stand-ins for the two primitives and the default storage root. -/
def demoConfig : Config :=
  { E := fun _ x => x + 1,
    mac := fun k _ => k,
    UploadsDir := "uploads".toList,
    JWTSecret := [1, 2, 3],
    TokenTTL := 900 * nsPerSec }

/-- An empty store and table, a fixed entropy stream, and a clock that starts on 2023-11-14. -/
def demoWorld : World :=
  { files := fun _ => none,
    rows := [],
    entropy := fun i => toByte (7 * i + 3),
    entropyPos := 0,
    clock := fun i => 1700000000000000000 + i,
    clockPos := 0 }

/-- The upload of the bytes of "hello" as `text/plain` under the name `a.txt`. -/
def demoUpload : UploadFileRequest :=
  { Filename := "a.txt".toList,
    Content := [104, 101, 108, 108, 111],
    ContentType := "text/plain".toList,
    UserID := none }

/-- The wiring of `demoConfig` with a repository whose `Create` always fails (a database that is
down), for evaluation. -/
def demoUseCaseDbDown : FileUseCase World :=
  { demoConfig.fileUseCase with
    fileRepo :=
      { Create := fun _ asset w => ((some (Err.lib "database is closed"), asset), w),
        FindByID := fileRepository.FindByID,
        FindByUserID := fileRepository.FindByUserID,
        Delete := fileRepository.Delete } }

/-- The wiring of `demoConfig` with a token service whose `Generate` always fails, for
evaluation. -/
def demoUseCaseTokenDown : FileUseCase World :=
  { demoConfig.fileUseCase with
    tokenSvc :=
      { Generate := fun _ _ _ w => (Except.error (Err.lib "signing failed"), w),
        Validate := demoConfig.fileUseCase.tokenSvc.Validate } }

/-! ## Theorems -/

/-! ### Go strings -/

theorem toByte_val_of_lt (n : Nat) (h : n < 256) : (toByte n).val = n :=
  Nat.mod_eq_of_lt h

theorem char_valid (c : Char) : c.toNat < 0xD800 ∨ (0xDFFF < c.toNat ∧ c.toNat < 0x110000) :=
  c.valid

theorem decodeRune_utf8EncodeChar (c : Char) (rest : GoString) :
    decodeRune (utf8EncodeChar c ++ rest) = (c, (utf8EncodeChar c).length) := by
  have hv := char_valid c
  have hc : Char.ofNat c.toNat = c := Char.ofNat_toNat c
  unfold utf8EncodeChar
  generalize c.toNat = n at hv hc
  by_cases h1 : n < 0x80
  · rw [if_pos h1]
    have v0 := toByte_val_of_lt n (by omega)
    generalize toByte n = b0 at v0
    simp only [List.singleton_append, decodeRune, List.length_singleton, v0, h1, if_true, hc]
  · rw [if_neg h1]
    by_cases h2 : n < 0x800
    · rw [if_pos h2]
      have v0 := toByte_val_of_lt (0xC0 + n / 64) (by omega)
      have v1 := toByte_val_of_lt (0x80 + n % 64) (by omega)
      generalize toByte (0xC0 + n / 64) = b0 at v0
      generalize toByte (0x80 + n % 64) = b1 at v1
      have e1 : ¬ (0xC0 + n / 64 < 0x80) := by omega
      have e2 : 0xC2 ≤ 0xC0 + n / 64 ∧ 0xC0 + n / 64 ≤ 0xDF := by omega
      have e3 : 0x80 ≤ 0x80 + n % 64 ∧ 0x80 + n % 64 ≤ 0xBF := by omega
      have e4 : (0xC0 + n / 64 - 0xC0) * 64 + (0x80 + n % 64 - 0x80) = n := by omega
      simp only [List.cons_append, List.nil_append, decodeRune, inRange, List.length_cons,
        List.length_nil, v0, v1, e1, e2, e3, e4, if_false, if_true, and_self, decide_True, hc]
    · rw [if_neg h2]
      by_cases h3 : n < 0x10000
      · rw [if_pos h3]
        have v0 := toByte_val_of_lt (0xE0 + n / 4096) (by omega)
        have v1 := toByte_val_of_lt (0x80 + n / 64 % 64) (by omega)
        have v2 := toByte_val_of_lt (0x80 + n % 64) (by omega)
        generalize toByte (0xE0 + n / 4096) = b0 at v0
        generalize toByte (0x80 + n / 64 % 64) = b1 at v1
        generalize toByte (0x80 + n % 64) = b2 at v2
        have e1 : ¬ (0xE0 + n / 4096 < 0x80) := by omega
        have e2 : ¬ (0xC2 ≤ 0xE0 + n / 4096 ∧ 0xE0 + n / 4096 ≤ 0xDF) := by omega
        have e3 : 0xE0 ≤ 0xE0 + n / 4096 ∧ 0xE0 + n / 4096 ≤ 0xEF := by omega
        have e4 : (if 0xE0 + n / 4096 = 0xE0 then 0xA0 else 0x80) ≤ 0x80 + n / 64 % 64 ∧
            0x80 + n / 64 % 64 ≤ (if 0xE0 + n / 4096 = 0xED then 0x9F else 0xBF) := by
          split <;> split <;> omega
        have e5 : 0x80 ≤ 0x80 + n % 64 ∧ 0x80 + n % 64 ≤ 0xBF := by omega
        have e6 : (0xE0 + n / 4096 - 0xE0) * 4096 + (0x80 + n / 64 % 64 - 0x80) * 64
            + (0x80 + n % 64 - 0x80) = n := by omega
        simp only [List.cons_append, List.nil_append, decodeRune, inRange, List.length_cons,
          List.length_nil, v0, v1, v2, e1, e2, e3, e4, e5, e6, if_false, if_true, and_self,
          decide_True, Bool.and_self, hc]
      · rw [if_neg h3]
        have v0 := toByte_val_of_lt (0xF0 + n / 262144) (by omega)
        have v1 := toByte_val_of_lt (0x80 + n / 4096 % 64) (by omega)
        have v2 := toByte_val_of_lt (0x80 + n / 64 % 64) (by omega)
        have v3 := toByte_val_of_lt (0x80 + n % 64) (by omega)
        generalize toByte (0xF0 + n / 262144) = b0 at v0
        generalize toByte (0x80 + n / 4096 % 64) = b1 at v1
        generalize toByte (0x80 + n / 64 % 64) = b2 at v2
        generalize toByte (0x80 + n % 64) = b3 at v3
        have e1 : ¬ (0xF0 + n / 262144 < 0x80) := by omega
        have e2 : ¬ (0xC2 ≤ 0xF0 + n / 262144 ∧ 0xF0 + n / 262144 ≤ 0xDF) := by omega
        have e3 : ¬ (0xE0 ≤ 0xF0 + n / 262144 ∧ 0xF0 + n / 262144 ≤ 0xEF) := by omega
        have e3' : 0xF0 ≤ 0xF0 + n / 262144 ∧ 0xF0 + n / 262144 ≤ 0xF4 := by omega
        have e4 : (if 0xF0 + n / 262144 = 0xF0 then 0x90 else 0x80) ≤ 0x80 + n / 4096 % 64 ∧
            0x80 + n / 4096 % 64 ≤ (if 0xF0 + n / 262144 = 0xF4 then 0x8F else 0xBF) := by
          split <;> split <;> omega
        have e5 : 0x80 ≤ 0x80 + n / 64 % 64 ∧ 0x80 + n / 64 % 64 ≤ 0xBF := by omega
        have e5' : 0x80 ≤ 0x80 + n % 64 ∧ 0x80 + n % 64 ≤ 0xBF := by omega
        have e6 : (0xF0 + n / 262144 - 0xF0) * 262144 + (0x80 + n / 4096 % 64 - 0x80) * 4096
            + (0x80 + n / 64 % 64 - 0x80) * 64 + (0x80 + n % 64 - 0x80) = n := by omega
        simp only [List.cons_append, List.nil_append, decodeRune, inRange, List.length_cons,
          List.length_nil, v0, v1, v2, v3, e1, e2, e3, e3', e4, e5, e5', e6, if_false, if_true,
          and_self, decide_True, Bool.and_self, hc]

theorem runesFrom_utf8EncodeChar (c : Char) (rest : GoString) :
    runesFrom 0 (utf8EncodeChar c ++ rest) = c :: runesFrom 0 rest := by
  have hd := decodeRune_utf8EncodeChar c rest
  have hlen : (utf8EncodeChar c).length = 1 ∨ (utf8EncodeChar c).length = 2 ∨
      (utf8EncodeChar c).length = 3 ∨ (utf8EncodeChar c).length = 4 := by
    unfold utf8EncodeChar
    split
    · simp
    · split
      · simp
      · split <;> simp
  generalize utf8EncodeChar c = e at hd hlen
  match e, hlen with
  | [_], _ =>
    rw [List.singleton_append] at hd ⊢
    rw [runesFrom, hd]
    rfl
  | [_, _], _ =>
    simp only [List.cons_append, List.nil_append] at hd ⊢
    rw [runesFrom, hd]
    rfl
  | [_, _, _], _ =>
    simp only [List.cons_append, List.nil_append] at hd ⊢
    rw [runesFrom, hd]
    rfl
  | [_, _, _, _], _ =>
    simp only [List.cons_append, List.nil_append] at hd ⊢
    rw [runesFrom, hd]
    rfl
  | [], h => simp at h
  | _ :: _ :: _ :: _ :: _ :: _, h => simp at h

/-- Reading the UTF-8 encoding of a text gives the text back. -/
theorem runes_utf8Encode (s : Str) : runes (utf8Encode s) = s := by
  unfold runes utf8Encode
  induction s with
  | nil => rfl
  | cons c cs ih =>
    rw [List.flatMap_cons, runesFrom_utf8EncodeChar, ih]

theorem ofNat_ne_slash (m : Nat) (h : 47 < m) : Char.ofNat m ≠ '/' := by
  intro heq
  have h1 : (Char.ofNat m).toNat = 47 := by rw [heq]; rfl
  by_cases hv : m.isValidChar
  · have h2 : (Char.ofNat m).toNat = m := by
      unfold Char.ofNat
      rw [dif_pos hv]
      rfl
    omega
  · have h2 : (Char.ofNat m).toNat = 0 := by
      unfold Char.ofNat
      rw [dif_neg hv]
      rfl
    omega

theorem ofNat_val_eq_slash (b : Byte) (h : Char.ofNat b.val = '/') : b = 47 := by
  by_cases hb : b.val = 47
  · exact Fin.ext hb
  · exfalso
    have hlt : b.val < 256 := b.isLt
    have hv : b.val.isValidChar := Or.inl (by omega)
    have h1 : (Char.ofNat b.val).toNat = 47 := by rw [h]; rfl
    have h2 : (Char.ofNat b.val).toNat = b.val := by
      unfold Char.ofNat
      rw [dif_pos hv]
      rfl
    omega

set_option maxRecDepth 100000 in
theorem lowerRanges_targets : ∀ r ∈ lowerRanges, 47 < r.2.2.2 := by
  decide

theorem unicodeToLower_eq_slash (c : Char) (h : unicodeToLower c = '/') : c = '/' := by
  unfold unicodeToLower at h
  split at h
  · rename_i r hr
    have hmem := List.mem_of_find?_eq_some hr
    have := lowerRanges_targets r hmem
    exact absurd h (ofNat_ne_slash _ (by omega))
  · exact h

theorem decodeRune_eq_slash (b : Byte) (bs : GoString) (h : (decodeRune (b :: bs)).1 = '/') :
    b = 47 := by
  have hre : RuneError ≠ '/' := by decide
  simp only [decodeRune] at h
  by_cases c1 : b.val < 0x80
  · rw [if_pos c1] at h
    exact ofNat_val_eq_slash b h
  · rw [if_neg c1] at h
    by_cases c2 : 0xC2 ≤ b.val ∧ b.val ≤ 0xDF
    · rw [if_pos c2] at h
      cases bs with
      | nil => exact absurd h hre
      | cons b1 tl =>
        simp only at h
        by_cases c : inRange 0x80 0xBF b1 = true
        · rw [if_pos c] at h
          have hbig : 47 < (b.val - 192) * 64 + (b1.val - 128) := by omega
          dsimp only at h
          exact (ofNat_ne_slash _ hbig h).elim
        · rw [if_neg c] at h
          exact absurd h hre
    · rw [if_neg c2] at h
      by_cases c3 : 0xE0 ≤ b.val ∧ b.val ≤ 0xEF
      · rw [if_pos c3] at h
        cases bs with
        | nil => exact absurd h hre
        | cons b1 tl =>
          cases tl with
          | nil => exact absurd h hre
          | cons b2 tl2 =>
            simp only at h
            generalize hc : (inRange _ _ b1 && inRange 0x80 0xBF b2) = cnd at h
            cases cnd with
            | false =>
              rw [if_neg (by decide)] at h
              exact absurd h hre
            | true =>
              simp only [inRange, Bool.and_eq_true, decide_eq_true_eq] at hc
              obtain ⟨⟨hlo, -⟩, -⟩ := hc
              have hbig : 47 < (b.val - 224) * 4096 + (b1.val - 128) * 64 + (b2.val - 128) := by
                split at hlo <;> omega
              rw [if_pos rfl] at h
              dsimp only at h
              exact (ofNat_ne_slash _ hbig h).elim
      · rw [if_neg c3] at h
        by_cases c4 : 0xF0 ≤ b.val ∧ b.val ≤ 0xF4
        · rw [if_pos c4] at h
          cases bs with
          | nil => exact absurd h hre
          | cons b1 tl =>
            cases tl with
            | nil => exact absurd h hre
            | cons b2 tl2 =>
              cases tl2 with
              | nil => exact absurd h hre
              | cons b3 tl3 =>
                simp only at h
                generalize hc : (inRange _ _ b1 && inRange 0x80 0xBF b2 && inRange 0x80 0xBF b3)
                  = cnd at h
                cases cnd with
                | false =>
              rw [if_neg (by decide)] at h
              exact absurd h hre
                | true =>
                  simp only [inRange, Bool.and_eq_true, decide_eq_true_eq] at hc
                  obtain ⟨⟨⟨hlo, -⟩, -⟩, -⟩ := hc
                  have hbig : 47 < (b.val - 240) * 262144 + (b1.val - 128) * 4096
                      + (b2.val - 128) * 64 + (b3.val - 128) := by
                    split at hlo <;> omega
                  rw [if_pos rfl] at h
                  dsimp only at h
                  exact (ofNat_ne_slash _ hbig h).elim
        · rw [if_neg c4] at h
          exact absurd h hre

theorem runesFrom_noSlash (k : Nat) (s : GoString) (h : (47 : Byte) ∉ s) :
    '/' ∉ runesFrom k s := by
  induction s generalizing k with
  | nil => cases k <;> simp [runesFrom]
  | cons b bs ih =>
    have hbs : (47 : Byte) ∉ bs := fun hm => h (List.mem_cons_of_mem _ hm)
    cases k with
    | succ k =>
      rw [runesFrom]
      exact ih k hbs
    | zero =>
      rw [runesFrom]
      intro hm
      rcases List.mem_cons.mp hm with h1 | h1
      · have := decodeRune_eq_slash b bs h1.symm
        exact h (by rw [this]; exact List.mem_cons_self _ _)
      · exact ih _ hbs h1

theorem Ext_noSlash (path : GoString) : (47 : Byte) ∉ Ext path := by
  unfold Ext
  simp only
  split
  · intro hm
    simp only [List.mem_cons, List.mem_reverse] at hm
    rcases hm with h | h
    · exact absurd h (by decide)
    · have h1 : (47 : Byte) ∈ List.takeWhile (fun c => decide (c ≠ 47)) path.reverse :=
        (List.takeWhile_sublist _).subset h
      have h2 := List.mem_takeWhile_imp h1
      simp at h2
  · simp

theorem ToLower_noSlash (s : GoString) (h : (47 : Byte) ∉ s) : '/' ∉ ToLower s := by
  unfold ToLower runes
  intro hm
  simp only [List.mem_map] at hm
  obtain ⟨c, hc, heq⟩ := hm
  have := unicodeToLower_eq_slash c heq
  subst this
  exact runesFrom_noSlash 0 s h hc

/-! ### Bytes and CTR mode -/

theorem Byte.xor_val (a b : Byte) : (a ^^^ b).val = a.val ^^^ b.val := by
  have h : a.val ^^^ b.val < 2 ^ 8 := Nat.xor_lt_two_pow a.isLt b.isLt
  show (a.val ^^^ b.val) % 256 = _
  exact Nat.mod_eq_of_lt h

theorem Byte.xor_xor_cancel (a b : Byte) : (a ^^^ b) ^^^ b = a := by
  apply Fin.ext
  rw [Byte.xor_val, Byte.xor_val, Nat.xor_assoc, Nat.xor_self, Nat.xor_zero]

theorem zipWith_xor_cancel (d k : List Byte) (h : d.length ≤ k.length) :
    List.zipWith (fun d k => d ^^^ k) (List.zipWith (fun d k => d ^^^ k) d k) k = d := by
  induction d generalizing k with
  | nil => simp
  | cons a as ih =>
    cases k with
    | nil => simp at h
    | cons b bs =>
      simp only [List.zipWith_cons_cons, List.length_cons, Nat.add_le_add_iff_right] at h ⊢
      rw [Byte.xor_xor_cancel, ih bs h]

theorem keystream_length (E : BlockFn) (key nonce : List Byte) (n : Nat) :
    (keystream E key nonce n).length = n := by
  simp [keystream]

theorem counterCrypt_length (E : BlockFn) (key nonce data : List Byte) :
    (counterCrypt E key nonce data).length = data.length := by
  simp [counterCrypt, keystream_length]

theorem counterCrypt_involutive (E : BlockFn) (key nonce data : List Byte) :
    counterCrypt E key nonce (counterCrypt E key nonce data) = data := by
  have hl := counterCrypt_length E key nonce data
  unfold counterCrypt at hl ⊢
  rw [hl]
  exact zipWith_xor_cancel _ _ (by rw [keystream_length])

theorem gcmTag_length (E : BlockFn) (key nonce ct : List Byte) :
    (gcmTag E key nonce ct).length = 16 := by
  simp [gcmTag, blockBytes]

/-- Opening what `gcmSeal` produced gives the plaintext back. -/
theorem gcmOpen_gcmSeal (E : BlockFn) (key nonce pt ct : List Byte)
    (h : gcmSeal E key nonce pt = Except.ok ct) : gcmOpen E key nonce ct = Except.ok pt := by
  unfold gcmSeal at h
  split at h
  · cases h
  · rename_i hn
    split at h
    · cases h
    · rename_i hp
      injection h with h
      subst h
      have hlen : (counterCrypt E key nonce pt ++
          gcmTag E key nonce (counterCrypt E key nonce pt)).length = pt.length + 16 := by
        rw [List.length_append, counterCrypt_length, gcmTag_length]
      unfold gcmOpen
      rw [if_neg hn, hlen]
      have h1 : ¬ (pt.length + 16 < gcmTagSize) := by unfold gcmTagSize; omega
      have h2 : ¬ (pt.length + 16 > gcmMaxPlaintext + gcmTagSize) := by
        unfold gcmTagSize; omega
      rw [if_neg h1, if_neg h2]
      have hsub : pt.length + 16 - gcmTagSize = (counterCrypt E key nonce pt).length := by
        rw [counterCrypt_length]; unfold gcmTagSize; omega
      simp only [hsub, List.take_left', List.drop_left', ne_eq, not_true_eq_false, if_false]
      rw [counterCrypt_involutive]

/-- C1: for every 32-byte key and every plaintext (the empty one included), whenever
`EncryptAESGCM` returns `(ciphertext, nonce)`, `DecryptAESGCM` under the same key on that nonce
and ciphertext succeeds and returns exactly the plaintext. -/
theorem C1_encrypt_decrypt_roundtrip (E : BlockFn) (draw : Draw GCMNonceSize)
    (key plaintext ciphertext nonce : List Byte) (hkey : key.length = 32)
    (henc : EncryptAESGCM E draw key plaintext = Except.ok (ciphertext, nonce)) :
    DecryptAESGCM E key nonce ciphertext = Except.ok plaintext := by
  have hk : ¬ key.length ≠ AESKeySize := by simp [AESKeySize, hkey]
  have hc : aesNewCipher key = Except.ok () := by simp [aesNewCipher, hkey]
  unfold EncryptAESGCM at henc
  rw [if_neg hk, hc] at henc
  cases draw with
  | error e => simp at henc
  | ok n =>
    simp only at henc
    cases hs : gcmSeal E key n.val plaintext with
    | error e => rw [hs] at henc; simp at henc
    | ok ct =>
      rw [hs] at henc
      simp only [Except.ok.injEq, Prod.mk.injEq] at henc
      obtain ⟨h1, h2⟩ := henc
      subst h1 h2
      unfold DecryptAESGCM
      rw [if_neg hk, hc]
      have hn : ¬ n.val.length ≠ GCMNonceSize := by simp [n.property]
      simp only [hn, if_false, gcmOpen_gcmSeal E key n.val plaintext ct hs]

/-! ### Base64 -/

theorem b64Val_b64Char (i : Nat) (h : i < 64) : b64Val (b64Char i) = some i := by
  interval_cases i <;> rfl

theorem b64Char_ne_special (i : Nat) (h : i < 64) :
    b64Char i ≠ '=' ∧ b64Char i ≠ '\r' ∧ b64Char i ≠ '\n' := by
  interval_cases i <;> decide

theorem toByte_val (a : Byte) : toByte a.val = a := by
  apply Fin.ext
  show a.val % 256 = a.val
  exact Nat.mod_eq_of_lt a.isLt

theorem b64DecodeQuanta_encode (l : List Byte) : b64DecodeQuanta (b64Encode l) = some l := by
  induction l using b64Encode.induct with
  | case1 => rfl
  | case2 a =>
    have ha := a.isLt
    have h0 := b64Val_b64Char (a.val / 4) (by omega)
    have h1 := b64Val_b64Char (a.val % 4 * 16) (by omega)
    simp only [b64Encode, b64DecodeQuanta, h0, h1, and_self, if_true]
    have : a.val / 4 * 4 + a.val % 4 * 16 / 16 = a.val := by omega
    rw [this, toByte_val]
  | case3 a b =>
    have ha := a.isLt
    have hb := b.isLt
    have h0 := b64Val_b64Char (a.val / 4) (by omega)
    have h1 := b64Val_b64Char (a.val % 4 * 16 + b.val / 16) (by omega)
    have h2 := b64Val_b64Char (b.val % 16 * 4) (by omega)
    have n2 := (b64Char_ne_special (b.val % 16 * 4) (by omega)).1
    simp only [b64Encode, b64DecodeQuanta, h0, h1, h2, n2, if_true, if_false]
    have e1 : a.val / 4 * 4 + (a.val % 4 * 16 + b.val / 16) / 16 = a.val := by omega
    have e2 : (a.val % 4 * 16 + b.val / 16) % 16 * 16 + b.val % 16 * 4 / 4 = b.val := by omega
    rw [e1, e2, toByte_val, toByte_val]
  | case4 a b c rest ih =>
    have ha := a.isLt
    have hb := b.isLt
    have hc := c.isLt
    have h0 := b64Val_b64Char (a.val / 4) (by omega)
    have h1 := b64Val_b64Char (a.val % 4 * 16 + b.val / 16) (by omega)
    have h2 := b64Val_b64Char (b.val % 16 * 4 + c.val / 64) (by omega)
    have h3 := b64Val_b64Char (c.val % 64) (by omega)
    have n2 := (b64Char_ne_special (b.val % 16 * 4 + c.val / 64) (by omega)).1
    have n3 := (b64Char_ne_special (c.val % 64) (by omega)).1
    simp only [b64Encode, b64DecodeQuanta, h0, h1, h2, h3, n2, n3, if_false, ih]
    have e1 : a.val / 4 * 4 + (a.val % 4 * 16 + b.val / 16) / 16 = a.val := by omega
    have e2 : (a.val % 4 * 16 + b.val / 16) % 16 * 16 + (b.val % 16 * 4 + c.val / 64) / 4
        = b.val := by omega
    have e3 : (b.val % 16 * 4 + c.val / 64) % 4 * 64 + c.val % 64 = c.val := by omega
    rw [e1, e2, e3, toByte_val, toByte_val, toByte_val]

theorem b64Encode_no_linebreak (l : List Byte) :
    ∀ c ∈ b64Encode l, c ≠ '\r' ∧ c ≠ '\n' := by
  induction l using b64Encode.induct with
  | case1 => simp [b64Encode]
  | case2 a =>
    have ha := a.isLt
    have s0 := (b64Char_ne_special (a.val / 4) (by omega)).2
    have s1 := (b64Char_ne_special (a.val % 4 * 16) (by omega)).2
    intro c hc
    simp only [b64Encode, List.mem_cons, List.mem_singleton, List.not_mem_nil, or_false] at hc
    rcases hc with h | h | h | h <;> subst h <;> first | assumption | decide
  | case3 a b =>
    have ha := a.isLt
    have hb := b.isLt
    have s0 := (b64Char_ne_special (a.val / 4) (by omega)).2
    have s1 := (b64Char_ne_special (a.val % 4 * 16 + b.val / 16) (by omega)).2
    have s2 := (b64Char_ne_special (b.val % 16 * 4) (by omega)).2
    intro c hc
    simp only [b64Encode, List.mem_cons, List.mem_singleton, List.not_mem_nil, or_false] at hc
    rcases hc with h | h | h | h <;> subst h <;> first | assumption | decide
  | case4 a b c rest ih =>
    have ha := a.isLt
    have hb := b.isLt
    have hc := c.isLt
    have s0 := (b64Char_ne_special (a.val / 4) (by omega)).2
    have s1 := (b64Char_ne_special (a.val % 4 * 16 + b.val / 16) (by omega)).2
    have s2 := (b64Char_ne_special (b.val % 16 * 4 + c.val / 64) (by omega)).2
    have s3 := (b64Char_ne_special (c.val % 64) (by omega)).2
    intro x hx
    simp only [b64Encode, List.mem_cons] at hx
    rcases hx with h | h | h | h | h
    · subst h; assumption
    · subst h; assumption
    · subst h; assumption
    · subst h; assumption
    · exact ih x h

theorem b64Decode_encode (l : List Byte) : b64Decode (b64Encode l) = some l := by
  unfold b64Decode
  have hf : (b64Encode l).filter (fun c => c ≠ '\r' ∧ c ≠ '\n') = b64Encode l := by
    apply List.filter_eq_self.mpr
    intro c hc
    have := b64Encode_no_linebreak l c hc
    simp [this.1, this.2]
  rw [hf, b64DecodeQuanta_encode]

/-! ### The capability token -/

theorem decodeJwtClaims_encode (f k : Str) (u : Option Str) (e i : Int) :
    decodeJwtClaims (encodeJwtClaims
      { FileTokenClaims := { FileID := f, Key := k, UserID := u },
        RegisteredClaims := { ExpiresAt := some e, NotBefore := none, IssuedAt := some i } }) =
    some { FileTokenClaims := { FileID := f, Key := k, UserID := u },
           RegisteredClaims := { ExpiresAt := some e, NotBefore := none, IssuedAt := some i } } := by
  cases u <;> rfl

theorem hs256_registered : "HS256".toList ∈ registeredSigningMethods := by decide

/-- What `Validate` does on a token that `Generate` issued, by the clock alone. -/
theorem validate_generate (t : tokenService) (mac : Mac) (now now' : Nat) (id : GoString)
    (key : List Byte) (owner : Option GoString) (tok : TokenStr)
    (hgen : t.Generate mac now id key owner = Except.ok tok) :
    t.Validate mac now' tok =
      if (now' : Int) < NewNumericDate (now + t.ttl) * nsPerSec then
        Except.ok { FileID := runes id, Key := b64Encode key, UserID := owner.map runes }
      else
        Except.error (Err.wrap "parse token" (Err.join ErrTokenInvalidClaims ErrTokenExpired)) := by
  unfold tokenService.Generate at hgen
  split at hgen
  · cases hgen
  · split at hgen
    · cases hgen
    · injection hgen with hgen
      subst hgen
      simp only [tokenService.Validate, ParseWithClaims, parseUnverified, signHS256,
        decodeJwtClaims_encode]
      have hget : JObj.get [("alg", JVal.str "HS256".toList), ("typ", JVal.str "JWT".toList)]
          "alg" = some (JVal.str "HS256".toList) := by rfl
      simp only [hget, hs256_registered, if_true, List.mem_singleton, not_true_eq_false,
        if_false, ne_eq, validateRegistered]
      by_cases h : (now' : Int) < NewNumericDate (now + t.ttl) * nsPerSec
      · simp [h]
      · simp [h]

/-- What `Validate` does on a token that `Generate` issued for an id and an owner given as the
Go strings that hold a text. -/
theorem validate_generate_text (t : tokenService) (mac : Mac) (now now' : Nat) (id : Str)
    (key : List Byte) (owner : Option Str) (tok : TokenStr)
    (hgen : t.Generate mac now (utf8Encode id) key (owner.map utf8Encode) = Except.ok tok) :
    t.Validate mac now' tok =
      if (now' : Int) < NewNumericDate (now + t.ttl) * nsPerSec then
        Except.ok { FileID := id, Key := b64Encode key, UserID := owner }
      else
        Except.error (Err.wrap "parse token" (Err.join ErrTokenInvalidClaims ErrTokenExpired)) := by
  rw [validate_generate t mac now now' _ key _ tok hgen, runes_utf8Encode]
  cases owner with
  | none => rfl
  | some o => simp only [Option.map_some', runes_utf8Encode]

theorem decodeKey_encode (key : List Byte) (h : key.length = 32) :
    decodeKey (b64Encode key) = Except.ok key := by
  simp [decodeKey, b64Decode_encode, h]

theorem generate_ok (t : tokenService) (mac : Mac) (now : Nat) (id : GoString) (key : List Byte)
    (owner : Option GoString) (hid : id ≠ []) (hkey : key.length = 32) :
    ∃ tok, t.Generate mac now id key owner = Except.ok tok := by
  simp [tokenService.Generate, hid, hkey, AESKeySize]

/-! ### The use case, for arbitrary collaborators -/

theorem no_generate_in (t pre post : List Call) (c : Call)
    (hno : ∀ x ∈ t, x.isGenerate = false) (h : t = pre ++ c :: post) :
    c.isGenerate = false := by
  apply hno
  rw [h]
  simp

theorem generate_last (t pre post : List Call) (g c : Call)
    (hno : ∀ x ∈ t, x.isGenerate = false) (hc : ∃ x ∈ t, x.isCreateOk = true)
    (h : t ++ [g] = pre ++ c :: post) (hgen : c.isGenerate = true) :
    ∃ x ∈ pre, x.isCreateOk = true := by
  rcases List.eq_nil_or_concat post with hp | ⟨post', x, hp⟩
  · subst hp
    have h' : t ++ [g] = pre ++ [c] := h
    have := List.append_inj' h' rfl
    rw [← this.1]
    exact hc
  · subst hp
    have h' : t ++ [g] = (pre ++ c :: post') ++ [x] := by
      rw [h]; simp
    have := List.append_inj' h' rfl
    have hmem : c ∈ t := by rw [this.1]; simp
    rw [hno c hmem] at hgen
    cases hgen

/-- What a successful `UploadFile` did, step by step. -/
theorem UploadFile_ok_inv {σ : Type} (uc : FileUseCase σ) (ctx : Ctx) (req : UploadFileRequest)
    (s : σ) (resp : UploadFileResponse)
    (h : (uc.UploadFile ctx req s).result = Except.ok resp) :
    ∃ key ct nonce path tok,
      (uc.cryptoSvc.GenerateAESKey s).1 = Except.ok key ∧
      (uc.cryptoSvc.EncryptAESGCM key req.Content (uc.cryptoSvc.GenerateAESKey s).2).1
        = Except.ok (ct, nonce) ∧
      (uc.storageSvc.SaveEncrypted (ctx 0) req.Filename nonce ct
        (uc.cryptoSvc.EncryptAESGCM key req.Content (uc.cryptoSvc.GenerateAESKey s).2).2).1
        = Except.ok path ∧
      (let s3 := (uc.storageSvc.SaveEncrypted (ctx 0) req.Filename nonce ct
          (uc.cryptoSvc.EncryptAESGCM key req.Content (uc.cryptoSvc.GenerateAESKey s).2).2).2
       let asset : FileAsset :=
          { ID := [], OriginalName := req.Filename, StoredPath := path, UserID := req.UserID,
            ContentType := req.ContentType, SizeBytes := (req.Content.length : Int),
            EncryptionAlg := "AES-256".toList, AuthenticationAlg := "GCM".toList,
            CreatedAt := 0, UpdatedAt := 0, DeletedAt := none }
       let c := uc.fileRepo.Create (ctx 1) asset s3
       c.1.1 = none ∧
       (uc.tokenSvc.Generate c.1.2.ID key req.UserID c.2).1 = Except.ok tok ∧
       resp = { FileID := c.1.2.ID, Token := tok, ExpiresIn := 900 } ∧
       (uc.UploadFile ctx req s).state = (uc.tokenSvc.Generate c.1.2.ID key req.UserID c.2).2 ∧
       (uc.UploadFile ctx req s).trace =
        [Call.GenerateAESKey (Except.ok key),
         Call.EncryptAESGCM key req.Content (Except.ok (ct, nonce)),
         Call.SaveEncrypted req.Filename nonce ct (Except.ok path),
         Call.Create asset none c.1.2,
         Call.Generate c.1.2.ID key req.UserID (Except.ok tok)]) := by
  unfold FileUseCase.UploadFile at h ⊢
  simp only at h ⊢
  cases hk : (uc.cryptoSvc.GenerateAESKey s).1 with
  | error e => simp only [hk] at h; cases h
  | ok key =>
    simp only [hk] at h ⊢
    cases he : (uc.cryptoSvc.EncryptAESGCM key req.Content (uc.cryptoSvc.GenerateAESKey s).2).1 with
    | error e => simp only [he] at h; cases h
    | ok cn =>
      obtain ⟨ct, nonce⟩ := cn
      simp only [he] at h ⊢
      cases hs : (uc.storageSvc.SaveEncrypted (ctx 0) req.Filename nonce ct
        (uc.cryptoSvc.EncryptAESGCM key req.Content (uc.cryptoSvc.GenerateAESKey s).2).2).1 with
      | error e => simp only [hs] at h; cases h
      | ok path =>
        simp only [hs] at h ⊢
        split at h
        · cases h
        · rename_i hc
          split at h
          · cases h
          · rename_i tok hg
            simp only [Except.ok.injEq] at h
            refine ⟨key, ct, nonce, path, tok, rfl, he, hs, hc, hg, h.symm, ?_, ?_⟩
            · simp only [hc, hg]
            · simp only [hc, hg, List.cons_append, List.nil_append]


/-- The two shapes of the trace of `UploadFile`: no `Generate` call and an error, or a last call
after a successful `Create` and no failed one. -/
theorem UploadFile_trace_shape {σ : Type} (uc : FileUseCase σ) (ctx : Ctx)
    (req : UploadFileRequest) (s : σ) :
    ((∀ x ∈ (uc.UploadFile ctx req s).trace, x.isGenerate = false) ∧
      ∃ e, (uc.UploadFile ctx req s).result = Except.error e) ∨
    (∃ t g, (uc.UploadFile ctx req s).trace = t ++ [g] ∧
      (∀ x ∈ t, x.isGenerate = false) ∧ (∃ x ∈ t, x.isCreateOk = true) ∧
      (∀ x ∈ (uc.UploadFile ctx req s).trace, x.isCreateFailed = false)) := by
  unfold FileUseCase.UploadFile
  simp only
  cases hk : (uc.cryptoSvc.GenerateAESKey s).1 with
  | error e =>
    left
    simp [Call.isGenerate]
  | ok key =>
    simp only
    cases he : (uc.cryptoSvc.EncryptAESGCM key req.Content (uc.cryptoSvc.GenerateAESKey s).2).1 with
    | error e =>
      left
      simp [Call.isGenerate]
    | ok cn =>
      obtain ⟨ct, nonce⟩ := cn
      simp only
      cases hs : (uc.storageSvc.SaveEncrypted (ctx 0) req.Filename nonce ct
        (uc.cryptoSvc.EncryptAESGCM key req.Content (uc.cryptoSvc.GenerateAESKey s).2).2).1 with
      | error e =>
        left
        simp [Call.isGenerate]
      | ok path =>
        simp only
        split
        · left
          simp [Call.isGenerate]
        · rename_i hc
          right
          split
          · refine ⟨_, _, rfl, ?_, ⟨_, List.mem_append_right _ (List.mem_singleton_self _), ?_⟩, ?_⟩
            · simp [Call.isGenerate]
            · simp only [Call.isCreateOk, hc]
            · intro x hx
              simp only [List.mem_append, List.mem_cons, List.mem_singleton, List.not_mem_nil,
                or_false] at hx
              rcases hx with (((rfl | rfl) | rfl) | rfl) | rfl <;>
                simp only [Call.isCreateFailed, hc]
          · refine ⟨_, _, rfl, ?_, ⟨_, List.mem_append_right _ (List.mem_singleton_self _), ?_⟩, ?_⟩
            · simp [Call.isGenerate]
            · simp only [Call.isCreateOk, hc]
            · intro x hx
              simp only [List.mem_append, List.mem_cons, List.mem_singleton, List.not_mem_nil,
                or_false] at hx
              rcases hx with (((rfl | rfl) | rfl) | rfl) | rfl <;>
                simp only [Call.isCreateFailed, hc]


/-! ### Paths -/

theorem splitSlash_ne_nil (p : Str) : splitSlash p ≠ [] := by
  cases p with
  | nil => simp [splitSlash]
  | cons c cs =>
    unfold splitSlash
    split
    · simp
    · split <;> simp

theorem splitSlash_noSlash (e : Str) (h : '/' ∉ e) : splitSlash e = [e] := by
  induction e with
  | nil => rfl
  | cons c cs ih =>
    have hc : c ≠ '/' := fun hc => h (by simp [hc])
    have hcs : '/' ∉ cs := fun hcs => h (by simp [hcs])
    unfold splitSlash
    rw [if_neg hc, ih hcs]

theorem splitSlash_cons (c : Char) (cs : Str) :
    splitSlash (c :: cs) =
      if c = '/' then [] :: splitSlash cs
      else match splitSlash cs with
        | [] => [[c]]
        | e :: es => (c :: e) :: es := rfl

theorem splitSlash_append (a b : Str) :
    splitSlash (a ++ '/' :: b) = splitSlash a ++ splitSlash b := by
  induction a with
  | nil => simp [splitSlash]
  | cons c cs ih =>
    rw [List.cons_append, splitSlash_cons c (cs ++ '/' :: b), splitSlash_cons c cs, ih]
    by_cases hc : c = '/'
    · rw [if_pos hc, if_pos hc]; rfl
    · rw [if_neg hc, if_neg hc]
      cases hs : splitSlash cs with
      | nil => exact absurd hs (splitSlash_ne_nil cs)
      | cons e es => rfl

theorem splitSlash_elems_noSlash (p : Str) : ∀ e ∈ splitSlash p, '/' ∉ e := by
  induction p with
  | nil => simp [splitSlash]
  | cons c cs ih =>
    unfold splitSlash
    by_cases hc : c = '/'
    · rw [if_pos hc]
      intro e he
      simp only [List.mem_cons] at he
      rcases he with rfl | he
      · simp
      · exact ih e he
    · rw [if_neg hc]
      cases hs : splitSlash cs with
      | nil => exact absurd hs (splitSlash_ne_nil cs)
      | cons x xs =>
        rw [hs] at ih
        intro e he
        simp only [List.mem_cons] at he
        rcases he with rfl | he
        · have hx : '/' ∉ x := ih x (by simp)
          intro hmem
          simp only [List.mem_cons] at hmem
          rcases hmem with h | h
          · exact hc h.symm
          · exact hx h
        · exact ih e (by simp [he])

theorem joinSlash_cons (e : Str) (es : List Str) (h : es ≠ []) :
    joinSlash (e :: es) = e ++ '/' :: joinSlash es := by
  cases es with
  | nil => exact absurd rfl h
  | cons x xs => rfl

theorem joinSlash_append (a b : List Str) (ha : a ≠ []) (hb : b ≠ []) :
    joinSlash (a ++ b) = joinSlash a ++ '/' :: joinSlash b := by
  induction a with
  | nil => exact absurd rfl ha
  | cons x xs ih =>
    cases xs with
    | nil => simp [joinSlash_cons _ _ hb, joinSlash]
    | cons y ys =>
      have h1 : (y :: ys) ++ b ≠ [] := by simp
      rw [List.cons_append, joinSlash_cons _ _ h1, ih (by simp),
        joinSlash_cons _ _ (by simp : y :: ys ≠ [])]
      simp

theorem splitSlash_joinSlash (es : List Str) (hne : es ≠ []) (h : ∀ e ∈ es, '/' ∉ e) :
    splitSlash (joinSlash es) = es := by
  induction es with
  | nil => exact absurd rfl hne
  | cons x xs ih =>
    have hx : '/' ∉ x := h x (by simp)
    cases xs with
    | nil => simp [joinSlash, splitSlash_noSlash x hx]
    | cons y ys =>
      rw [joinSlash_cons _ _ (by simp), splitSlash_append, splitSlash_noSlash x hx,
        ih (by simp) (fun e he => h e (by simp [he]))]
      rfl

theorem cleanStep_name (rooted : Bool) (out : List Str) (e : Str) (h : isName e) :
    cleanStep rooted out e = e :: out := by
  obtain ⟨h1, _, h3, h4⟩ := h
  simp [cleanStep, h1, h3, h4]

theorem foldl_cleanStep_names (rooted : Bool) (out : List Str) (ns : List Str)
    (h : ∀ e ∈ ns, isName e) :
    ns.foldl (cleanStep rooted) out = ns.reverse ++ out := by
  induction ns generalizing out with
  | nil => rfl
  | cons x xs ih =>
    rw [List.foldl_cons, cleanStep_name rooted out x (h x (by simp)),
      ih _ (fun e he => h e (by simp [he]))]
    simp

theorem dotsBelow_tail (x : Str) (xs : List Str) (h : dotsBelow (x :: xs)) : dotsBelow xs := h.2

theorem cleanInv_nil (rooted : Bool) : cleanInv rooted [] := by
  simp [cleanInv, dotsBelow]

theorem cleanInv_tail (rooted : Bool) (x : Str) (xs : List Str) (h : cleanInv rooted (x :: xs)) :
    cleanInv rooted xs :=
  ⟨fun e he => h.1 e (by simp [he]), h.2.1.2, fun hr e he => h.2.2 hr e (by simp [he])⟩

theorem cleanInv_step (rooted : Bool) (out : List Str) (e : Str) (hs : '/' ∉ e)
    (h : cleanInv rooted out) : cleanInv rooted (cleanStep rooted out e) := by
  unfold cleanStep
  by_cases h1 : e = []
  · rw [if_pos h1]; exact h
  rw [if_neg h1]
  by_cases h2 : e = ['.']
  · rw [if_pos h2]; exact h
  rw [if_neg h2]
  by_cases h3 : e = ['.', '.']
  · rw [if_pos h3]
    cases out with
    | nil =>
      cases rooted with
      | true => simpa using h
      | false =>
        subst h3
        refine ⟨?_, ?_, ?_⟩
        · intro x hx
          simp only [Bool.not_false, if_true, List.mem_singleton] at hx
          subst hx
          simp
        · simp [dotsBelow]
        · intro hr; cases hr
    | cons top rest =>
      simp only
      by_cases ht : top = ['.', '.']
      · have hnt : ¬ top ≠ ['.', '.'] := by simpa using ht
        rw [if_neg hnt]
        cases rooted with
        | true => simpa using h
        | false =>
          subst h3
          refine ⟨?_, ?_, ?_⟩
          · intro x hx
            simp only [Bool.not_false, if_true, List.mem_cons] at hx
            rcases hx with rfl | hx
            · simp
            · exact h.1 x (by simpa using hx)
          · simp only [Bool.not_false, if_true]
            refine ⟨?_, h.2.1⟩
            intro _ x hx
            simp only [List.mem_cons] at hx
            rcases hx with rfl | hx
            · exact ht
            · exact h.2.1.1 ht x hx
          · intro hr; cases hr
      · rw [if_pos ht]
        exact cleanInv_tail rooted top rest h
  · rw [if_neg h3]
    refine ⟨?_, ?_, ?_⟩
    · intro x hx
      simp only [List.mem_cons] at hx
      rcases hx with rfl | hx
      · exact ⟨h1, hs, h2⟩
      · exact h.1 x hx
    · exact ⟨fun he => absurd he h3, h.2.1⟩
    · intro hr x hx
      simp only [List.mem_cons] at hx
      rcases hx with rfl | hx
      · exact h3
      · exact h.2.2 hr x hx

theorem cleanInv_foldl (rooted : Bool) (es : List Str) (out : List Str)
    (hs : ∀ e ∈ es, '/' ∉ e) (h : cleanInv rooted out) :
    cleanInv rooted (es.foldl (cleanStep rooted) out) := by
  induction es generalizing out with
  | nil => exact h
  | cons x xs ih =>
    rw [List.foldl_cons]
    exact ih _ (fun e he => hs e (by simp [he])) (cleanInv_step rooted out x (hs x (by simp)) h)

theorem cleanInv_cleanOut (p : Str) : cleanInv (p.head? = some '/') (cleanOut p) :=
  cleanInv_foldl _ _ _ (splitSlash_elems_noSlash p) (cleanInv_nil _)

/-- Cleaning again what `Clean` has written, followed by plain elements, writes the same
elements followed by the plain ones. -/
theorem foldl_cleanStep_inv (rooted : Bool) (out : List Str) (h : cleanInv rooted out) :
    out.reverse.foldl (cleanStep rooted) [] = out := by
  induction out with
  | nil => rfl
  | cons top rest ih =>
    rw [List.reverse_cons, List.foldl_append, ih (cleanInv_tail rooted top rest h)]
    simp only [List.foldl_cons, List.foldl_nil]
    have ht := h.1 top (by simp)
    unfold cleanStep
    rw [if_neg ht.1, if_neg ht.2.2]
    by_cases h3 : top = ['.', '.']
    · rw [if_pos h3]
      have hr : rooted = false := by
        cases rooted with
        | false => rfl
        | true => exact absurd h3 (h.2.2 rfl top (by simp))
      subst hr
      cases rest with
      | nil => simp
      | cons r rs =>
        have hrr : r = ['.', '.'] := h.2.1.1 h3 r (by simp)
        simp [hrr]
    · rw [if_neg h3]

theorem Clean_eq_render (p : Str) (hp : p ≠ []) :
    Clean p = cleanRender (p.head? = some '/') (cleanOut p) := by
  unfold Clean cleanRender cleanOut
  rw [if_neg hp]
  by_cases hr : p.head? = some '/'
  · simp [hr]
  · simp [hr]

theorem head?_append_ne_nil (a b : Str) (h : a ≠ []) : (a ++ b).head? = a.head? := by
  cases a with
  | nil => exact absurd rfl h
  | cons x xs => rfl

theorem cleanOut_append_names (R : Str) (ns : List Str) (hR : R ≠ []) (hns : ns ≠ [])
    (h : ∀ e ∈ ns, isName e) :
    cleanOut (R ++ '/' :: joinSlash ns) = ns.reverse ++ cleanOut R := by
  unfold cleanOut
  rw [head?_append_ne_nil R _ hR, splitSlash_append,
    splitSlash_joinSlash ns hns (fun e he => (h e he).2.1), List.foldl_append,
    foldl_cleanStep_names _ _ ns h]

theorem joinSlash_head (es : List Str) (x : Str) (c : Char) (cs : Str) (hx : x = c :: cs) :
    (joinSlash (x :: es)).head? = some c := by
  subst hx
  cases es with
  | nil => rfl
  | cons y ys => rfl

theorem joinSlash_ne_nil (x : Str) (es : List Str) (hx : x ≠ []) : joinSlash (x :: es) ≠ [] := by
  cases x with
  | nil => exact absurd rfl hx
  | cons c cs =>
    cases es with
    | nil => simp [joinSlash]
    | cons y ys => simp [joinSlash]

theorem cleanRender_ne_nil (rooted : Bool) (out : List Str) (h : cleanInv rooted out) :
    cleanRender rooted out ≠ [] := by
  unfold cleanRender
  cases rooted with
  | true => simp
  | false =>
    by_cases ho : out = []
    · simp [ho]
    · simp only [Bool.false_eq_true, if_false, ho]
      have hrev : out.reverse ≠ [] := by simpa using ho
      cases hr : out.reverse with
      | nil => exact absurd hr hrev
      | cons x xs =>
        have hx : x ∈ out := by
          have : x ∈ out.reverse := by rw [hr]; simp
          simpa using this
        exact joinSlash_ne_nil x xs (h.1 x hx).1

theorem cleanRender_head (rooted : Bool) (out : List Str) (h : cleanInv rooted out) :
    ((cleanRender rooted out).head? = some '/') = (rooted = true) := by
  unfold cleanRender
  cases rooted with
  | true => simp
  | false =>
    by_cases ho : out = []
    · simp [ho]
    · simp only [Bool.false_eq_true, if_false, ho, eq_iff_iff, iff_false]
      have hrev : out.reverse ≠ [] := by simpa using ho
      cases hr : out.reverse with
      | nil => exact absurd hr hrev
      | cons x xs =>
        have hx : x ∈ out := by
          have : x ∈ out.reverse := by rw [hr]; simp
          simpa using this
        obtain ⟨h1, h2, _⟩ := h.1 x hx
        cases hxe : x with
        | nil => exact absurd hxe h1
        | cons c cs =>
          rw [joinSlash_head xs (c :: cs) c cs rfl]
          intro hc
          injection hc with hc
          apply h2
          rw [hxe, hc]
          simp

theorem cleanRender_rooted (rooted : Bool) (out : List Str) (h : cleanInv rooted out) :
    decide ((cleanRender rooted out).head? = some '/') = rooted := by
  have := cleanRender_head rooted out h
  cases rooted with
  | true => simpa using this
  | false => simpa using this

theorem cleanOut_cleanRender (rooted : Bool) (out : List Str) (h : cleanInv rooted out) :
    cleanOut (cleanRender rooted out) = out := by
  unfold cleanOut
  rw [cleanRender_rooted rooted out h]
  have hno : ∀ e ∈ out.reverse, '/' ∉ e := fun e he => (h.1 e (by simpa using he)).2.1
  cases rooted with
  | true =>
    simp only [cleanRender, if_true]
    rw [splitSlash_cons]
    simp only [if_true, List.foldl_cons]
    have h0 : cleanStep true [] [] = [] := rfl
    rw [h0]
    by_cases ho : out = []
    · subst ho; rfl
    · rw [splitSlash_joinSlash _ (by simpa using ho) hno]
      exact foldl_cleanStep_inv _ out h
  | false =>
    by_cases ho : out = []
    · subst ho; rfl
    · simp only [cleanRender, Bool.false_eq_true, if_false, ho]
      rw [splitSlash_joinSlash _ (by simpa using ho) hno]
      exact foldl_cleanStep_inv _ out h

theorem Clean_cleanRender (rooted : Bool) (out : List Str) (h : cleanInv rooted out) :
    Clean (cleanRender rooted out) = cleanRender rooted out := by
  rw [Clean_eq_render _ (cleanRender_ne_nil rooted out h), cleanOut_cleanRender rooted out h,
    cleanRender_rooted rooted out h]

theorem Join_cons (R : Str) (rest : List Str) (hR : R ≠ []) (hrest : rest ≠ []) :
    Join (R :: rest) = Clean (R ++ '/' :: joinSlash rest) := by
  unfold Join
  have hd : (R :: rest).dropWhile (fun e => decide (e = [])) = R :: rest := by
    simp [List.dropWhile, hR]
  rw [hd]
  show Clean (joinSlash (R :: rest)) = _
  rw [joinSlash_cons R rest hrest]

theorem Join_root_names (R : Str) (ns : List Str) (hR : R ≠ []) (hns : ns ≠ [])
    (h : ∀ e ∈ ns, isName e) :
    Join (R :: ns) = cleanRender (R.head? = some '/') (ns.reverse ++ cleanOut R) := by
  rw [Join_cons R ns hR hns, Clean_eq_render _ (by simp), head?_append_ne_nil R _ hR,
    cleanOut_append_names R ns hR hns h]

theorem Join_root_rel (R : Str) (ns : List Str) (hR : R ≠ []) (hns : ns ≠ [])
    (h : ∀ e ∈ ns, isName e) :
    Join [R, joinSlash ns] = cleanRender (R.head? = some '/') (ns.reverse ++ cleanOut R) := by
  rw [Join_cons R [joinSlash ns] hR (by simp)]
  show Clean (R ++ '/' :: joinSlash ns) = _
  rw [Clean_eq_render _ (by simp), head?_append_ne_nil R _ hR,
    cleanOut_append_names R ns hR hns h]

theorem cleanInv_names_append (R : Str) (ns : List Str) (hR : R ≠ []) (hns : ns ≠ [])
    (h : ∀ e ∈ ns, isName e) :
    cleanInv (R.head? = some '/') (ns.reverse ++ cleanOut R) := by
  have := cleanInv_cleanOut (R ++ '/' :: joinSlash ns)
  rw [head?_append_ne_nil R _ hR, cleanOut_append_names R ns hR hns h] at this
  exact this

theorem Join_render_name (rooted : Bool) (out : List Str) (f : Str) (h : cleanInv rooted out)
    (hf : isName f) :
    Join [cleanRender rooted out, f] = cleanRender rooted (f :: out) := by
  have hne := cleanRender_ne_nil rooted out h
  rw [Join_cons _ [f] hne (by simp)]
  show Clean (cleanRender rooted out ++ '/' :: joinSlash [f]) = _
  rw [Clean_eq_render _ (by simp), head?_append_ne_nil _ _ hne,
    cleanOut_append_names _ [f] hne (by simp) (by simpa using hf),
    cleanRender_rooted rooted out h, cleanOut_cleanRender rooted out h]
  rfl

theorem cleanRender_append (rooted : Bool) (out ns : List Str) (ho : out ≠ []) (hns : ns ≠ []) :
    cleanRender rooted (ns.reverse ++ out) = cleanRender rooted out ++ '/' :: joinSlash ns := by
  have h1 : (ns.reverse ++ out).reverse = out.reverse ++ ns := by simp
  have h2 : out.reverse ≠ [] := by simpa using ho
  have h3 : ns.reverse ++ out ≠ [] := by simp [ho]
  unfold cleanRender
  rw [h1, joinSlash_append _ _ h2 hns]
  cases rooted with
  | true => simp
  | false => simp [ho, h3]

theorem pathElems_cleanRender (rooted : Bool) (out : List Str) (h : cleanInv rooted out)
    (ho : out ≠ []) : pathElems (cleanRender rooted out) = out.reverse := by
  have hno : ∀ e ∈ out.reverse, '/' ∉ e := fun e he => (h.1 e (by simpa using he)).2.1
  have hne : ∀ e ∈ out.reverse, e ≠ [] := fun e he => (h.1 e (by simpa using he)).1
  have hrev : out.reverse ≠ [] := by simpa using ho
  have hfilter : out.reverse.filter (fun e => decide (e ≠ [])) = out.reverse := by
    apply List.filter_eq_self.mpr
    intro e he
    simpa using hne e he
  unfold pathElems cleanRender
  cases rooted with
  | true =>
    simp only [if_true]
    rw [splitSlash_cons]
    simp only [if_true]
    rw [splitSlash_joinSlash _ hrev hno, List.filter_cons]
    simp only [ne_eq, not_true_eq_false, decide_False, Bool.false_eq_true, if_false]
    exact hfilter
  | false =>
    simp only [Bool.false_eq_true, if_false, ho]
    rw [splitSlash_joinSlash _ hrev hno]
    exact hfilter

theorem stripCommon_prefix (l ns : List Str) : stripCommon l (l ++ ns) = ([], ns) := by
  induction l with
  | nil => cases ns <;> rfl
  | cons x xs ih =>
    rw [List.cons_append, stripCommon, if_pos rfl, ih]

/-- The paths of the storage service for a root whose cleaned form is neither `.` nor `/`:
the relative path of a file below the root, and what `safeJoin` makes of it. -/
theorem storage_paths (R : Str) (ns : List Str) (hns : ns ≠ []) (h : ∀ e ∈ ns, isName e)
    (hdot : Clean R ≠ ['.']) (hslash : Clean R ≠ ['/']) :
    Rel R (cleanRender (R.head? = some '/') (ns.reverse ++ cleanOut R)) = Except.ok (joinSlash ns) ∧
    storageService.safeJoin { baseDir := R } (joinSlash ns) =
      Except.ok (cleanRender (R.head? = some '/') (ns.reverse ++ cleanOut R)) := by
  have hR : R ≠ [] := by
    intro hR
    subst hR
    exact hdot rfl
  have hclean : Clean R = cleanRender (R.head? = some '/') (cleanOut R) := Clean_eq_render R hR
  have hinvR := cleanInv_cleanOut R
  have hout : cleanOut R ≠ [] := by
    intro ho
    rw [hclean, ho] at hdot hslash
    by_cases hr : R.head? = some '/'
    · apply hslash; simp [cleanRender, hr, joinSlash]
    · apply hdot; simp [cleanRender, hr]
  have hinv := cleanInv_names_append R ns hR hns h
  have happ := cleanRender_append (R.head? = some '/') (cleanOut R) ns hout hns
  have hx : ∃ c cs, joinSlash ns = c :: cs ∧ c ≠ '/' := by
    cases ns with
    | nil => exact absurd rfl hns
    | cons x xs =>
      obtain ⟨h1, h2, _⟩ := h x (by simp)
      cases hxe : x with
      | nil => exact absurd hxe h1
      | cons c cs =>
        have hc : c ≠ '/' := by
          intro hc
          apply h2
          rw [hxe, hc]
          simp
        cases xs with
        | nil => exact ⟨c, cs, rfl, hc⟩
        | cons y ys => exact ⟨c, _, rfl, hc⟩
  constructor
  · unfold Rel
    simp only
    rw [Clean_cleanRender _ _ hinv, hclean]
    have hne : cleanRender (R.head? = some '/') (ns.reverse ++ cleanOut R) ≠
        cleanRender (R.head? = some '/') (cleanOut R) := by
      rw [happ]
      intro heq
      have := congrArg List.length heq
      simp at this
    rw [if_neg hne]
    have hdot' : cleanRender (R.head? = some '/') (cleanOut R) ≠ ['.'] := by
      rw [← hclean]; exact hdot
    have hcond : ¬ ((cleanRender (R.head? = some '/') (cleanOut R)).head? = some '/') ≠
        ((cleanRender (R.head? = some '/') (ns.reverse ++ cleanOut R)).head? = some '/') := by
      rw [cleanRender_head _ _ hinvR, cleanRender_head _ _ hinv]
      simp
    rw [if_neg hdot', if_neg hcond]
    rw [pathElems_cleanRender _ _ hinvR hout, pathElems_cleanRender _ _ hinv (by simp [hout])]
    have hrev : (ns.reverse ++ cleanOut R).reverse = (cleanOut R).reverse ++ ns := by simp
    rw [hrev, stripCommon_prefix]
    simp
  · unfold storageService.safeJoin
    obtain ⟨c, cs, hj, hc⟩ := hx
    have hjne : joinSlash ns ≠ [] := by rw [hj]; simp
    rw [if_neg hjne]
    have hcr : Clean (joinSlash ns) = joinSlash ns := by
      have hhead : (joinSlash ns).head? ≠ some '/' := by
        rw [hj]
        intro hh
        injection hh with hh
        exact hc hh
      rw [Clean_eq_render _ hjne]
      unfold cleanOut
      rw [splitSlash_joinSlash ns hns (fun e he => (h e he).2.1), foldl_cleanStep_names _ _ ns h]
      simp [cleanRender, hhead, hns]
    simp only [hcr]
    rw [Join_root_rel R ns hR hns h, hclean, happ]
    simp

/-! ### Generated names -/

theorem isName_of_plain (e : Str) (hne : e ≠ []) (h : ∀ c ∈ e, c ≠ '/' ∧ c ≠ '.') : isName e := by
  refine ⟨hne, fun hm => (h _ hm).1 rfl, ?_, ?_⟩
  · intro he
    exact (h '.' (by rw [he]; simp)).2 rfl
  · intro he
    exact (h '.' (by rw [he]; simp)).2 rfl

theorem digitChar_plain (d : Nat) : digitChar d ≠ '/' ∧ digitChar d ≠ '.' := by
  unfold digitChar
  have h : d % 10 < 10 := Nat.mod_lt _ (by decide)
  generalize d % 10 = k at h
  interval_cases k <;> decide

theorem digitsRev_plain (fuel n : Nat) : ∀ c ∈ digitsRev fuel n, c ≠ '/' ∧ c ≠ '.' := by
  induction fuel generalizing n with
  | zero => simp [digitsRev]
  | succ f ih =>
    intro c hc
    unfold digitsRev at hc
    simp only [List.mem_cons] at hc
    rcases hc with rfl | hc
    · exact digitChar_plain n
    · split at hc
      · simp at hc
      · exact ih _ c hc

theorem isName_decimalPad (width n : Nat) : isName (decimalPad width n) := by
  apply isName_of_plain
  · unfold decimalPad
    simp [digitsRev]
  · intro c hc
    unfold decimalPad at hc
    simp only [List.mem_append, List.mem_replicate, List.mem_reverse] at hc
    rcases hc with ⟨_, rfl⟩ | hc
    · decide
    · exact digitsRev_plain _ _ c hc

theorem hexChar_plain (d : Nat) : hexChar d ≠ '/' ∧ hexChar d ≠ '.' := by
  unfold hexChar
  have h : d % 16 < 16 := Nat.mod_lt _ (by decide)
  generalize d % 16 = k at h
  interval_cases k <;> decide

theorem hexByte_plain (b : Nat) : ∀ c ∈ hexByte b, c ≠ '/' ∧ c ≠ '.' := by
  intro c hc
  simp only [hexByte, List.mem_cons, List.mem_singleton, List.not_mem_nil, or_false] at hc
  rcases hc with rfl | rfl <;> exact hexChar_plain _

theorem uuidString_plain (r : List Byte) : ∀ c ∈ uuidString r, c ≠ '/' ∧ c ≠ '.' := by
  intro c hc
  simp only [uuidString, List.mem_append, List.mem_singleton] at hc
  have hd : ('-' : Char) ≠ '/' ∧ ('-' : Char) ≠ '.' := by decide
  rcases hc with (((((((((((((((((((h | h) | h) | h) | h) | h) | h) | h) | h) | h) | h) | h) | h) | h)
    | h) | h) | h) | h) | h) | h) <;>
    first
    | exact hexByte_plain _ c h
    | (subst h; exact hd)

theorem uuidString_ne_nil (r : List Byte) : uuidString r ≠ [] := by
  simp [uuidString, hexByte]

theorem isName_filename (r : List Byte) (ext : Str) (hext : '/' ∉ ext) :
    isName (uuidString r ++ ext ++ ".enc".toList) := by
  have hu := uuidString_plain r
  cases hus : uuidString r with
  | nil => exact absurd hus (uuidString_ne_nil r)
  | cons c cs =>
    rw [hus] at hu
    have hc := hu c (by simp)
    refine ⟨by simp, ?_, ?_, ?_⟩
    · intro hm
      simp only [List.cons_append, List.append_assoc, List.mem_cons, List.mem_append] at hm
      rcases hm with h | h | h | h
      · exact hc.1 h.symm
      · exact (hu '/' (by simp [h])).1 rfl
      · exact hext h
      · exact absurd h (by decide)
    · intro he
      simp only [List.cons_append, List.cons.injEq] at he
      exact hc.2 he.1
    · intro he
      simp only [List.cons_append, List.cons.injEq] at he
      exact hc.2 he.1

theorem isName_encryptedDir : isName encryptedDir := by
  unfold isName encryptedDir
  decide

/-! ### The concrete services -/

theorem encrypt_ok_inv (E : BlockFn) (draw : Draw GCMNonceSize) (key pt ct nonce : List Byte)
    (h : EncryptAESGCM E draw key pt = Except.ok (ct, nonce)) :
    key.length = 32 ∧ nonce.length = 12 ∧ ct ≠ [] ∧
      DecryptAESGCM E key nonce ct = Except.ok pt := by
  unfold EncryptAESGCM at h
  split at h
  · cases h
  · rename_i hk
    have hkey : key.length = 32 := by simpa [AESKeySize] using hk
    have hc : aesNewCipher key = Except.ok () := by simp [aesNewCipher, hkey]
    rw [hc] at h
    cases draw with
    | error e => simp at h
    | ok n =>
      simp only at h
      cases hs : gcmSeal E key n.val pt with
      | error e => rw [hs] at h; simp at h
      | ok c =>
        rw [hs] at h
        simp only [Except.ok.injEq, Prod.mk.injEq] at h
        obtain ⟨h1, h2⟩ := h
        subst h1 h2
        refine ⟨hkey, n.property, ?_, ?_⟩
        · unfold gcmSeal at hs
          split at hs
          · cases hs
          · split at hs
            · cases hs
            · injection hs with hs
              intro hnil
              have := congrArg List.length hs
              rw [hnil, List.length_append, gcmTag_length] at this
              simp at this
        · unfold DecryptAESGCM
          rw [if_neg hk, hc]
          have hn : ¬ n.val.length ≠ GCMNonceSize := by simp [n.property]
          simp only [hn, if_false, gcmOpen_gcmSeal E key n.val pt c hs]

theorem SaveEncrypted_ok_inv (s : storageService) (done : Bool) (name : GoString)
    (nonce data : List Byte) (w : World) (path : Str)
    (hdot : Clean s.baseDir ≠ ['.']) (hslash : Clean s.baseDir ≠ ['/'])
    (h : (s.SaveEncrypted done name nonce data w).1 = Except.ok path) :
    ∃ full, s.safeJoin path = Except.ok full ∧
      (s.SaveEncrypted done name nonce data w).2.files full = some (nonce ++ data) ∧
      (s.SaveEncrypted done name nonce data w).2.rows = w.rows := by
  unfold storageService.SaveEncrypted at h ⊢
  cases done with
  | true => simp at h
  | false =>
    simp only [Bool.false_eq_true, if_false] at h ⊢
    by_cases hn : nonce.length = 0
    · rw [if_pos hn] at h; cases h
    · rw [if_neg hn] at h ⊢
      by_cases hdl : data.length = 0
      · rw [if_pos hdl] at h; cases h
      · rw [if_neg hdl] at h ⊢
        have hR : s.baseDir ≠ [] := by
          intro hR
          rw [hR] at hdot
          exact hdot rfl
        generalize hext : (if ToLower (Ext name) = [] then ".bin".toList else ToLower (Ext name))
          = ext at h ⊢
        have hextns : '/' ∉ ext := by
          rw [← hext]
          split
          · decide
          · exact ToLower_noSlash _ (Ext_noSlash name)
        have hf := isName_filename (w.now.2.readRand 16).1.val ext hextns
        have hy : isName (formatYear w.now.1) := isName_decimalPad _ _
        have hm : isName (formatMonth w.now.1) := isName_decimalPad _ _
        have hd : isName (formatDay w.now.1) := isName_decimalPad _ _
        simp only [World.newUUID] at h ⊢
        generalize uuidString (w.now.2.readRand 16).1.val ++ ext ++ ".enc".toList = f at h hf ⊢
        generalize formatYear w.now.1 = y at h hy ⊢
        generalize formatMonth w.now.1 = m at h hm ⊢
        generalize formatDay w.now.1 = d at h hd ⊢
        have hdirnames : ∀ e ∈ [encryptedDir, y, m, d], isName e :=
          List.forall_mem_cons.mpr ⟨isName_encryptedDir, List.forall_mem_cons.mpr ⟨hy,
            List.forall_mem_cons.mpr ⟨hm, List.forall_mem_cons.mpr ⟨hd,
              fun e he => absurd he (List.not_mem_nil e)⟩⟩⟩⟩
        have hallnames : ∀ e ∈ [encryptedDir, y, m, d, f], isName e :=
          List.forall_mem_cons.mpr ⟨isName_encryptedDir, List.forall_mem_cons.mpr ⟨hy,
            List.forall_mem_cons.mpr ⟨hm, List.forall_mem_cons.mpr ⟨hd,
              List.forall_mem_cons.mpr ⟨hf, fun e he => absurd he (List.not_mem_nil e)⟩⟩⟩⟩⟩
        have hdir := Join_root_names s.baseDir _ hR (by simp) hdirnames
        have hinvdir := cleanInv_names_append s.baseDir _ hR (by simp) hdirnames
        have hfull := Join_render_name _ _ _ hinvdir hf
        obtain ⟨hrel, hsafe⟩ := storage_paths s.baseDir _ (by simp) hallnames hdot hslash
        rw [hdir, hfull] at h ⊢
        simp only [List.reverse_cons, List.reverse_nil, List.nil_append, List.cons_append,
          List.singleton_append] at hrel hsafe
        simp only [List.reverse_cons, List.reverse_nil, List.nil_append, List.cons_append,
          List.singleton_append] at h ⊢
        rw [hrel] at h ⊢
        simp only [Except.ok.injEq] at h
        subst h
        exact ⟨_, hsafe, by simp, rfl⟩

theorem Create_ok_inv (done : Bool) (asset : FileAsset) (w : World)
    (hdel : asset.DeletedAt = none) (h : (fileRepository.Create done asset w).1.1 = none) :
    (fileRepository.Create done asset w).2.files = w.files ∧
    (fileRepository.Create done asset w).1.2.StoredPath = asset.StoredPath ∧
    (fileRepository.Create done asset w).1.2.OriginalName = asset.OriginalName ∧
    (fileRepository.Create done asset w).1.2.ContentType = asset.ContentType ∧
    (fileRepository.Create done asset w).2.rows.find?
        (fun x => x.ID = (fileRepository.Create done asset w).1.2.ID ∧ x.DeletedAt = none)
      = some (fileRepository.Create done asset w).1.2 := by
  unfold fileRepository.Create at h ⊢
  cases done with
  | true => simp at h
  | false =>
    simp only [Bool.false_eq_true, if_false] at h ⊢
    have hfind : ∀ (rows : List FileAsset) (a : FileAsset), a.DeletedAt = none →
        ¬ (rows.any (fun r => decide (r.ID = a.ID ∨ r.StoredPath = a.StoredPath)) = true) →
        (rows ++ [a]).find? (fun x => decide (x.ID = a.ID ∧ x.DeletedAt = none)) = some a := by
      intro rows a ha hany
      rw [List.find?_append]
      have hnone : rows.find? (fun x => decide (x.ID = a.ID ∧ x.DeletedAt = none)) = none := by
        rw [List.find?_eq_none]
        intro x hx
        simp only [List.any_eq_true, decide_eq_true_eq, not_exists, not_and, not_or] at hany
        have := (hany x hx).1
        simp only [decide_eq_true_eq, not_and]
        intro hxid
        exact absurd hxid this
      rw [hnone]
      simp [ha]
    by_cases hid : asset.ID = []
    · simp only [hid, if_true] at h ⊢
      split at h
      · simp at h
      · rename_i hany
        rw [if_neg hany]
        exact ⟨rfl, rfl, rfl, rfl, hfind _ _ hdel hany⟩
    · simp only [hid, if_false] at h ⊢
      split at h
      · simp at h
      · rename_i hany
        rw [if_neg hany]
        exact ⟨rfl, rfl, rfl, rfl, hfind _ _ hdel hany⟩

theorem LoadEncrypted_ok (s : storageService) (path full : Str) (nonce data : List Byte)
    (w : World) (hsafe : s.safeJoin path = Except.ok full)
    (hfile : w.files full = some (nonce ++ data)) (hn : nonce.length = 12) :
    s.LoadEncrypted false path w = (Except.ok (nonce, data), w) := by
  unfold storageService.LoadEncrypted
  simp only [Bool.false_eq_true, if_false, hsafe, hfile]
  have hlen : ¬ (nonce ++ data).length < GCMNonceSize := by
    simp [GCMNonceSize, hn]
  rw [if_neg hlen]
  have h12 : GCMNonceSize = nonce.length := by simp [GCMNonceSize, hn]
  rw [h12, List.take_left' rfl, List.drop_left' rfl]


/-! ### Deletion -/

/-- What a successful `DeleteFile` did, step by step. -/
theorem DeleteFile_ok_inv {σ : Type} (uc : FileUseCase σ) (ctx : Ctx) (req : DeleteFileRequest)
    (s : σ) (h : (uc.DeleteFile ctx req s).result = none) :
    ∃ claims asset,
      (uc.tokenSvc.Validate req.Token s).1 = Except.ok claims ∧
      claims.FileID = req.FileID ∧
      (uc.fileRepo.FindByID (ctx 0) req.FileID (uc.tokenSvc.Validate req.Token s).2).1
        = Except.ok asset ∧
      (uc.fileRepo.Delete (ctx 2) req.FileID
        (uc.storageSvc.Delete (ctx 1) asset.StoredPath
          (uc.fileRepo.FindByID (ctx 0) req.FileID (uc.tokenSvc.Validate req.Token s).2).2).2).1
        = none ∧
      (uc.DeleteFile ctx req s).state =
        (uc.fileRepo.Delete (ctx 2) req.FileID
          (uc.storageSvc.Delete (ctx 1) asset.StoredPath
            (uc.fileRepo.FindByID (ctx 0) req.FileID
              (uc.tokenSvc.Validate req.Token s).2).2).2).2 := by
  unfold FileUseCase.DeleteFile at h ⊢
  simp only at h ⊢
  cases hv : (uc.tokenSvc.Validate req.Token s).1 with
  | error e => simp only [hv] at h; cases h
  | ok claims =>
    simp only [hv] at h ⊢
    by_cases hid : claims.FileID = req.FileID
    · have hnn : ¬ claims.FileID ≠ req.FileID := fun hne => hne hid
      simp only [hnn, if_false] at h ⊢
      cases hf : (uc.fileRepo.FindByID (ctx 0) req.FileID
          (uc.tokenSvc.Validate req.Token s).2).1 with
      | error e =>
        simp only [hf] at h
        split at h <;> cases h
      | ok asset =>
        simp only [hf] at h ⊢
        split at h
        · cases h
        · rename_i hr
          exact ⟨claims, asset, rfl, hid, rfl, hr, by simp only [hr]⟩
    · have hne : claims.FileID ≠ req.FileID := hid
      rw [if_pos hne] at h
      cases h

theorem storageDelete_rows (s : storageService) (done : Bool) (p : Str) (w : World) :
    (s.Delete done p w).2.rows = w.rows := by
  unfold storageService.Delete
  cases done with
  | true => rfl
  | false =>
    simp only [Bool.false_eq_true, if_false]
    split
    · rfl
    · split <;> rfl

/-- After a repository `Delete` that returned no error, no live row has the id. -/
theorem repoDelete_ok_inv (done : Bool) (id : Str) (w : World)
    (h : (fileRepository.Delete done id w).1 = none) :
    (fileRepository.Delete done id w).2.rows.find?
      (fun r => r.ID = id ∧ r.DeletedAt = none) = none := by
  unfold fileRepository.Delete at h ⊢
  cases done with
  | true => simp at h
  | false =>
    simp only [Bool.false_eq_true, if_false]
    rw [List.find?_eq_none]
    intro x hx
    simp only [List.mem_map] at hx
    obtain ⟨r, _, hr⟩ := hx
    by_cases hp : r.ID = id ∧ r.DeletedAt = none
    · rw [if_pos hp] at hr
      subst hr
      simp
    · rw [if_neg hp] at hr
      subst hr
      simpa using hp

theorem generate_expiresAt (t : tokenService) (mac : Mac) (now : Nat) (id : GoString)
    (key : List Byte) (owner : Option GoString) (tok : TokenStr)
    (hg : t.Generate mac now id key owner = Except.ok tok) :
    tok.expiresAt = some (NewNumericDate (now + t.ttl)) := by
  unfold tokenService.Generate at hg
  split at hg
  · cases hg
  · split at hg
    · cases hg
    · injection hg with hg
      subst hg
      cases owner <;> rfl

/-- `GetFile` on the wired service, for a credential that validates for the requested id when
no live row has that id. -/
theorem GetFile_not_found (cfg : Config) (ctx : Ctx) (id : Str) (tok : TokenStr) (w : World)
    (claims : FileTokenClaims)
    (hval : tokenService.Validate { secret := cfg.JWTSecret, ttl := cfg.TokenTTL } cfg.mac
      w.now.1 tok = Except.ok claims)
    (hid : claims.FileID = id) (hlive : ctx 0 = false)
    (hrows : w.rows.find? (fun r => r.ID = id ∧ r.DeletedAt = none) = none) :
    (cfg.fileUseCase.GetFile ctx { FileID := id, Token := tok } w).result
      = Except.error (Err.new "file not found") := by
  unfold FileUseCase.GetFile
  simp only [Config.fileUseCase, hval, hid, ne_eq, not_true_eq_false, if_false, hlive]
  have hfd : fileRepository.FindByID false id w.now.2 = (Except.error ErrRecordNotFound, w.now.2) := by
    unfold fileRepository.FindByID
    simp only [Bool.false_eq_true, if_false]
    have : w.now.2.rows = w.rows := rfl
    rw [this, hrows]
  rw [hfd]
  simp

theorem Clean_rooted_ne_dot (R : Str) (h : R.head? = some '/') : Clean R ≠ ['.'] := by
  have hR : R ≠ [] := by
    intro hR
    subst hR
    cases h
  unfold Clean
  rw [if_neg hR]
  simp only [h, if_true]
  intro hc
  injection hc with hc _
  exact absurd hc (by decide)

/-- The fields of a record that `Create` leaves as they were given. -/
theorem Create_fields (done : Bool) (asset : FileAsset) (w : World) :
    (fileRepository.Create done asset w).1.2.SizeBytes = asset.SizeBytes ∧
    (fileRepository.Create done asset w).1.2.EncryptionAlg = asset.EncryptionAlg ∧
    (fileRepository.Create done asset w).1.2.AuthenticationAlg = asset.AuthenticationAlg ∧
    (fileRepository.Create done asset w).1.2.UserID = asset.UserID := by
  unfold fileRepository.Create
  cases done with
  | true => exact ⟨rfl, rfl, rfl, rfl⟩
  | false =>
    simp only [Bool.false_eq_true, if_false]
    by_cases hid : asset.ID = []
    · simp only [hid, if_true]
      split <;> exact ⟨rfl, rfl, rfl, rfl⟩
    · simp only [hid, if_false]
      split <;> exact ⟨rfl, rfl, rfl, rfl⟩

/-! ### String replacement -/

theorem replaceFrom_sublist (old : Str) (k : Nat) (s : Str) :
    List.Sublist (replaceFrom old [] k s) s := by
  induction s generalizing k with
  | nil => cases k <;> simp [replaceFrom]
  | cons c cs ih =>
    cases k with
    | succ k =>
      rw [replaceFrom]
      exact List.Sublist.cons _ (ih k)
    | zero =>
      rw [replaceFrom]
      split
      · rw [List.nil_append]
        exact List.Sublist.cons _ (ih _)
      · exact List.Sublist.cons₂ _ (ih 0)

theorem ReplaceAll_sublist (s old : Str) (h : old ≠ []) :
    List.Sublist (ReplaceAll s old []) s := by
  unfold ReplaceAll
  rw [if_neg h]
  exact replaceFrom_sublist old 0 s

theorem ReplaceAll_single_not_mem (a : Char) (s : Str) : a ∉ ReplaceAll s [a] [] := by
  unfold ReplaceAll
  rw [if_neg (by simp)]
  induction s with
  | nil => simp [replaceFrom]
  | cons c cs ih =>
    rw [replaceFrom]
    by_cases hc : [a] <+: c :: cs
    · rw [if_pos hc]
      simpa using ih
    · rw [if_neg hc]
      have hne : a ≠ c := by
        intro h
        apply hc
        rw [h]
        exact List.prefix_iff_eq_append.mpr (by simp)
      simp only [List.mem_cons, not_or]
      exact ⟨hne, ih⟩

theorem replaceFrom_fixed (old new : Str) (s : Str) (h : ¬ old <:+: s) :
    replaceFrom old new 0 s = s := by
  induction s with
  | nil => rfl
  | cons c cs ih =>
    rw [replaceFrom]
    have hp : ¬ old <+: c :: cs := fun hp => h hp.isInfix
    rw [if_neg hp, ih (fun hi => h (hi.trans (List.suffix_cons c cs).isInfix))]

theorem ReplaceAll_fixed (s old new : Str) (hold : old ≠ []) (h : ¬ old <:+: s) :
    ReplaceAll s old new = s := by
  unfold ReplaceAll
  rw [if_neg hold]
  exact replaceFrom_fixed old new s h

theorem ReplaceAll_single_fixed (s : Str) (a : Char) (new : Str) (h : a ∉ s) :
    ReplaceAll s [a] new = s := by
  apply ReplaceAll_fixed _ _ _ (by simp)
  intro hi
  exact h (hi.subset (List.mem_singleton_self a))

theorem replaceFrom_dots_head (s : Str) (h : s.head? ≠ some '.') :
    (replaceFrom ['.', '.'] [] 0 s).head? ≠ some '.' := by
  cases s with
  | nil => simp [replaceFrom]
  | cons d ds =>
    have hd : d ≠ '.' := by simpa using h
    rw [replaceFrom]
    have hp : ¬ ['.', '.'] <+: d :: ds := by
      intro hp
      rw [List.cons_prefix_cons] at hp
      exact hd hp.1.symm
    rw [if_neg hp]
    simpa using hd

theorem replaceFrom_dots_no_dots (n : Nat) : ∀ s : Str, s.length ≤ n →
    ¬ ['.', '.'] <:+: replaceFrom ['.', '.'] [] 0 s := by
  induction n with
  | zero =>
    intro s hs
    have : s = [] := List.length_eq_zero.mp (Nat.le_zero.mp hs)
    subst this
    simp [replaceFrom]
  | succ n ih =>
    intro s hs
    cases s with
    | nil => simp [replaceFrom]
    | cons c cs =>
      rw [replaceFrom]
      by_cases hp : ['.', '.'] <+: c :: cs
      · rw [if_pos hp]
        rw [List.cons_prefix_cons] at hp
        obtain ⟨-, hp2⟩ := hp
        cases cs with
        | nil => simp [replaceFrom]
        | cons d ds =>
          show ¬ ['.', '.'] <:+: [] ++ replaceFrom ['.', '.'] [] 1 (d :: ds)
          rw [replaceFrom, List.nil_append]
          apply ih
          simp only [List.length_cons] at hs
          omega
      · rw [if_neg hp]
        have hcs : cs.length ≤ n := by
          simp only [List.length_cons] at hs
          omega
        rw [List.infix_cons_iff]
        rintro (h | h)
        · rw [List.cons_prefix_cons] at h
          obtain ⟨hc, hrest⟩ := h
          have hhead : cs.head? ≠ some '.' := by
            intro hh
            apply hp
            rw [List.cons_prefix_cons]
            refine ⟨hc, ?_⟩
            cases cs with
            | nil => simp at hh
            | cons d ds =>
              simp only [List.head?_cons, Option.some.injEq] at hh
              rw [hh, List.cons_prefix_cons]
              exact ⟨rfl, List.nil_prefix⟩
          apply replaceFrom_dots_head cs hhead
          cases hr : replaceFrom ['.', '.'] [] 0 cs with
          | nil => rw [hr] at hrest; simp at hrest
          | cons x xs =>
            rw [hr, List.cons_prefix_cons] at hrest
            rw [hrest.1]
            rfl
        · exact ih cs hcs h

theorem ReplaceAll_dots_no_dots (s : Str) : ¬ ['.', '.'] <:+: ReplaceAll s ['.', '.'] [] := by
  unfold ReplaceAll
  rw [if_neg (by simp)]
  exact replaceFrom_dots_no_dots s.length s (Nat.le_refl _)

/-! ### The locator of a stored blob -/

theorem cleanRender_ne_dot (rooted : Bool) (out : List Str) (h : cleanInv rooted out)
    (ho : out ≠ []) : cleanRender rooted out ≠ ['.'] := by
  intro heq
  have hp := pathElems_cleanRender rooted out h ho
  rw [heq] at hp
  have hd : pathElems ['.'] = [['.']] := by decide
  rw [hd] at hp
  have hmem : ['.'] ∈ out := by
    have : ['.'] ∈ out.reverse := by rw [← hp]; simp
    simpa using this
  exact (h.1 _ hmem).2.2 rfl

theorem cleanRender_ne_slash (rooted : Bool) (out : List Str) (h : cleanInv rooted out)
    (ho : out ≠ []) : cleanRender rooted out ≠ ['/'] := by
  intro heq
  have hp := pathElems_cleanRender rooted out h ho
  rw [heq] at hp
  have hd : pathElems ['/'] = [] := by decide
  rw [hd] at hp
  apply ho
  simpa using hp.symm

/-- The relative path of a file below the root, for every non-empty root. -/
theorem Rel_root_names (R : Str) (ns : List Str) (hR : R ≠ []) (hns : ns ≠ [])
    (h : ∀ e ∈ ns, isName e) :
    Rel R (cleanRender (R.head? = some '/') (ns.reverse ++ cleanOut R))
      = Except.ok (joinSlash ns) := by
  have hclean : Clean R = cleanRender (R.head? = some '/') (cleanOut R) := Clean_eq_render R hR
  have hinvR := cleanInv_cleanOut R
  by_cases hout : cleanOut R = []
  · have hinv := cleanInv_names_append R ns hR hns h
    rw [hout, List.append_nil] at hinv ⊢
    rw [hout] at hclean
    have hnsr : ns.reverse ≠ [] := by simpa using hns
    have hpe := pathElems_cleanRender _ _ hinv hnsr
    rw [List.reverse_reverse] at hpe
    have hhead := cleanRender_head _ _ hinv
    unfold Rel
    simp only
    rw [Clean_cleanRender _ _ hinv, hclean]
    by_cases hr : R.head? = some '/'
    · have hb : cleanRender (decide (R.head? = some '/')) [] = ['/'] := by
        simp [cleanRender, hr, joinSlash]
      rw [hb]
      have hne : cleanRender (decide (R.head? = some '/')) ns.reverse ≠ ['/'] :=
        cleanRender_ne_slash _ _ hinv hnsr
      rw [if_neg hne]
      have hnd : (['/'] : Str) ≠ ['.'] := by decide
      rw [if_neg hnd]
      have hcond : ¬ ((['/'] : Str).head? = some '/') ≠
          ((cleanRender (decide (R.head? = some '/')) ns.reverse).head? = some '/') := by
        rw [hhead]
        simp [hr]
      rw [if_neg hcond, hpe]
      have hd : pathElems ['/'] = [] := by decide
      rw [hd]
      have hsc := stripCommon_prefix [] ns
      rw [List.nil_append] at hsc
      rw [hsc]
      simp
    · have hb : cleanRender (decide (R.head? = some '/')) [] = ['.'] := by
        simp [cleanRender, hr]
      rw [hb]
      have hne : cleanRender (decide (R.head? = some '/')) ns.reverse ≠ ['.'] :=
        cleanRender_ne_dot _ _ hinv hnsr
      rw [if_neg hne]
      rw [if_pos rfl]
      have hcond : ¬ (([] : Str).head? = some '/') ≠
          ((cleanRender (decide (R.head? = some '/')) ns.reverse).head? = some '/') := by
        rw [hhead]
        simp [hr]
      rw [if_neg hcond, hpe]
      have hd : pathElems [] = [] := by decide
      rw [hd]
      have hsc := stripCommon_prefix [] ns
      rw [List.nil_append] at hsc
      rw [hsc]
      simp
  · have hdot : Clean R ≠ ['.'] := by
      rw [hclean]
      exact cleanRender_ne_dot _ _ (by simpa using hinvR) hout
    have hslash : Clean R ≠ ['/'] := by
      rw [hclean]
      exact cleanRender_ne_slash _ _ (by simpa using hinvR) hout
    exact (storage_paths R ns hns h hdot hslash).1

/-- With a live context, a non-empty root, nonce and ciphertext, `SaveEncrypted` returns the
locator made of the directory of the day and the generated file name. -/
theorem SaveEncrypted_locator (s : storageService) (originalName : GoString) (nonce data : List Byte)
    (w : World) (hroot : s.baseDir ≠ []) (hnonce : nonce ≠ []) (hdata : data ≠ []) :
    (s.SaveEncrypted false originalName nonce data w).1 =
      Except.ok (joinSlash
        [encryptedDir, formatYear w.now.1, formatMonth w.now.1, formatDay w.now.1,
         w.now.2.newUUID.1 ++
           (if ToLower (Ext originalName) = [] then ".bin".toList
            else ToLower (Ext originalName)) ++ ".enc".toList]) := by
  unfold storageService.SaveEncrypted
  have hn : ¬ nonce.length = 0 := fun h => hnonce (List.length_eq_zero.mp h)
  have hdl : ¬ data.length = 0 := fun h => hdata (List.length_eq_zero.mp h)
  simp only [Bool.false_eq_true, if_false]
  rw [if_neg hn, if_neg hdl]
  generalize hext : (if ToLower (Ext originalName) = [] then ".bin".toList
    else ToLower (Ext originalName)) = ext
  have hextns : '/' ∉ ext := by
    rw [← hext]
    split
    · decide
    · exact ToLower_noSlash _ (Ext_noSlash originalName)
  have hf := isName_filename (w.now.2.readRand 16).1.val ext hextns
  have hy : isName (formatYear w.now.1) := isName_decimalPad _ _
  have hm : isName (formatMonth w.now.1) := isName_decimalPad _ _
  have hd : isName (formatDay w.now.1) := isName_decimalPad _ _
  simp only [World.newUUID]
  generalize uuidString (w.now.2.readRand 16).1.val ++ ext ++ ".enc".toList = f at hf ⊢
  generalize formatYear w.now.1 = y at hy ⊢
  generalize formatMonth w.now.1 = m at hm ⊢
  generalize formatDay w.now.1 = d at hd ⊢
  have hdirnames : ∀ e ∈ [encryptedDir, y, m, d], isName e :=
    List.forall_mem_cons.mpr ⟨isName_encryptedDir, List.forall_mem_cons.mpr ⟨hy,
      List.forall_mem_cons.mpr ⟨hm, List.forall_mem_cons.mpr ⟨hd,
        fun e he => absurd he (List.not_mem_nil e)⟩⟩⟩⟩
  have hallnames : ∀ e ∈ [encryptedDir, y, m, d, f], isName e :=
    List.forall_mem_cons.mpr ⟨isName_encryptedDir, List.forall_mem_cons.mpr ⟨hy,
      List.forall_mem_cons.mpr ⟨hm, List.forall_mem_cons.mpr ⟨hd,
        List.forall_mem_cons.mpr ⟨hf, fun e he => absurd he (List.not_mem_nil e)⟩⟩⟩⟩⟩
  have hdir := Join_root_names s.baseDir _ hroot (by simp) hdirnames
  have hinvdir := cleanInv_names_append s.baseDir _ hroot (by simp) hdirnames
  have hfull := Join_render_name _ _ _ hinvdir hf
  have hrel := Rel_root_names s.baseDir _ hroot (by simp) hallnames
  rw [hdir, hfull]
  simp only [List.reverse_cons, List.reverse_nil, List.nil_append, List.cons_append,
    List.singleton_append] at hrel
  simp only [List.reverse_cons, List.reverse_nil, List.nil_append, List.cons_append,
    List.singleton_append]
  rw [hrel]

/-- What an `UploadFile` did in which `SaveEncrypted` returned a locator and `Create` failed. -/
theorem UploadFile_createFailed_inv {σ : Type} (uc : FileUseCase σ) (ctx : Ctx)
    (req : UploadFileRequest) (s : σ) (path : Str)
    (hsave : savedLocator (uc.UploadFile ctx req s).trace = some path)
    (hfail : (uc.UploadFile ctx req s).trace.any Call.isCreateFailed = true) :
    ∃ key ct nonce err,
      (uc.cryptoSvc.GenerateAESKey s).1 = Except.ok key ∧
      (uc.cryptoSvc.EncryptAESGCM key req.Content (uc.cryptoSvc.GenerateAESKey s).2).1
        = Except.ok (ct, nonce) ∧
      (uc.storageSvc.SaveEncrypted (ctx 0) req.Filename nonce ct
        (uc.cryptoSvc.EncryptAESGCM key req.Content (uc.cryptoSvc.GenerateAESKey s).2).2).1
        = Except.ok path ∧
      (uc.UploadFile ctx req s).result = Except.error (Err.wrap "create record" err) ∧
      (uc.UploadFile ctx req s).trace.getLast?.bind Call.deletedAt = some path ∧
      Call.SaveEncrypted req.Filename nonce ct (Except.ok path) ∈ (uc.UploadFile ctx req s).trace ∧
      ∃ before,
        (uc.UploadFile ctx req s).state = (uc.storageSvc.Delete (ctx 2) path before).2 := by
  unfold FileUseCase.UploadFile at hsave hfail ⊢
  simp only at hsave hfail ⊢
  cases hk : (uc.cryptoSvc.GenerateAESKey s).1 with
  | error e =>
    simp only [hk] at hfail
    simp [Call.isCreateFailed] at hfail
  | ok key =>
    simp only [hk] at hsave hfail ⊢
    cases he : (uc.cryptoSvc.EncryptAESGCM key req.Content (uc.cryptoSvc.GenerateAESKey s).2).1 with
    | error e =>
      simp only [he] at hfail
      simp [Call.isCreateFailed] at hfail
    | ok cn =>
      obtain ⟨ct, nonce⟩ := cn
      simp only [he] at hsave hfail ⊢
      cases hs : (uc.storageSvc.SaveEncrypted (ctx 0) req.Filename nonce ct
        (uc.cryptoSvc.EncryptAESGCM key req.Content (uc.cryptoSvc.GenerateAESKey s).2).2).1 with
      | error e =>
        simp only [hs] at hfail
        simp [Call.isCreateFailed] at hfail
      | ok p =>
        simp only [hs] at hsave hfail ⊢
        generalize uc.fileRepo.Create (ctx 1) _ _ = cr at hsave hfail ⊢
        obtain ⟨⟨r, after⟩, s4⟩ := cr
        cases r with
        | none =>
          simp only at hfail
          split at hfail <;> simp [Call.isCreateFailed] at hfail
        | some err =>
          simp only at hsave ⊢
          have hp : p = path := by
            simpa [savedLocator, List.findSome?, Call.savedAt] using hsave
          subst hp
          refine ⟨key, ct, nonce, err, rfl, he, hs, rfl, ?_, ?_, s4, rfl⟩
          · simp [Call.deletedAt]
          · simp

/-! ### Where a path leads -/

/-- C1 witness: a 32-byte key and the plaintext "hello" under a stand-in block function. -/
theorem C1_encrypt_decrypt_roundtrip_witness :
    ∃ ct nonce,
      EncryptAESGCM (fun _ x => x + 1) (Except.ok ⟨List.replicate 12 1, rfl⟩)
        (List.replicate 32 7) [104, 101, 108, 108, 111] = Except.ok (ct, nonce) ∧
      DecryptAESGCM (fun _ x => x + 1) (List.replicate 32 7) nonce ct =
        Except.ok [104, 101, 108, 108, 111] :=
  ⟨_, _, rfl, C1_encrypt_decrypt_roundtrip (fun _ x => x + 1)
    (Except.ok ⟨List.replicate 12 1, rfl⟩) (List.replicate 32 7) [104, 101, 108, 108, 111] _ _
    (by decide) rfl⟩

/-- C2, as stated, fails for an id that is not valid UTF-8: for the one-byte id 0xFF `Generate`
returns a token, and `Validate` of it returns claims whose FileID is the replacement character
U+FFFD, which is the three bytes EF BF BD as a Go string and not the id. -/
theorem C2_invalid_utf8_id_changed :
    ∃ tok claims,
      (tokenService.mk [1, 2, 3] (900 * nsPerSec)).Generate (fun k _ => k) 5000000000
        [0xFF] (List.replicate 32 7) none = Except.ok tok ∧
      (tokenService.mk [1, 2, 3] (900 * nsPerSec)).Validate (fun k _ => k) 6000000000 tok
        = Except.ok claims ∧
      claims.FileID = [RuneError] ∧
      utf8Encode claims.FileID = [0xEF, 0xBF, 0xBD] :=
  ⟨_, _, rfl, rfl, rfl, by decide⟩

/-- C2, amended: for every non-empty object id and optional owner that are valid UTF-8 (the Go
strings that hold a text), and every 32-byte key, `Validate` under the same secret, at a time
before the expiry of the token that `Generate` returned, succeeds with claims whose FileID is the
id, whose UserID is the owner and whose Key decodes (`decodeKey`) to the original 32 key bytes.
For an arbitrary id and owner the claims hold them as `runes` reads them. -/
theorem C2_generate_validate_roundtrip (t : tokenService) (mac : Mac) (now now' : Nat)
    (key : List Byte) (hkey : key.length = 32)
    (hbefore : (now' : Int) < NewNumericDate (now + t.ttl) * nsPerSec) :
    (∀ (id : Str) (owner : Option Str), id ≠ [] →
      ∃ tok claims,
        t.Generate mac now (utf8Encode id) key (owner.map utf8Encode) = Except.ok tok ∧
        t.Validate mac now' tok = Except.ok claims ∧
        claims.FileID = id ∧ utf8Encode claims.FileID = utf8Encode id ∧
        claims.UserID = owner ∧ decodeKey claims.Key = Except.ok key) ∧
    (∀ (id : GoString) (owner : Option GoString), id ≠ [] →
      ∃ tok claims,
        t.Generate mac now id key owner = Except.ok tok ∧
        t.Validate mac now' tok = Except.ok claims ∧
        claims.FileID = runes id ∧ claims.UserID = owner.map runes ∧
        decodeKey claims.Key = Except.ok key) := by
  constructor
  · intro id owner hid
    have hne : utf8Encode id ≠ [] := by
      intro h
      have := runes_utf8Encode id
      rw [h] at this
      exact hid this.symm
    obtain ⟨tok, hgen⟩ := generate_ok t mac now (utf8Encode id) key (owner.map utf8Encode)
      hne hkey
    refine ⟨tok, { FileID := id, Key := b64Encode key, UserID := owner }, hgen, ?_, rfl, rfl,
      rfl, decodeKey_encode key hkey⟩
    rw [validate_generate_text t mac now now' id key owner tok hgen, if_pos hbefore]
  · intro id owner hid
    obtain ⟨tok, hgen⟩ := generate_ok t mac now id key owner hid hkey
    refine ⟨tok, { FileID := runes id, Key := b64Encode key, UserID := owner.map runes }, hgen,
      ?_, rfl, rfl, decodeKey_encode key hkey⟩
    rw [validate_generate t mac now now' id key owner tok hgen, if_pos hbefore]

/-- C2 witness: a 15-minute token for id "f1" and owner "u1", validated one second after issue. -/
theorem C2_generate_validate_roundtrip_witness :
    ∃ tok claims,
      (tokenService.mk [1, 2, 3] (900 * nsPerSec)).Generate (fun k _ => k) 5000000000
        (utf8Encode "f1".toList) (List.replicate 32 7) (some (utf8Encode "u1".toList))
        = Except.ok tok ∧
      (tokenService.mk [1, 2, 3] (900 * nsPerSec)).Validate (fun k _ => k) 6000000000 tok
        = Except.ok claims ∧
      claims.FileID = "f1".toList ∧ utf8Encode claims.FileID = utf8Encode "f1".toList ∧
      claims.UserID = some "u1".toList ∧
      decodeKey claims.Key = Except.ok (List.replicate 32 7) :=
  (C2_generate_validate_roundtrip (tokenService.mk [1, 2, 3] (900 * nsPerSec)) (fun k _ => k)
    5000000000 6000000000 (List.replicate 32 7) (by decide) (by decide)).1
    "f1".toList (some "u1".toList) (by decide)

/-- C8: a credential that `Generate` issued at time `now` with time-to-live `ttl` fails
validation at every time later than `now + ttl`, with the expiry error and not a signature error;
at a time strictly before its expires-at, validation does not fail on expiry. -/
theorem C8_expiry (t : tokenService) (mac : Mac) (now now' : Nat) (id : GoString)
    (key : List Byte) (owner : Option GoString) (tok : TokenStr)
    (hgen : t.Generate mac now id key owner = Except.ok tok) :
    (now + t.ttl < now' →
      ∃ e, t.Validate mac now' tok = Except.error e ∧ e.is ErrTokenExpired = true ∧
        e.is ErrTokenSignatureInvalid = false) ∧
    ((now' : Int) < NewNumericDate (now + t.ttl) * nsPerSec →
      ∀ e, t.Validate mac now' tok = Except.error e → e.is ErrTokenExpired = false) := by
  rw [validate_generate t mac now now' id key owner tok hgen]
  constructor
  · intro hlate
    have hns : ¬ ((now' : Int) < NewNumericDate (now + t.ttl) * nsPerSec) := by
      unfold NewNumericDate nsPerSec
      have h1 : (now + t.ttl) / 1000000000 * 1000000000 ≤ now + t.ttl :=
        Nat.div_mul_le_self _ _
      push_cast
      omega
    rw [if_neg hns]
    exact ⟨_, rfl, by decide, by decide⟩
  · intro hbefore e he
    rw [if_pos hbefore] at he
    cases he

/-- C8 witness: a 15-minute token issued at second 5, validated just after second 905 and just
before it. -/
theorem C8_expiry_witness :
    (∃ e, (tokenService.mk [1, 2, 3] (900 * nsPerSec)).Validate (fun k _ => k) 905000000001
          (signHS256 (fun k _ => k) [1, 2, 3] (encodeJwtClaims
            { FileTokenClaims :=
                { FileID := "f1".toList, Key := b64Encode (List.replicate 32 7), UserID := none },
              RegisteredClaims :=
                { ExpiresAt := some 905, NotBefore := none, IssuedAt := some 5 } }))
          = Except.error e ∧ e.is ErrTokenExpired = true ∧
        e.is ErrTokenSignatureInvalid = false) ∧
    (∀ e, (tokenService.mk [1, 2, 3] (900 * nsPerSec)).Validate (fun k _ => k) 904999999999
          (signHS256 (fun k _ => k) [1, 2, 3] (encodeJwtClaims
            { FileTokenClaims :=
                { FileID := "f1".toList, Key := b64Encode (List.replicate 32 7), UserID := none },
              RegisteredClaims :=
                { ExpiresAt := some 905, NotBefore := none, IssuedAt := some 5 } }))
          = Except.error e → e.is ErrTokenExpired = false) :=
  ⟨(C8_expiry (tokenService.mk [1, 2, 3] (900 * nsPerSec)) (fun k _ => k) 5000000000
      905000000001 (utf8Encode "f1".toList) (List.replicate 32 7) none _ rfl).1 (by decide),
   (C8_expiry (tokenService.mk [1, 2, 3] (900 * nsPerSec)) (fun k _ => k) 5000000000
      904999999999 (utf8Encode "f1".toList) (List.replicate 32 7) none _ rfl).2 (by decide)⟩

/-- C9: `Validate` rejects every token whose header does not name HS256 as its signing algorithm
(for example none, HS384 or RS256), whatever its claims and signature: it returns an error and so
never returns claims for such a token. -/
theorem C9_rejects_other_algorithms (t : tokenService) (mac : Mac) (now : Nat) (tok : TokenStr)
    (halg : tok.alg ≠ some "HS256".toList) :
    ∃ e, t.Validate mac now tok = Except.error e := by
  unfold tokenService.Validate ParseWithClaims parseUnverified
  cases tok with
  | badSegments => exact ⟨_, rfl⟩
  | badHeader => exact ⟨_, rfl⟩
  | badClaims h => exact ⟨_, rfl⟩
  | jwt h c sig =>
    simp only [TokenStr.alg] at halg
    dsimp only
    cases hc : decodeJwtClaims c with
    | none => exact ⟨_, rfl⟩
    | some claims =>
      simp only
      cases hg : h.get "alg" with
      | none => exact ⟨_, rfl⟩
      | some v =>
        cases v with
        | str a =>
          have hne : a ≠ "HS256".toList := by
            intro h'
            rw [hg, h'] at halg
            exact halg rfl
          simp only
          by_cases hreg : a ∈ registeredSigningMethods
          · simp only [hreg, if_true, List.mem_singleton, hne, not_false_eq_true]
            exact ⟨_, rfl⟩
          · simp only [hreg, if_false]
            exact ⟨_, rfl⟩
        | null => exact ⟨_, rfl⟩
        | bool b => exact ⟨_, rfl⟩
        | num n => exact ⟨_, rfl⟩
        | other => exact ⟨_, rfl⟩

/-- C9 witness: an unsigned token that names the algorithm "none". -/
theorem C9_rejects_other_algorithms_witness :
    ∃ e, (tokenService.mk [1, 2, 3] (900 * nsPerSec)).Validate (fun k _ => k) 5000000000
      (TokenStr.jwt [("alg", JVal.str "none".toList), ("typ", JVal.str "JWT".toList)]
        [("file_id", JVal.str "f1".toList), ("key", JVal.str []), ("exp", JVal.num 905)]
        (some [])) = Except.error e :=
  C9_rejects_other_algorithms (tokenService.mk [1, 2, 3] (900 * nsPerSec)) (fun k _ => k)
    5000000000 _ (by decide)

/-- C10 (the code at the failing input): a login token that `GenerateAuthToken` issued for
"alice" under the shared secret is accepted by `Validate`, which returns claims with an empty
FileID and an empty Key. -/
theorem C10_login_token_accepted (mac : Mac) :
    ∃ tok, (authService.mk [1, 2, 3] (900 * nsPerSec)).GenerateAuthToken mac 5000000000
        "alice".toList = Except.ok tok ∧
      (tokenService.mk [1, 2, 3] (900 * nsPerSec)).Validate mac 6000000000 tok =
        Except.ok { FileID := [], Key := [], UserID := some "alice".toList } := by
  refine ⟨_, rfl, ?_⟩
  simp only [tokenService.Validate, ParseWithClaims, parseUnverified, signHS256]
  have hd : decodeJwtClaims (encodeAuthClaims
      { UserID := "alice".toList,
        RegisteredClaims :=
          { IssuedAt := some (NewNumericDate 5000000000),
            ExpiresAt := some (NewNumericDate (5000000000 + 900 * nsPerSec)),
            NotBefore := none } }) =
      some { FileTokenClaims := { FileID := [], Key := [], UserID := some "alice".toList },
             RegisteredClaims :=
              { IssuedAt := some (NewNumericDate 5000000000),
                ExpiresAt := some (NewNumericDate (5000000000 + 900 * nsPerSec)),
                NotBefore := none } } := rfl
  have hget : JObj.get [("alg", JVal.str "HS256".toList), ("typ", JVal.str "JWT".toList)]
      "alg" = some (JVal.str "HS256".toList) := by rfl
  have hv : validateRegistered 6000000000
      { IssuedAt := some (NewNumericDate 5000000000),
        ExpiresAt := some (NewNumericDate (5000000000 + 900 * nsPerSec)),
        NotBefore := none } = none := by decide
  simp only [hd, hget, hs256_registered, if_true, List.mem_singleton, not_true_eq_false,
    if_false, ne_eq, hv]
  rfl

/-- C4: for every credential that validates with an object id other than the requested one,
`GetFile`, `GetFileMetadata` and `DeleteFile` each return the identifier-mismatch error, and none
of them makes a call to the metadata repository, the encrypted store or the cipher. -/
theorem C4_mismatch_rejected_before_storage {σ : Type} (uc : FileUseCase σ) (ctx : Ctx) (s : σ)
    (id : Str) (tok : TokenStr) (claims : FileTokenClaims)
    (hval : (uc.tokenSvc.Validate tok s).1 = Except.ok claims) (hne : claims.FileID ≠ id) :
    ((uc.GetFile ctx { FileID := id, Token := tok } s).result
        = Except.error (Err.new "token file_id mismatch") ∧
      ∀ c ∈ (uc.GetFile ctx { FileID := id, Token := tok } s).trace,
        c.isRepository = false ∧ c.isStore = false ∧ c.isCipher = false) ∧
    ((uc.GetFileMetadata ctx { FileID := id, Token := tok } s).result
        = Except.error (Err.new "token file_id mismatch") ∧
      ∀ c ∈ (uc.GetFileMetadata ctx { FileID := id, Token := tok } s).trace,
        c.isRepository = false ∧ c.isStore = false ∧ c.isCipher = false) ∧
    ((uc.DeleteFile ctx { FileID := id, Token := tok } s).result
        = some (Err.new "token file_id mismatch") ∧
      ∀ c ∈ (uc.DeleteFile ctx { FileID := id, Token := tok } s).trace,
        c.isRepository = false ∧ c.isStore = false ∧ c.isCipher = false) := by
  refine ⟨?_, ?_, ?_⟩
  · unfold FileUseCase.GetFile
    simp only [hval, ne_eq, hne, not_false_eq_true, if_true, List.mem_singleton, true_and]
    intro c hc
    subst hc
    exact ⟨rfl, rfl, rfl⟩
  · unfold FileUseCase.GetFileMetadata
    simp only [hval, ne_eq, hne, not_false_eq_true, if_true, List.mem_singleton, true_and]
    intro c hc
    subst hc
    exact ⟨rfl, rfl, rfl⟩
  · unfold FileUseCase.DeleteFile
    simp only [hval, ne_eq, hne, not_false_eq_true, if_true, List.mem_singleton, true_and]
    intro c hc
    subst hc
    exact ⟨rfl, rfl, rfl⟩

/-- C7: in every execution of `UploadFile`, a call of `Generate` comes only after a call of
`Create` that succeeded; whenever `UploadFile` returns a credential, its calls were exactly key
generation, encryption, `SaveEncrypted` and `Create`, all successful, then `Generate` for the id
of the created record with the key that encrypted the stored blob, whose result is the returned
credential; and when `Create` fails, `UploadFile` returns an error (no credential, no key). -/
theorem C7_credential_only_after_create {σ : Type} (uc : FileUseCase σ) (ctx : Ctx)
    (req : UploadFileRequest) (s : σ) :
    (∀ pre c post, (uc.UploadFile ctx req s).trace = pre ++ c :: post → c.isGenerate = true →
      ∃ x ∈ pre, x.isCreateOk = true) ∧
    (∀ resp, (uc.UploadFile ctx req s).result = Except.ok resp →
      ∃ key ct nonce path asset after,
        (uc.UploadFile ctx req s).trace =
          [Call.GenerateAESKey (Except.ok key),
           Call.EncryptAESGCM key req.Content (Except.ok (ct, nonce)),
           Call.SaveEncrypted req.Filename nonce ct (Except.ok path),
           Call.Create asset none after,
           Call.Generate after.ID key req.UserID (Except.ok resp.Token)] ∧
        asset.StoredPath = path ∧ resp.FileID = after.ID) ∧
    ((∃ x ∈ (uc.UploadFile ctx req s).trace, x.isCreateFailed = true) →
      ∃ e, (uc.UploadFile ctx req s).result = Except.error e) := by
  refine ⟨?_, ?_, ?_⟩
  · intro pre c post htr hgen
    rcases UploadFile_trace_shape uc ctx req s with ⟨hno, _⟩ | ⟨t, g, ht, hno, hc, _⟩
    · rw [no_generate_in _ pre post c hno htr] at hgen
      cases hgen
    · rw [ht] at htr
      exact generate_last t pre post g c hno hc htr hgen
  · intro resp hres
    obtain ⟨key, ct, nonce, path, tok, _, _, _, _, _, hresp, _, htr⟩ :=
      UploadFile_ok_inv uc ctx req s resp hres
    subst hresp
    exact ⟨key, ct, nonce, path, _, _, htr, rfl, rfl⟩
  · rintro ⟨x, hx, hfail⟩
    rcases UploadFile_trace_shape uc ctx req s with ⟨_, he⟩ | ⟨t, g, _, _, _, hnf⟩
    · exact he
    · rw [hnf x hx] at hfail
      cases hfail

/-- The round trip of an upload: for every display name, content and content type, when
`UploadFile` succeeds and returns an object id and a credential, `GetFile` with that id and
credential, on the state the upload left (no delete in between), with a live context and at a
time before the credential expires, returns exactly the uploaded bytes with the uploaded content
type and the original display name, provided the storage root is one whose cleaned form is
neither `.` nor `/`. -/
theorem upload_get_roundtrip (cfg : Config) (ctx ctx' : Ctx) (req : UploadFileRequest)
    (w : World) (resp : UploadFileResponse)
    (hdot : Clean cfg.UploadsDir ≠ ['.']) (hslash : Clean cfg.UploadsDir ≠ ['/'])
    (hup : (cfg.fileUseCase.UploadFile ctx req w).result = Except.ok resp)
    (hfind : ctx' 0 = false) (hload : ctx' 1 = false)
    (hbefore : ∃ e, resp.Token.expiresAt = some e ∧
      ((cfg.fileUseCase.UploadFile ctx req w).state.now.1 : Int) < e * nsPerSec) :
    (cfg.fileUseCase.GetFile ctx' { FileID := resp.FileID, Token := resp.Token }
        (cfg.fileUseCase.UploadFile ctx req w).state).result =
      Except.ok { Content := req.Content, ContentType := req.ContentType,
                  Filename := req.Filename } := by
  obtain ⟨key, ct, nonce, path, tok, hk, he, hs, hc, hg, hresp, hstate, -⟩ :=
    UploadFile_ok_inv cfg.fileUseCase ctx req w resp hup
  rw [hstate] at hbefore ⊢
  subst hresp
  simp only [Config.fileUseCase] at hk he hs hc hg hbefore ⊢
  obtain ⟨hkey, hnonce, hct, hdec⟩ := encrypt_ok_inv _ _ _ _ _ _ he
  obtain ⟨full, hsafe, hfile, -⟩ := SaveEncrypted_ok_inv _ _ _ _ _ _ _ hdot hslash hs
  obtain ⟨hcf, hcp, hcn, hct', hcfind⟩ := Create_ok_inv _ _ _ rfl hc
  generalize hcr : fileRepository.Create (ctx 1) _ _ = cr at hc hg hcf hcp hcn hct' hcfind hbefore ⊢
  generalize hsv : storageService.SaveEncrypted _ (ctx 0) _ _ _ _ = sv at hs hsafe hfile hcr hcf
  have hval := validate_generate_text { secret := cfg.JWTSecret, ttl := cfg.TokenTTL } cfg.mac
    cr.2.now.1 cr.2.now.2.now.1 cr.1.2.ID key req.UserID tok hg
  have hexp : tok.expiresAt = some (NewNumericDate (cr.2.now.1 + cfg.TokenTTL)) := by
    unfold tokenService.Generate at hg
    split at hg
    · cases hg
    · split at hg
      · cases hg
      · injection hg with hg
        subst hg
        cases req.UserID <;> rfl
  obtain ⟨e, hbe, hb⟩ := hbefore
  rw [hexp] at hbe
  injection hbe with hbe
  subst hbe
  rw [if_pos hb] at hval
  unfold FileUseCase.GetFile
  simp only [hval, ne_eq, not_true_eq_false, if_false, hfind, hload]
  have hfd : fileRepository.FindByID false cr.1.2.ID cr.2.now.2.now.2 =
      (Except.ok cr.1.2, cr.2.now.2.now.2) := by
    unfold fileRepository.FindByID
    simp only [Bool.false_eq_true, if_false]
    have : cr.2.now.2.now.2.rows = cr.2.rows := rfl
    rw [this, hcfind]
  rw [hfd]
  simp only [decodeKey_encode key hkey]
  have hl := LoadEncrypted_ok { baseDir := cfg.UploadsDir } cr.1.2.StoredPath full nonce ct
    cr.2.now.2.now.2 (by rw [hcp]; exact hsafe)
    (by
      have : cr.2.now.2.now.2.files = cr.2.files := rfl
      rw [this, hcf]; exact hfile) hnonce
  rw [hl]
  simp only [hdec, hct', hcn]

/-- The round trip of "hello" uploaded as `text/plain` under the name `a.txt`, under the root
"uploads". -/
theorem upload_get_roundtrip_demo :
    ∃ resp,
      (demoConfig.fileUseCase.UploadFile (fun _ => false) demoUpload demoWorld).result
        = Except.ok resp ∧
      (demoConfig.fileUseCase.GetFile (fun _ => false)
          { FileID := resp.FileID, Token := resp.Token }
          (demoConfig.fileUseCase.UploadFile (fun _ => false) demoUpload demoWorld).state).result
        = Except.ok { Content := [104, 101, 108, 108, 111], ContentType := "text/plain".toList,
                      Filename := "a.txt".toList } :=
  ⟨_, rfl, upload_get_roundtrip demoConfig (fun _ => false) (fun _ => false) demoUpload
    demoWorld _ (by decide) (by decide) rfl rfl rfl ⟨1700000900, rfl, by decide⟩⟩

/-- C4 witness: a valid credential for object "f1" presented against object "f2". -/
theorem C4_mismatch_rejected_before_storage_witness :
    (demoConfig.fileUseCase.GetFile (fun _ => false)
        { FileID := "f2".toList,
          Token := signHS256 demoConfig.mac demoConfig.JWTSecret (encodeJwtClaims
            { FileTokenClaims :=
                { FileID := "f1".toList, Key := b64Encode (List.replicate 32 7), UserID := none },
              RegisteredClaims :=
                { ExpiresAt := some 1700000900, NotBefore := none,
                  IssuedAt := some 1700000000 } }) }
        demoWorld).result = Except.error (Err.new "token file_id mismatch") ∧
    (demoConfig.fileUseCase.GetFileMetadata (fun _ => false)
        { FileID := "f2".toList,
          Token := signHS256 demoConfig.mac demoConfig.JWTSecret (encodeJwtClaims
            { FileTokenClaims :=
                { FileID := "f1".toList, Key := b64Encode (List.replicate 32 7), UserID := none },
              RegisteredClaims :=
                { ExpiresAt := some 1700000900, NotBefore := none,
                  IssuedAt := some 1700000000 } }) }
        demoWorld).result = Except.error (Err.new "token file_id mismatch") ∧
    (demoConfig.fileUseCase.DeleteFile (fun _ => false)
        { FileID := "f2".toList,
          Token := signHS256 demoConfig.mac demoConfig.JWTSecret (encodeJwtClaims
            { FileTokenClaims :=
                { FileID := "f1".toList, Key := b64Encode (List.replicate 32 7), UserID := none },
              RegisteredClaims :=
                { ExpiresAt := some 1700000900, NotBefore := none,
                  IssuedAt := some 1700000000 } }) }
        demoWorld).result = some (Err.new "token file_id mismatch") :=
  have h := C4_mismatch_rejected_before_storage demoConfig.fileUseCase (fun _ => false) demoWorld
    "f2".toList
    (signHS256 demoConfig.mac demoConfig.JWTSecret (encodeJwtClaims
      { FileTokenClaims :=
          { FileID := "f1".toList, Key := b64Encode (List.replicate 32 7), UserID := none },
        RegisteredClaims :=
          { ExpiresAt := some 1700000900, NotBefore := none, IssuedAt := some 1700000000 } }))
    { FileID := "f1".toList, Key := b64Encode (List.replicate 32 7), UserID := none }
    rfl (by decide)
  ⟨h.1.1, h.2.1.1, h.2.2.1⟩

/-- C5 (the code at the failing input): for the storage root `..`, `safeJoin` accepts the locator
`../x` and returns `../../x`, which from the working directory `/srv/app` is `/x`, not a
descendant of the root `/srv`. -/
theorem C5_safeJoin_accepts_path_outside_root :
    storageService.safeJoin { baseDir := "..".toList } "../x".toList
      = Except.ok "../../x".toList ∧
    ¬ strictDescendant ["srv".toList, "app".toList] "..".toList "../../x".toList := by
  constructor
  · rfl
  · unfold strictDescendant
    decide

/-- C6 counterexample: the context is cancelled after `SaveEncrypted` has written the blob;
`Create` fails, the compensating `Delete` returns the context error without removing anything,
and the blob is still in the store at the locator `SaveEncrypted` returned. -/
theorem C6_blob_left_when_delete_fails :
    savedLocator (demoConfig.fileUseCase.UploadFile (fun k => decide (1 ≤ k)) demoUpload
        demoWorld).trace
      = some "encrypted/2023/11/14/373e454c-535a-4168-af76-7d848b9299a0.txt.enc".toList ∧
    (demoConfig.fileUseCase.UploadFile (fun k => decide (1 ≤ k)) demoUpload
        demoWorld).trace.any Call.isCreateFailed = true ∧
    storageService.safeJoin { baseDir := demoConfig.UploadsDir }
        "encrypted/2023/11/14/373e454c-535a-4168-af76-7d848b9299a0.txt.enc".toList
      = Except.ok
          "uploads/encrypted/2023/11/14/373e454c-535a-4168-af76-7d848b9299a0.txt.enc".toList ∧
    ((demoConfig.fileUseCase.UploadFile (fun k => decide (1 ≤ k)) demoUpload
        demoWorld).state.files
      "uploads/encrypted/2023/11/14/373e454c-535a-4168-af76-7d848b9299a0.txt.enc".toList).isSome
      = true := by
  refine ⟨?_, ?_, ?_, ?_⟩ <;> rfl

/-- C6, amended: for every upload in which `SaveEncrypted` succeeds and the repository's `Create`
then fails (whatever the repository is), `UploadFile` returns an error and its last call is the
store's `Delete` on the locator `SaveEncrypted` returned; provided the context is not done at
that call and the storage root cleans to neither "." nor "/", the file that `SaveEncrypted` wrote
(at the path to which the locator resolves, holding the nonce and the ciphertext) is no longer
there when `UploadFile` returns. -/
theorem C6_compensating_delete (cfg : Config) (repo : FileRepository World) (ctx : Ctx)
    (req : UploadFileRequest) (w : World) (path : Str)
    (hdot : Clean cfg.UploadsDir ≠ ['.']) (hslash : Clean cfg.UploadsDir ≠ ['/'])
    (hsave : savedLocator
      ({ cfg.fileUseCase with fileRepo := repo }.UploadFile ctx req w).trace = some path)
    (hfail : ({ cfg.fileUseCase with fileRepo := repo }.UploadFile ctx req w).trace.any
      Call.isCreateFailed = true)
    (hlive : ctx 2 = false) :
    (∃ e, ({ cfg.fileUseCase with fileRepo := repo }.UploadFile ctx req w).result
      = Except.error e) ∧
    (({ cfg.fileUseCase with fileRepo := repo }.UploadFile ctx req w).trace.getLast?.bind
      Call.deletedAt = some path) ∧
    ∃ nonce ct full,
      Call.SaveEncrypted req.Filename nonce ct (Except.ok path) ∈
        ({ cfg.fileUseCase with fileRepo := repo }.UploadFile ctx req w).trace ∧
      storageService.safeJoin { baseDir := cfg.UploadsDir } path = Except.ok full ∧
      (storageService.SaveEncrypted { baseDir := cfg.UploadsDir } (ctx 0)
        (utf8Encode req.Filename) nonce ct
        ((w.readRand AESKeySize).2.readRand GCMNonceSize).2).2.files full
        = some (nonce ++ ct) ∧
      ({ cfg.fileUseCase with fileRepo := repo }.UploadFile ctx req w).state.files full
        = none := by
  obtain ⟨key, ct, nonce, err, hk, he, hs, hres, hlast, hmem, before, hstate⟩ :=
    UploadFile_createFailed_inv { cfg.fileUseCase with fileRepo := repo } ctx req w path
      hsave hfail
  refine ⟨⟨_, hres⟩, hlast, nonce, ct, ?_⟩
  simp only [Config.fileUseCase] at hs
  obtain ⟨full, hsafe, hfile, -⟩ := SaveEncrypted_ok_inv _ _ _ _ _ _ _ hdot hslash hs
  refine ⟨full, hmem, hsafe, hfile, ?_⟩
  rw [hstate]
  simp only [Config.fileUseCase, hlive, storageService.Delete, Bool.false_eq_true, if_false,
    hsafe]
  split
  · assumption
  · simp

/-- C6 witness: the database is down while the context stays live; the blob that
`SaveEncrypted` wrote is removed again. -/
theorem C6_compensating_delete_witness :
    (∃ e, (demoUseCaseDbDown.UploadFile (fun _ => false) demoUpload demoWorld).result
      = Except.error e) ∧
    ((demoUseCaseDbDown.UploadFile (fun _ => false) demoUpload demoWorld).trace.getLast?.bind
        Call.deletedAt
      = some "encrypted/2023/11/14/373e454c-535a-4168-af76-7d848b9299a0.txt.enc".toList) ∧
    ∃ nonce ct full,
      Call.SaveEncrypted demoUpload.Filename nonce ct
          (Except.ok "encrypted/2023/11/14/373e454c-535a-4168-af76-7d848b9299a0.txt.enc".toList) ∈
        (demoUseCaseDbDown.UploadFile (fun _ => false) demoUpload demoWorld).trace ∧
      storageService.safeJoin { baseDir := demoConfig.UploadsDir }
          "encrypted/2023/11/14/373e454c-535a-4168-af76-7d848b9299a0.txt.enc".toList
        = Except.ok full ∧
      (storageService.SaveEncrypted { baseDir := demoConfig.UploadsDir } false
        (utf8Encode demoUpload.Filename) nonce ct
        ((demoWorld.readRand AESKeySize).2.readRand GCMNonceSize).2).2.files full
        = some (nonce ++ ct) ∧
      (demoUseCaseDbDown.UploadFile (fun _ => false) demoUpload demoWorld).state.files full
        = none :=
  C6_compensating_delete demoConfig
    { Create := fun _ asset w => ((some (Err.lib "database is closed"), asset), w),
      FindByID := fileRepository.FindByID,
      FindByUserID := fileRepository.FindByUserID,
      Delete := fileRepository.Delete }
    (fun _ => false) demoUpload demoWorld
    "encrypted/2023/11/14/373e454c-535a-4168-af76-7d848b9299a0.txt.enc".toList
    (by decide) (by decide) rfl rfl rfl

/-- C7 witness: the upload of "hello" returns a credential, after exactly the five calls. -/
theorem C7_credential_only_after_create_witness :
    ∃ resp,
      (demoConfig.fileUseCase.UploadFile (fun _ => false) demoUpload demoWorld).result
        = Except.ok resp ∧
      ∃ key ct nonce path asset after,
        (demoConfig.fileUseCase.UploadFile (fun _ => false) demoUpload demoWorld).trace =
          [Call.GenerateAESKey (Except.ok key),
           Call.EncryptAESGCM key demoUpload.Content (Except.ok (ct, nonce)),
           Call.SaveEncrypted demoUpload.Filename nonce ct (Except.ok path),
           Call.Create asset none after,
           Call.Generate after.ID key demoUpload.UserID (Except.ok resp.Token)] ∧
        asset.StoredPath = path ∧ resp.FileID = after.ID :=
  ⟨_, rfl, (C7_credential_only_after_create demoConfig.fileUseCase (fun _ => false) demoUpload
    demoWorld).2.1 _ rfl⟩

/-- C17: each of `SaveEncrypted`, `LoadEncrypted`, `SaveExcel` and `Delete`, called with a
context that is already cancelled, returns the context's error and leaves the state of the file
system (the whole world) as it was, whatever its other arguments are. -/
theorem C17_cancelled_context_touches_nothing (s : storageService) (originalName : GoString)
    (nonce data : List Byte) (relativePath : Str) (reader : List Byte × Option Err)
    (w : World) :
    s.SaveEncrypted true originalName nonce data w = (Except.error ErrContextCanceled, w) ∧
    s.LoadEncrypted true relativePath w = (Except.error ErrContextCanceled, w) ∧
    s.SaveExcel true reader w = (Except.error ErrContextCanceled, w) ∧
    s.Delete true relativePath w = (some ErrContextCanceled, w) := by
  refine ⟨?_, ?_, ?_, ?_⟩
  · unfold storageService.SaveEncrypted
    rw [if_pos rfl]
  · unfold storageService.LoadEncrypted
    rw [if_pos rfl]
  · unfold storageService.SaveExcel
    rw [if_pos rfl]
  · unfold storageService.Delete
    rw [if_pos rfl]

/-- C18: for every key whose length is not exactly 32 bytes, `EncryptAESGCM` returns an error
(no ciphertext, no nonce) and `DecryptAESGCM` returns an error (no plaintext), for every
plaintext, nonce and ciphertext. -/
theorem C18_wrong_key_length_rejected (E : BlockFn) (draw : Draw GCMNonceSize)
    (key plaintext nonce ciphertext : List Byte) (hkey : key.length ≠ 32) :
    EncryptAESGCM E draw key plaintext = Except.error (Err.new "key must be 32 bytes") ∧
    DecryptAESGCM E key nonce ciphertext = Except.error (Err.new "key must be 32 bytes") := by
  have hk : key.length ≠ AESKeySize := hkey
  constructor
  · unfold EncryptAESGCM
    rw [if_pos hk]
  · unfold DecryptAESGCM
    rw [if_pos hk]

/-- C18 witness: a 16-byte key, which AES itself would accept. -/
theorem C18_wrong_key_length_rejected_witness :
    EncryptAESGCM (fun _ x => x + 1) (Except.ok ⟨List.replicate 12 1, rfl⟩)
        (List.replicate 16 7) [104, 101, 108, 108, 111]
      = Except.error (Err.new "key must be 32 bytes") ∧
    DecryptAESGCM (fun _ x => x + 1) (List.replicate 16 7) (List.replicate 12 1)
        (List.replicate 21 0)
      = Except.error (Err.new "key must be 32 bytes") :=
  C18_wrong_key_length_rejected (fun _ x => x + 1) (Except.ok ⟨List.replicate 12 1, rfl⟩)
    (List.replicate 16 7) [104, 101, 108, 108, 111] (List.replicate 12 1) (List.replicate 21 0)
    (by decide)

/-- C19: `Generate` returns an error (and no token) exactly when the object id is empty or the
key is not exactly 32 bytes long; for every non-empty object id and every 32-byte key it returns
a token. -/
theorem C19_generate_rejects_exactly_bad_input (t : tokenService) (mac : Mac) (now : Nat)
    (fileID : GoString) (aesKey : List Byte) (userID : Option GoString) :
    ((∃ e, t.Generate mac now fileID aesKey userID = Except.error e) ↔
      (fileID = [] ∨ aesKey.length ≠ 32)) ∧
    ((fileID ≠ [] ∧ aesKey.length = 32) →
      ∃ tok, t.Generate mac now fileID aesKey userID = Except.ok tok) := by
  unfold tokenService.Generate
  by_cases hid : fileID = []
  · simp [hid]
  · by_cases hk : aesKey.length = 32
    · simp [hid, hk, AESKeySize]
    · simp [hid, hk, AESKeySize]

/-- C20: whenever the nonce is empty or the ciphertext is empty, `SaveEncrypted` returns an
error and leaves the world as it was: no directory is created and no file is written. -/
theorem C20_empty_nonce_or_ciphertext_rejected (s : storageService) (done : Bool)
    (originalName : GoString) (nonce data : List Byte) (w : World)
    (hempty : nonce = [] ∨ data = []) :
    ∃ e, s.SaveEncrypted done originalName nonce data w = (Except.error e, w) := by
  unfold storageService.SaveEncrypted
  cases done with
  | true => exact ⟨_, rfl⟩
  | false =>
    simp only [Bool.false_eq_true, if_false]
    by_cases hn : nonce.length = 0
    · rw [if_pos hn]
      exact ⟨_, rfl⟩
    · rw [if_neg hn]
      have hd : data.length = 0 := by
        rcases hempty with h | h
        · exact absurd (by rw [h]; rfl) hn
        · rw [h]; rfl
      rw [if_pos hd]
      exact ⟨_, rfl⟩

/-- C20 witness: a 12-byte nonce with an empty ciphertext, on the default root. -/
theorem C20_empty_nonce_or_ciphertext_rejected_witness :
    ∃ e, storageService.SaveEncrypted { baseDir := "uploads".toList } false
        (utf8Encode "a.txt".toList)
      (List.replicate 12 1) [] demoWorld = (Except.error e, demoWorld) :=
  C20_empty_nonce_or_ciphertext_rejected { baseDir := "uploads".toList } false
    (utf8Encode "a.txt".toList)
    (List.replicate 12 1) [] demoWorld (Or.inr rfl)

/-- C19 witness: the empty id is refused, and the id "f1" with a 32-byte key gets a token. -/
theorem C19_generate_rejects_exactly_bad_input_witness :
    (∃ e, (tokenService.mk [1, 2, 3] (900 * nsPerSec)).Generate (fun k _ => k) 5000000000 []
      (List.replicate 32 7) none = Except.error e) ∧
    (∃ tok, (tokenService.mk [1, 2, 3] (900 * nsPerSec)).Generate (fun k _ => k) 5000000000
      (utf8Encode "f1".toList) (List.replicate 32 7) none = Except.ok tok) :=
  ⟨(C19_generate_rejects_exactly_bad_input (tokenService.mk [1, 2, 3] (900 * nsPerSec))
      (fun k _ => k) 5000000000 [] (List.replicate 32 7) none).1.mpr (Or.inl rfl),
   (C19_generate_rejects_exactly_bad_input (tokenService.mk [1, 2, 3] (900 * nsPerSec))
      (fun k _ => k) 5000000000 (utf8Encode "f1".toList) (List.replicate 32 7) none).2
      ⟨by decide, by decide⟩⟩

/-- C12: after a successful `UploadFile` that returned an id and a credential, and a successful
`DeleteFile` with them, `GetFile` with the same id and credential, still unexpired and with a
live context, fails with the error "file not found" (and so returns no content). -/
theorem C12_get_after_delete_not_found (cfg : Config) (ctx ctxD ctxG : Ctx)
    (req : UploadFileRequest) (w : World) (resp : UploadFileResponse)
    (hup : (cfg.fileUseCase.UploadFile ctx req w).result = Except.ok resp)
    (hdel : (cfg.fileUseCase.DeleteFile ctxD { FileID := resp.FileID, Token := resp.Token }
      (cfg.fileUseCase.UploadFile ctx req w).state).result = none)
    (hlive : ctxG 0 = false)
    (hbefore : ∃ e, resp.Token.expiresAt = some e ∧
      (((cfg.fileUseCase.DeleteFile ctxD { FileID := resp.FileID, Token := resp.Token }
        (cfg.fileUseCase.UploadFile ctx req w).state).state.now.1 : Nat) : Int) < e * nsPerSec) :
    (cfg.fileUseCase.GetFile ctxG { FileID := resp.FileID, Token := resp.Token }
      (cfg.fileUseCase.DeleteFile ctxD { FileID := resp.FileID, Token := resp.Token }
        (cfg.fileUseCase.UploadFile ctx req w).state).state).result
      = Except.error (Err.new "file not found") := by
  obtain ⟨key, ct, nonce, path, tok, -, -, -, -, hg, hresp, -, -⟩ :=
    UploadFile_ok_inv cfg.fileUseCase ctx req w resp hup
  generalize (cfg.fileUseCase.UploadFile ctx req w).state = s1 at hdel hbefore ⊢
  subst hresp
  dsimp only at hdel hbefore ⊢
  generalize (cfg.fileUseCase.fileRepo.Create (ctx 1) _ _).1.2.ID = id at hg hdel hbefore ⊢
  simp only [Config.fileUseCase] at hg
  generalize (fileRepository.Create (ctx 1) _ _).2.now.1 = tgen at hg
  obtain ⟨claims, asset, -, -, -, hrd, hstate⟩ :=
    DeleteFile_ok_inv cfg.fileUseCase ctxD { FileID := id, Token := tok } s1 hdel
  rw [hstate] at hbefore ⊢
  simp only [Config.fileUseCase] at hrd hbefore ⊢
  have hrows := repoDelete_ok_inv _ _ _ hrd
  generalize fileRepository.Delete (ctxD 2) id _ = rd at hrows hbefore ⊢
  obtain ⟨e, hbe, hb⟩ := hbefore
  rw [generate_expiresAt _ _ _ _ _ _ _ hg] at hbe
  injection hbe with hbe
  subst hbe
  have hval := validate_generate_text { secret := cfg.JWTSecret, ttl := cfg.TokenTTL } cfg.mac
    tgen rd.2.now.1 id key req.UserID tok hg
  rw [if_pos hb] at hval
  have := GetFile_not_found cfg ctxG id tok rd.2 _ hval rfl hlive hrows
  simpa only [Config.fileUseCase] using this

/-- C12 witness: the demo upload, then its deletion, then a download with the same credential. -/
theorem C12_get_after_delete_not_found_witness :
    ∃ resp,
      (demoConfig.fileUseCase.UploadFile (fun _ => false) demoUpload demoWorld).result
        = Except.ok resp ∧
      (demoConfig.fileUseCase.DeleteFile (fun _ => false)
          { FileID := resp.FileID, Token := resp.Token }
          (demoConfig.fileUseCase.UploadFile (fun _ => false) demoUpload demoWorld).state).result
        = none ∧
      (demoConfig.fileUseCase.GetFile (fun _ => false)
          { FileID := resp.FileID, Token := resp.Token }
          (demoConfig.fileUseCase.DeleteFile (fun _ => false)
            { FileID := resp.FileID, Token := resp.Token }
            (demoConfig.fileUseCase.UploadFile (fun _ => false) demoUpload
              demoWorld).state).state).result
        = Except.error (Err.new "file not found") :=
  ⟨_, rfl, rfl, C12_get_after_delete_not_found demoConfig (fun _ => false) (fun _ => false)
    (fun _ => false) demoUpload demoWorld _ rfl rfl rfl ⟨1700000900, rfl, by decide⟩⟩

/-- C13: for every credential that validates for the requested id and every record that
`FindByID` returns, `DeleteFile` calls the store's `Delete` on the record's locator and then,
whatever that returned (a failure is only logged), the repository's `Delete`; its result is
success exactly when the repository's `Delete` succeeds and otherwise the repository's error
wrapped as "delete record". -/
theorem C13_delete_result_is_repository_result {σ : Type} (uc : FileUseCase σ) (ctx : Ctx)
    (s : σ) (id : Str) (tok : TokenStr) (claims : FileTokenClaims) (asset : FileAsset)
    (hval : (uc.tokenSvc.Validate tok s).1 = Except.ok claims) (hid : claims.FileID = id)
    (hfind : (uc.fileRepo.FindByID (ctx 0) id (uc.tokenSvc.Validate tok s).2).1
      = Except.ok asset) :
    ∃ d r,
      d = uc.storageSvc.Delete (ctx 1) asset.StoredPath
        (uc.fileRepo.FindByID (ctx 0) id (uc.tokenSvc.Validate tok s).2).2 ∧
      r = uc.fileRepo.Delete (ctx 2) id d.2 ∧
      (uc.DeleteFile ctx { FileID := id, Token := tok } s).trace =
        [Call.Validate tok (Except.ok claims), Call.FindByID id (Except.ok asset),
         Call.StorageDelete asset.StoredPath d.1] ++
        (match d.1 with | some _ => [Call.LogWarn "storage delete failed"] | none => []) ++
        [Call.RepoDelete id r.1] ∧
      (uc.DeleteFile ctx { FileID := id, Token := tok } s).result =
        (match r.1 with
         | none => none
         | some err => some (Err.wrap "delete record" err)) ∧
      ((uc.DeleteFile ctx { FileID := id, Token := tok } s).result = none ↔ r.1 = none) := by
  refine ⟨_, _, rfl, rfl, ?_, ?_, ?_⟩
  · unfold FileUseCase.DeleteFile
    simp only [hval, hid, ne_eq, not_true_eq_false, if_false, hfind]
    split <;> simp
  · unfold FileUseCase.DeleteFile
    simp only [hval, hid, ne_eq, not_true_eq_false, if_false, hfind]
    split <;> simp [*]
  · unfold FileUseCase.DeleteFile
    simp only [hval, hid, ne_eq, not_true_eq_false, if_false, hfind]
    split <;> simp [*]

/-- C13 witness: deleting the object of the demo upload; both `Delete` calls succeed. -/
theorem C13_delete_result_is_repository_result_witness :
    ∃ resp claims asset,
      (demoConfig.fileUseCase.UploadFile (fun _ => false) demoUpload demoWorld).result
        = Except.ok resp ∧
      ∃ d r,
        d = demoConfig.fileUseCase.storageSvc.Delete false asset.StoredPath
          (demoConfig.fileUseCase.fileRepo.FindByID false resp.FileID
            (demoConfig.fileUseCase.tokenSvc.Validate resp.Token
              (demoConfig.fileUseCase.UploadFile (fun _ => false) demoUpload
                demoWorld).state).2).2 ∧
        r = demoConfig.fileUseCase.fileRepo.Delete false resp.FileID d.2 ∧
        (demoConfig.fileUseCase.DeleteFile (fun _ => false)
            { FileID := resp.FileID, Token := resp.Token }
            (demoConfig.fileUseCase.UploadFile (fun _ => false) demoUpload
              demoWorld).state).trace =
          [Call.Validate resp.Token (Except.ok claims),
           Call.FindByID resp.FileID (Except.ok asset),
           Call.StorageDelete asset.StoredPath d.1] ++
          (match d.1 with | some _ => [Call.LogWarn "storage delete failed"] | none => []) ++
          [Call.RepoDelete resp.FileID r.1] ∧
        (demoConfig.fileUseCase.DeleteFile (fun _ => false)
            { FileID := resp.FileID, Token := resp.Token }
            (demoConfig.fileUseCase.UploadFile (fun _ => false) demoUpload
              demoWorld).state).result =
          (match r.1 with
           | none => none
           | some err => some (Err.wrap "delete record" err)) ∧
        ((demoConfig.fileUseCase.DeleteFile (fun _ => false)
            { FileID := resp.FileID, Token := resp.Token }
            (demoConfig.fileUseCase.UploadFile (fun _ => false) demoUpload
              demoWorld).state).result = none ↔ r.1 = none) :=
  ⟨_, _, _, rfl, C13_delete_result_is_repository_result demoConfig.fileUseCase (fun _ => false)
    (demoConfig.fileUseCase.UploadFile (fun _ => false) demoUpload demoWorld).state _ _ _ _
    rfl rfl rfl⟩

/-- C14: `GetFileMetadata` never calls the encrypted store or the cipher; and on the wired
service, for two credentials that validate for the same object id (whatever key each embeds) it
returns the same result, which, when it is a record, is the record the repository returned. -/
theorem C14_metadata_never_touches_blob_or_key {σ : Type} (uc : FileUseCase σ) (ctx : Ctx)
    (req : GetFileMetadataRequest) (s : σ) (cfg : Config) (w : World) (id : Str)
    (tok1 tok2 : TokenStr) (c1 c2 : FileTokenClaims) :
    (∀ c ∈ (uc.GetFileMetadata ctx req s).trace, c.isStore = false ∧ c.isCipher = false) ∧
    ((cfg.fileUseCase.tokenSvc.Validate tok1 w).1 = Except.ok c1 →
     (cfg.fileUseCase.tokenSvc.Validate tok2 w).1 = Except.ok c2 →
     c1.FileID = id → c2.FileID = id →
      (cfg.fileUseCase.GetFileMetadata ctx { FileID := id, Token := tok1 } w).result =
        (cfg.fileUseCase.GetFileMetadata ctx { FileID := id, Token := tok2 } w).result ∧
      ∀ a, (cfg.fileUseCase.GetFileMetadata ctx { FileID := id, Token := tok1 } w).result
          = Except.ok a →
        (fileRepository.FindByID (ctx 0) id w.now.2).1 = Except.ok a) := by
  constructor
  · unfold FileUseCase.GetFileMetadata
    simp only
    intro c hc
    split at hc
    · simp only [List.mem_singleton] at hc
      subst hc
      exact ⟨rfl, rfl⟩
    · split at hc
      · simp only [List.mem_singleton] at hc
        subst hc
        exact ⟨rfl, rfl⟩
      · split at hc
        · split at hc <;>
          · simp only [List.mem_append, List.mem_singleton] at hc
            rcases hc with hc | hc <;> subst hc <;> exact ⟨rfl, rfl⟩
        · simp only [List.mem_append, List.mem_singleton] at hc
          rcases hc with hc | hc <;> subst hc <;> exact ⟨rfl, rfl⟩
  · intro h1 h2 hid1 hid2
    simp only [Config.fileUseCase] at h1 h2
    unfold FileUseCase.GetFileMetadata
    simp only [Config.fileUseCase, h1, h2, hid1, hid2, ne_eq, not_true_eq_false, if_false]
    cases hf : (fileRepository.FindByID (ctx 0) id w.now.2).1 with
    | error e =>
      refine ⟨?_, ?_⟩
      · dsimp only
        split <;> rfl
      · intro a ha
        dsimp only at ha
        split at ha <;> cases ha
    | ok asset =>
      refine ⟨rfl, ?_⟩
      intro a ha
      exact ha

/-- C14 witness: after the demo upload, whose object id is a7aeb5bc-c3ca-41d8-9fe6-edf4fb020910,
the metadata lookups with two credentials for that object that embed different keys return the
same result. -/
theorem C14_metadata_never_touches_blob_or_key_witness :
    (demoConfig.fileUseCase.GetFileMetadata (fun _ => false)
        { FileID := "a7aeb5bc-c3ca-41d8-9fe6-edf4fb020910".toList,
          Token := signHS256 demoConfig.mac demoConfig.JWTSecret (encodeJwtClaims
            { FileTokenClaims :=
                { FileID := "a7aeb5bc-c3ca-41d8-9fe6-edf4fb020910".toList,
                  Key := b64Encode (List.replicate 32 7), UserID := none },
              RegisteredClaims :=
                { ExpiresAt := some 1700000900, NotBefore := none,
                  IssuedAt := some 1700000000 } }) }
        (demoConfig.fileUseCase.UploadFile (fun _ => false) demoUpload demoWorld).state).result
      =
    (demoConfig.fileUseCase.GetFileMetadata (fun _ => false)
        { FileID := "a7aeb5bc-c3ca-41d8-9fe6-edf4fb020910".toList,
          Token := signHS256 demoConfig.mac demoConfig.JWTSecret (encodeJwtClaims
            { FileTokenClaims :=
                { FileID := "a7aeb5bc-c3ca-41d8-9fe6-edf4fb020910".toList,
                  Key := b64Encode (List.replicate 32 9), UserID := none },
              RegisteredClaims :=
                { ExpiresAt := some 1700000900, NotBefore := none,
                  IssuedAt := some 1700000000 } }) }
        (demoConfig.fileUseCase.UploadFile (fun _ => false) demoUpload demoWorld).state).result :=
  ((C14_metadata_never_touches_blob_or_key demoConfig.fileUseCase (fun _ => false)
    { FileID := [], Token := TokenStr.badSegments } demoWorld demoConfig
    (demoConfig.fileUseCase.UploadFile (fun _ => false) demoUpload demoWorld).state
    "a7aeb5bc-c3ca-41d8-9fe6-edf4fb020910".toList
    (signHS256 demoConfig.mac demoConfig.JWTSecret (encodeJwtClaims
            { FileTokenClaims :=
                { FileID := "a7aeb5bc-c3ca-41d8-9fe6-edf4fb020910".toList,
                  Key := b64Encode (List.replicate 32 7), UserID := none },
              RegisteredClaims :=
                { ExpiresAt := some 1700000900, NotBefore := none,
                  IssuedAt := some 1700000000 } }))
    (signHS256 demoConfig.mac demoConfig.JWTSecret (encodeJwtClaims
            { FileTokenClaims :=
                { FileID := "a7aeb5bc-c3ca-41d8-9fe6-edf4fb020910".toList,
                  Key := b64Encode (List.replicate 32 9), UserID := none },
              RegisteredClaims :=
                { ExpiresAt := some 1700000900, NotBefore := none,
                  IssuedAt := some 1700000000 } })) _ _).2 rfl rfl rfl rfl).1

/-- C15, as stated, fails for a nonce that is not 12 bytes long: under the absolute root "/data"
`SaveEncrypted` accepts an 8-byte nonce with an 8-byte ciphertext, and `LoadEncrypted` on the
locator it returned yields a 12-byte nonce and a 4-byte ciphertext. -/
theorem C15_short_nonce_split_differently :
    ∃ path,
      ((storageService.mk "/data".toList).SaveEncrypted false (utf8Encode "a.txt".toList)
        (List.replicate 8 1) (List.replicate 8 2) demoWorld).1 = Except.ok path ∧
      ((storageService.mk "/data".toList).LoadEncrypted false path
        ((storageService.mk "/data".toList).SaveEncrypted false (utf8Encode "a.txt".toList)
          (List.replicate 8 1) (List.replicate 8 2) demoWorld).2).1
        = Except.ok ([1, 1, 1, 1, 1, 1, 1, 1, 2, 2, 2, 2], [2, 2, 2, 2]) :=
  ⟨_, rfl, rfl⟩

/-- C15, amended: for every 12-byte nonce and every ciphertext that `SaveEncrypted` accepts, under
an absolute storage root that does not clean to "/", `LoadEncrypted` with a live context on the
locator `SaveEncrypted` returned yields exactly that nonce and that ciphertext, and changes
nothing. -/
theorem C15_save_load_roundtrip (s : storageService) (done : Bool) (originalName : GoString)
    (nonce data : List Byte) (w : World) (path : Str)
    (habs : s.baseDir.head? = some '/') (hroot : Clean s.baseDir ≠ ['/'])
    (hn : nonce.length = 12)
    (hsave : (s.SaveEncrypted done originalName nonce data w).1 = Except.ok path) :
    s.LoadEncrypted false path (s.SaveEncrypted done originalName nonce data w).2
      = (Except.ok (nonce, data), (s.SaveEncrypted done originalName nonce data w).2) := by
  obtain ⟨full, hsafe, hfile, -⟩ := SaveEncrypted_ok_inv s done originalName nonce data w path
    (Clean_rooted_ne_dot _ habs) hroot hsave
  exact LoadEncrypted_ok s path full nonce data _ hsafe hfile hn

/-- C15 witness: a 12-byte nonce and a 3-byte ciphertext under the root "/data". -/
theorem C15_save_load_roundtrip_witness :
    ∃ path,
      ((storageService.mk "/data".toList).SaveEncrypted false (utf8Encode "a.txt".toList)
        (List.replicate 12 1) [2, 3, 4] demoWorld).1 = Except.ok path ∧
      (storageService.mk "/data".toList).LoadEncrypted false path
        ((storageService.mk "/data".toList).SaveEncrypted false (utf8Encode "a.txt".toList)
          (List.replicate 12 1) [2, 3, 4] demoWorld).2
        = (Except.ok (List.replicate 12 1, [2, 3, 4]),
           ((storageService.mk "/data".toList).SaveEncrypted false (utf8Encode "a.txt".toList)
             (List.replicate 12 1) [2, 3, 4] demoWorld).2) :=
  ⟨_, rfl, C15_save_load_roundtrip (storageService.mk "/data".toList) false
    (utf8Encode "a.txt".toList)
    (List.replicate 12 1) [2, 3, 4] demoWorld _ rfl (by decide) rfl rfl⟩

/-- C24: `DecryptAESGCM` returns an error for every nonce whose length is not 12 bytes, whatever
the key and the ciphertext; and among the two values it returns, whenever the error is not nil
the plaintext is the nil slice; the two returned values agree with the result of
`DecryptAESGCM`. -/
theorem C24_bad_nonce_rejected_no_partial_plaintext (E : BlockFn)
    (key nonce ciphertext : List Byte) :
    (nonce.length ≠ 12 → ∃ e, DecryptAESGCM E key nonce ciphertext = Except.error e) ∧
    ((DecryptAESGCMValues E key nonce ciphertext).2 ≠ none →
      (DecryptAESGCMValues E key nonce ciphertext).1 = []) ∧
    DecryptAESGCMValues E key nonce ciphertext =
      (match DecryptAESGCM E key nonce ciphertext with
       | Except.ok plaintext => (plaintext, none)
       | Except.error e => ([], some e)) := by
  refine ⟨?_, ?_, ?_⟩
  · intro hn
    unfold DecryptAESGCM
    by_cases hk : key.length ≠ AESKeySize
    · rw [if_pos hk]
      exact ⟨_, rfl⟩
    · rw [if_neg hk]
      cases aesNewCipher key with
      | error e => exact ⟨_, rfl⟩
      | ok u =>
        have hn' : nonce.length ≠ GCMNonceSize := hn
        simp only [hn', ne_eq, not_false_eq_true, if_true]
        exact ⟨_, rfl⟩
  · unfold DecryptAESGCMValues
    intro h
    by_cases hk : key.length ≠ AESKeySize
    · rw [if_pos hk]
    · rw [if_neg hk] at h ⊢
      cases hc : aesNewCipher key with
      | error e => rfl
      | ok u =>
        rw [hc] at h
        simp only at h ⊢
        by_cases hn : nonce.length ≠ GCMNonceSize
        · rw [if_pos hn]
        · rw [if_neg hn] at h ⊢
          cases ho : gcmOpen E key nonce ciphertext with
          | error e => rfl
          | ok pt =>
            rw [ho] at h
            exact absurd rfl h
  · unfold DecryptAESGCMValues DecryptAESGCM
    by_cases hk : key.length ≠ AESKeySize
    · rw [if_pos hk, if_pos hk]
    · rw [if_neg hk, if_neg hk]
      cases aesNewCipher key with
      | error e => rfl
      | ok u =>
        simp only
        by_cases hn : nonce.length ≠ GCMNonceSize
        · rw [if_pos hn, if_pos hn]
        · rw [if_neg hn, if_neg hn]
          cases gcmOpen E key nonce ciphertext <;> rfl

/-- C24 witness: under a 32-byte key, an 8-byte nonce gives the error "invalid nonce size: 8"
and the nil plaintext. -/
theorem C24_bad_nonce_rejected_no_partial_plaintext_witness :
    (∃ e, DecryptAESGCM demoConfig.E (List.replicate 32 7) (List.replicate 8 1)
      (List.replicate 20 2) = Except.error e) ∧
    DecryptAESGCMValues demoConfig.E (List.replicate 32 7) (List.replicate 8 1)
      (List.replicate 20 2) = ([], some (Err.new "invalid nonce size: 8")) :=
  ⟨(C24_bad_nonce_rejected_no_partial_plaintext demoConfig.E (List.replicate 32 7)
      (List.replicate 8 1) (List.replicate 20 2)).1 (by decide), rfl⟩

/-- C25: for every locator that passes the traversal check and every context that is live: if
the file at the resolved path holds at least 12 bytes, `LoadEncrypted` returns its first 12 bytes
as the nonce and the remaining bytes (possibly none) as the ciphertext; if it holds fewer than 12
bytes, or no file is there, `LoadEncrypted` returns an error. Nothing is changed in any case. -/
theorem C25_load_splits_at_nonce_size (s : storageService) (relativePath full : Str) (w : World)
    (hsafe : s.safeJoin relativePath = Except.ok full) :
    (∀ b, w.files full = some b → 12 ≤ b.length →
      s.LoadEncrypted false relativePath w = (Except.ok (b.take 12, b.drop 12), w)) ∧
    (∀ b, w.files full = some b → b.length < 12 →
      ∃ e, s.LoadEncrypted false relativePath w = (Except.error e, w)) ∧
    (w.files full = none → ∃ e, s.LoadEncrypted false relativePath w = (Except.error e, w)) := by
  unfold storageService.LoadEncrypted
  simp only [Bool.false_eq_true, if_false, hsafe]
  refine ⟨?_, ?_, ?_⟩
  · intro b hb hlen
    have hlt : ¬ b.length < GCMNonceSize := by
      unfold GCMNonceSize
      omega
    simp only [hb, if_neg hlt]
    rfl
  · intro b hb hlen
    have hlt : b.length < GCMNonceSize := hlen
    simp only [hb, if_pos hlt]
    exact ⟨_, rfl⟩
  · intro hnone
    simp only [hnone]
    exact ⟨_, rfl⟩

/-- C25 witness: under the root "uploads", a 13-byte file at "uploads/b" read through the locator
"b". -/
theorem C25_load_splits_at_nonce_size_witness :
    (storageService.mk "uploads".toList).LoadEncrypted false "b".toList
        { demoWorld with
          files := fun p => if p = "uploads/b".toList then some (List.replicate 13 5) else none }
      = (Except.ok (List.replicate 12 5, [5]),
         { demoWorld with
           files := fun p =>
             if p = "uploads/b".toList then some (List.replicate 13 5) else none }) :=
  (C25_load_splits_at_nonce_size (storageService.mk "uploads".toList) "b".toList
    "uploads/b".toList
    { demoWorld with
      files := fun p => if p = "uploads/b".toList then some (List.replicate 13 5) else none }
    rfl).1 (List.replicate 13 5) rfl (by decide)

/-- C27: when key generation, encryption, `SaveEncrypted` and `Create` succeed (the blob and the
record are persisted) and the token service's `Generate` then fails, `UploadFile` returns the
error wrapped as "generate token" and no credential; its calls are exactly those five, none of
them the store's `Delete` or the repository's `Delete`, and the state it leaves is the one
`Generate` left. -/
theorem C27_no_rollback_when_generate_fails {σ : Type} (uc : FileUseCase σ) (ctx : Ctx)
    (req : UploadFileRequest) (s s1 s2 s3 s4 s5 : σ) (key ct nonce : List Byte) (path : Str)
    (after : FileAsset) (err : Err)
    (hk : uc.cryptoSvc.GenerateAESKey s = (Except.ok key, s1))
    (he : uc.cryptoSvc.EncryptAESGCM key req.Content s1 = (Except.ok (ct, nonce), s2))
    (hs : uc.storageSvc.SaveEncrypted (ctx 0) req.Filename nonce ct s2 = (Except.ok path, s3))
    (hc : uc.fileRepo.Create (ctx 1)
      { ID := [], OriginalName := req.Filename, StoredPath := path, UserID := req.UserID,
        ContentType := req.ContentType, SizeBytes := (req.Content.length : Int),
        EncryptionAlg := "AES-256".toList, AuthenticationAlg := "GCM".toList,
        CreatedAt := 0, UpdatedAt := 0, DeletedAt := none } s3 = ((none, after), s4))
    (hg : uc.tokenSvc.Generate after.ID key req.UserID s4 = (Except.error err, s5)) :
    uc.UploadFile ctx req s =
      { result := Except.error (Err.wrap "generate token" err),
        state := s5,
        trace :=
          [Call.GenerateAESKey (Except.ok key),
           Call.EncryptAESGCM key req.Content (Except.ok (ct, nonce)),
           Call.SaveEncrypted req.Filename nonce ct (Except.ok path),
           Call.Create
             { ID := [], OriginalName := req.Filename, StoredPath := path, UserID := req.UserID,
               ContentType := req.ContentType, SizeBytes := (req.Content.length : Int),
               EncryptionAlg := "AES-256".toList, AuthenticationAlg := "GCM".toList,
               CreatedAt := 0, UpdatedAt := 0, DeletedAt := none } none after,
           Call.Generate after.ID key req.UserID (Except.error err)] } ∧
    ∀ c ∈ (uc.UploadFile ctx req s).trace, c.isDelete = false := by
  have hrun : uc.UploadFile ctx req s =
      { result := Except.error (Err.wrap "generate token" err),
        state := s5,
        trace :=
          [Call.GenerateAESKey (Except.ok key),
           Call.EncryptAESGCM key req.Content (Except.ok (ct, nonce)),
           Call.SaveEncrypted req.Filename nonce ct (Except.ok path),
           Call.Create
             { ID := [], OriginalName := req.Filename, StoredPath := path, UserID := req.UserID,
               ContentType := req.ContentType, SizeBytes := (req.Content.length : Int),
               EncryptionAlg := "AES-256".toList, AuthenticationAlg := "GCM".toList,
               CreatedAt := 0, UpdatedAt := 0, DeletedAt := none } none after,
           Call.Generate after.ID key req.UserID (Except.error err)] } := by
    unfold FileUseCase.UploadFile
    simp only [hk, he, hs, hc, hg]
    rfl
  refine ⟨hrun, ?_⟩
  rw [hrun]
  intro c hc'
  simp only [List.mem_cons, List.mem_singleton, List.not_mem_nil, or_false] at hc'
  rcases hc' with h | h | h | h | h <;> subst h <;> rfl

/-- C27 witness: the demo upload on a wiring whose `Generate` always fails; the record and the
blob are still there when `UploadFile` has returned. -/
theorem C27_no_rollback_when_generate_fails_witness :
    (demoUseCaseTokenDown.UploadFile (fun _ => false) demoUpload demoWorld).result
      = Except.error (Err.wrap "generate token" (Err.lib "signing failed")) ∧
    (∀ c ∈ (demoUseCaseTokenDown.UploadFile (fun _ => false) demoUpload demoWorld).trace,
      c.isDelete = false) ∧
    ((demoUseCaseTokenDown.UploadFile (fun _ => false) demoUpload demoWorld).state.rows.map
      (fun r => (r.StoredPath, r.DeletedAt)))
      = [("encrypted/2023/11/14/373e454c-535a-4168-af76-7d848b9299a0.txt.enc".toList, none)] ∧
    ((demoUseCaseTokenDown.UploadFile (fun _ => false) demoUpload demoWorld).state.files
      "uploads/encrypted/2023/11/14/373e454c-535a-4168-af76-7d848b9299a0.txt.enc".toList).isSome
      = true :=
  ⟨congrArg Run.result (C27_no_rollback_when_generate_fails demoUseCaseTokenDown
      (fun _ => false) demoUpload demoWorld _ _ _ _ _ _ _ _ _ _ _ rfl rfl rfl rfl rfl).1,
   (C27_no_rollback_when_generate_fails demoUseCaseTokenDown
      (fun _ => false) demoUpload demoWorld _ _ _ _ _ _ _ _ _ _ _ rfl rfl rfl rfl rfl).2,
   rfl, rfl⟩

/-- C22: after a successful `UploadFile` of a content under a display name and a content type,
`GetFileMetadata` with the returned id and credential, on the state the upload left, with a live
context and before the credential expires, returns a record whose `SizeBytes` is the length of
the content, whose `OriginalName` and `ContentType` are those uploaded, whose `StoredPath` is the
locator `SaveEncrypted` returned, whose algorithm tags are "AES-256" and "GCM", and whose id is
the returned id. -/
theorem C22_metadata_after_upload (cfg : Config) (ctx ctx' : Ctx) (req : UploadFileRequest)
    (w : World) (resp : UploadFileResponse)
    (hup : (cfg.fileUseCase.UploadFile ctx req w).result = Except.ok resp)
    (hfind : ctx' 0 = false)
    (hbefore : ∃ e, resp.Token.expiresAt = some e ∧
      ((cfg.fileUseCase.UploadFile ctx req w).state.now.1 : Int) < e * nsPerSec) :
    ∃ asset,
      (cfg.fileUseCase.GetFileMetadata ctx' { FileID := resp.FileID, Token := resp.Token }
        (cfg.fileUseCase.UploadFile ctx req w).state).result = Except.ok asset ∧
      asset.SizeBytes = (req.Content.length : Int) ∧
      asset.OriginalName = req.Filename ∧
      asset.ContentType = req.ContentType ∧
      savedLocator (cfg.fileUseCase.UploadFile ctx req w).trace = some asset.StoredPath ∧
      asset.EncryptionAlg = "AES-256".toList ∧
      asset.AuthenticationAlg = "GCM".toList ∧
      asset.ID = resp.FileID := by
  obtain ⟨key, ct, nonce, path, tok, hk, he, hs, hc, hg, hresp, hstate, htr⟩ :=
    UploadFile_ok_inv cfg.fileUseCase ctx req w resp hup
  rw [hstate] at hbefore ⊢
  rw [htr]
  subst hresp
  simp only [Config.fileUseCase] at hk he hs hc hg hbefore ⊢
  obtain ⟨-, hcp, hcn, hct', hcfind⟩ := Create_ok_inv _ _ _ rfl hc
  obtain ⟨hsz, hea, haa, -⟩ := Create_fields (ctx 1)
    { ID := [], OriginalName := req.Filename, StoredPath := path, UserID := req.UserID,
      ContentType := req.ContentType, SizeBytes := (req.Content.length : Int),
      EncryptionAlg := "AES-256".toList, AuthenticationAlg := "GCM".toList,
      CreatedAt := 0, UpdatedAt := 0, DeletedAt := none }
    (storageService.SaveEncrypted { baseDir := cfg.UploadsDir } (ctx 0)
      (utf8Encode req.Filename) nonce ct
      ((w.readRand AESKeySize).2.readRand GCMNonceSize).2).2
  generalize hcr : fileRepository.Create (ctx 1) _ _ = cr
    at hc hg hcp hcn hct' hcfind hsz hea haa hbefore ⊢
  have hval := validate_generate_text { secret := cfg.JWTSecret, ttl := cfg.TokenTTL } cfg.mac
    cr.2.now.1 cr.2.now.2.now.1 cr.1.2.ID key req.UserID tok hg
  obtain ⟨e, hbe, hb⟩ := hbefore
  rw [generate_expiresAt _ _ _ _ _ _ _ hg] at hbe
  injection hbe with hbe
  subst hbe
  rw [if_pos hb] at hval
  have hfd : fileRepository.FindByID false cr.1.2.ID cr.2.now.2.now.2 =
      (Except.ok cr.1.2, cr.2.now.2.now.2) := by
    unfold fileRepository.FindByID
    simp only [Bool.false_eq_true, if_false]
    have : cr.2.now.2.now.2.rows = cr.2.rows := rfl
    rw [this, hcfind]
  refine ⟨cr.1.2, ?_, hsz, hcn, hct', ?_, hea, haa, rfl⟩
  · unfold FileUseCase.GetFileMetadata
    simp only [hval, ne_eq, not_true_eq_false, if_false, hfind, hfd]
  · rw [hcp]
    rfl

/-- C22 witness: the metadata of the demo upload of "hello" has size 5. -/
theorem C22_metadata_after_upload_witness :
    ∃ resp,
      (demoConfig.fileUseCase.UploadFile (fun _ => false) demoUpload demoWorld).result
        = Except.ok resp ∧
      ∃ asset,
      (demoConfig.fileUseCase.GetFileMetadata (fun _ => false)
        { FileID := resp.FileID, Token := resp.Token }
        (demoConfig.fileUseCase.UploadFile (fun _ => false) demoUpload demoWorld).state).result
        = Except.ok asset ∧
      asset.SizeBytes = 5 ∧
      asset.OriginalName = "a.txt".toList ∧
      asset.ContentType = "text/plain".toList ∧
      savedLocator (demoConfig.fileUseCase.UploadFile (fun _ => false) demoUpload
        demoWorld).trace = some asset.StoredPath ∧
      asset.EncryptionAlg = "AES-256".toList ∧
      asset.AuthenticationAlg = "GCM".toList ∧
      asset.ID = resp.FileID :=
  ⟨_, rfl, C22_metadata_after_upload demoConfig (fun _ => false) (fun _ => false) demoUpload
    demoWorld _ rfl rfl ⟨1700000900, rfl, by decide⟩⟩

/-- C21 fails on the code: `ExpiresIn` is the constant 900 for every configuration, and with a
credential TTL of 30 minutes the credential issued in the same response lives 1800 seconds. -/
theorem C21_expires_in_ignores_ttl :
    (∀ (cfg : Config) (ctx : Ctx) (req : UploadFileRequest) (w : World)
        (resp : UploadFileResponse),
      (cfg.fileUseCase.UploadFile ctx req w).result = Except.ok resp → resp.ExpiresIn = 900) ∧
    ∃ resp e i,
      ({ demoConfig with TokenTTL := 30 * 60 * nsPerSec }.fileUseCase.UploadFile
        (fun _ => false) demoUpload demoWorld).result = Except.ok resp ∧
      resp.ExpiresIn = 900 ∧
      resp.Token.expiresAt = some e ∧ resp.Token.issuedAt = some i ∧ e - i = 1800 := by
  constructor
  · intro cfg ctx req w resp hup
    obtain ⟨key, ct, nonce, path, tok, -, -, -, -, -, hresp, -, -⟩ :=
      UploadFile_ok_inv cfg.fileUseCase ctx req w resp hup
    rw [hresp]
  · exact ⟨_, _, _, rfl, rfl, rfl, rfl, by decide⟩

/-- C26 fails on the code for the storage root ".": `NewStorageService` accepts it and
`SaveEncrypted` succeeds, but `LoadEncrypted` and `Delete` reject the locator it returned with
the error "invalid path traversal attempt". -/
theorem C26_root_dot_rejects_own_locator :
    NewStorageService ".".toList = Except.ok (storageService.mk ".".toList) ∧
    ∃ path,
      ((storageService.mk ".".toList).SaveEncrypted false (utf8Encode "a.txt".toList)
        (List.replicate 12 1) [2, 3, 4] demoWorld).1 = Except.ok path ∧
      ((storageService.mk ".".toList).LoadEncrypted false path
        ((storageService.mk ".".toList).SaveEncrypted false (utf8Encode "a.txt".toList)
          (List.replicate 12 1) [2, 3, 4] demoWorld).2).1
        = Except.error (Err.new "invalid path traversal attempt") ∧
      ((storageService.mk ".".toList).Delete false path
        ((storageService.mk ".".toList).SaveEncrypted false (utf8Encode "a.txt".toList)
          (List.replicate 12 1) [2, 3, 4] demoWorld).2).1
        = some (Err.new "invalid path traversal attempt") ∧
      (((storageService.mk ".".toList).SaveEncrypted false (utf8Encode "a.txt".toList)
          (List.replicate 12 1) [2, 3, 4] demoWorld).2.files path).isSome = true :=
  ⟨rfl, _, rfl, rfl, rfl, rfl⟩

/-- C28 fails on the code: `ValidateUserID` returns nil for " alice ", which contains spaces, and
for 64 letters followed by 37 spaces, which is 101 bytes long; `ListFiles` passes the string on
as it was given, whereas `UploadFile` trims it first. -/
theorem C28_untrimmed_user_id_passes :
    ValidateUserID " alice ".toList = none ∧
    " alice ".toList.all userIDChar = false ∧
    ListFilesUserID " alice ".toList = Except.ok " alice ".toList ∧
    UploadFileUserID " alice ".toList = Except.ok (some "alice".toList) ∧
    ValidateUserID (List.replicate 64 'a' ++ List.replicate 37 ' ') = none ∧
    byteLen (List.replicate 64 'a' ++ List.replicate 37 ' ') = 101 :=
  ⟨by decide, by decide, rfl, rfl, by decide, by decide⟩

/-- C29: for every string, `SanitizeFilename` of it is not empty and contains no double quote, no
slash, no backslash and no two consecutive dots; and `SanitizeFilename` of that result is the
result itself. -/
theorem C29_sanitize_clean_and_idempotent (s : Str) :
    SanitizeFilename s ≠ [] ∧
    quoteChar ∉ SanitizeFilename s ∧
    '/' ∉ SanitizeFilename s ∧
    backslashChar ∉ SanitizeFilename s ∧
    ¬ ['.', '.'] <:+: SanitizeFilename s ∧
    SanitizeFilename (SanitizeFilename s) = SanitizeFilename s := by
  have key : ∀ out : Str, out ≠ [] → quoteChar ∉ out → backslashChar ∉ out → '/' ∉ out →
      ¬ ['.', '.'] <:+: out → SanitizeFilename out = out := by
    intro out hne hq hb hs hd
    unfold SanitizeFilename
    simp only [ReplaceAll_single_fixed out quoteChar [] hq,
      ReplaceAll_single_fixed out backslashChar [] hb,
      ReplaceAll_single_fixed out '/' [] hs,
      ReplaceAll_fixed out ['.', '.'] [] (by simp) hd, if_neg hne]
  have hq := ReplaceAll_single_not_mem quoteChar s
  have hb := ReplaceAll_single_not_mem backslashChar (ReplaceAll s [quoteChar] [])
  have hs := ReplaceAll_single_not_mem '/'
    (ReplaceAll (ReplaceAll s [quoteChar] []) [backslashChar] [])
  have hd := ReplaceAll_dots_no_dots
    (ReplaceAll (ReplaceAll (ReplaceAll s [quoteChar] []) [backslashChar] []) ['/'] [])
  have s2 := ReplaceAll_sublist (ReplaceAll s [quoteChar] []) [backslashChar] (by simp)
  have s3 := ReplaceAll_sublist (ReplaceAll (ReplaceAll s [quoteChar] []) [backslashChar] [])
    ['/'] (by simp)
  have s4 := ReplaceAll_sublist
    (ReplaceAll (ReplaceAll (ReplaceAll s [quoteChar] []) [backslashChar] []) ['/'] [])
    ['.', '.'] (by simp)
  generalize hn1 : ReplaceAll s [quoteChar] [] = n1 at hq hb hs hd s2 s3 s4
  generalize hn2 : ReplaceAll n1 [backslashChar] [] = n2 at hb hs hd s2 s3 s4
  generalize hn3 : ReplaceAll n2 ['/'] [] = n3 at hs hd s3 s4
  generalize hn4 : ReplaceAll n3 ['.', '.'] [] = n4 at hd s4
  have hout : SanitizeFilename s = if n4 = [] then "file".toList else n4 := by
    unfold SanitizeFilename
    simp only [hn1, hn2, hn3, hn4]
  have hq4 : quoteChar ∉ n4 := fun h => hq (s2.subset (s3.subset (s4.subset h)))
  have hb4 : backslashChar ∉ n4 := fun h => hb (s3.subset (s4.subset h))
  have hs4 : '/' ∉ n4 := fun h => hs (s4.subset h)
  have hall : SanitizeFilename s ≠ [] ∧ quoteChar ∉ SanitizeFilename s ∧
      '/' ∉ SanitizeFilename s ∧ backslashChar ∉ SanitizeFilename s ∧
      ¬ ['.', '.'] <:+: SanitizeFilename s := by
    rw [hout]
    by_cases he : n4 = []
    · rw [if_pos he]
      refine ⟨by decide, by decide, by decide, by decide, by decide⟩
    · rw [if_neg he]
      exact ⟨he, hq4, hs4, hb4, hd⟩
  obtain ⟨h1, h2, h3, h4, h5⟩ := hall
  exact ⟨h1, h2, h3, h4, h5, key _ h1 h2 h4 h3 h5⟩

/-- C23, as stated, fails for an extension with capital letters: for the display name "A.TXT"
the locator ends in ".txt.enc", not in ".TXT.enc". -/
theorem C23_extension_is_lowercased :
    ((storageService.mk "uploads".toList).SaveEncrypted false (utf8Encode "A.TXT".toList) [1] [2]
      demoWorld).1
      = Except.ok "encrypted/2023/11/14/030a1118-1f26-4d34-bb42-4950575e656c.txt.enc".toList :=
  rfl


/-- C23, amended: for every display name and every storage service that `NewStorageService`
returns, a locator that `SaveEncrypted` returns is the slash-separated relative path
`encrypted/YYYY/MM/DD/<uuid><ext>.enc`, where YYYY, MM and DD are the year, month and day of the
UTC date its clock reading falls on and `<ext>` is the extension of the display name converted to
lower case (`strings.ToLower`), or ".bin" when the display name has no extension. -/
theorem C23_locator_form (baseDir : Str) (s : storageService) (done : Bool)
    (originalName : GoString) (nonce data : List Byte) (w : World) (path : Str)
    (hnew : NewStorageService baseDir = Except.ok s)
    (hsave : (s.SaveEncrypted done originalName nonce data w).1 = Except.ok path) :
    path = joinSlash
      [encryptedDir, formatYear w.now.1, formatMonth w.now.1, formatDay w.now.1,
       w.now.2.newUUID.1 ++
         (if ToLower (Ext originalName) = [] then ".bin".toList
          else ToLower (Ext originalName)) ++ ".enc".toList] := by
  have hroot : s.baseDir ≠ [] := by
    unfold NewStorageService at hnew
    split at hnew
    · cases hnew
    · rename_i hb
      injection hnew with hnew
      subst hnew
      exact hb
  have hdone : done = false := by
    cases done with
    | false => rfl
    | true => simp [storageService.SaveEncrypted] at hsave
  subst hdone
  have hnonce : nonce ≠ [] := by
    intro h
    subst h
    simp [storageService.SaveEncrypted] at hsave
  have hdata : data ≠ [] := by
    intro h
    subst h
    have hn : ¬ nonce.length = 0 := fun h0 => hnonce (List.length_eq_zero.mp h0)
    simp [storageService.SaveEncrypted, hn] at hsave
  rw [SaveEncrypted_locator s originalName nonce data w hroot hnonce hdata] at hsave
  injection hsave with hsave
  exact hsave.symm

/-- C23 witness: the display name "x.ÄB" under the root "uploads", on 2023-11-14. -/
theorem C23_locator_form_witness :
    ∃ path,
      ((storageService.mk "uploads".toList).SaveEncrypted false (utf8Encode "x.ÄB".toList) [1] [2]
        demoWorld).1 = Except.ok path ∧
      path = "encrypted/2023/11/14/030a1118-1f26-4d34-bb42-4950575e656c.äb.enc".toList :=
  ⟨_, rfl, C23_locator_form "uploads".toList (storageService.mk "uploads".toList) false
    (utf8Encode "x.ÄB".toList) [1] [2] demoWorld _ rfl rfl⟩

/-- C3 fails on the code for the storage root ".": the upload of "hello" succeeds and returns an
id and a credential, and `GetFile` with them, with a live context and before the credential
expires, fails with the error "invalid path traversal attempt" of the store instead of returning
the uploaded bytes. -/
theorem C3_root_dot_upload_then_get_fails :
    NewStorageService ".".toList = Except.ok (storageService.mk ".".toList) ∧
    ∃ resp e,
      ({ demoConfig with UploadsDir := ".".toList }.fileUseCase.UploadFile (fun _ => false)
        demoUpload demoWorld).result = Except.ok resp ∧
      resp.Token.expiresAt = some e ∧
      ((({ demoConfig with UploadsDir := ".".toList }.fileUseCase.UploadFile (fun _ => false)
        demoUpload demoWorld).state.now.1 : Nat) : Int) < e * nsPerSec ∧
      ({ demoConfig with UploadsDir := ".".toList }.fileUseCase.GetFile (fun _ => false)
        { FileID := resp.FileID, Token := resp.Token }
        ({ demoConfig with UploadsDir := ".".toList }.fileUseCase.UploadFile (fun _ => false)
          demoUpload demoWorld).state).result
        = Except.error (Err.wrap "load encrypted" (Err.new "invalid path traversal attempt")) :=
  ⟨rfl, _, _, rfl, rfl, by decide, rfl⟩

end FileHash
